import Mathlib

/-!
Verification development for the single-threaded HNSW graph builder
(`lib/segment/src/index/hnsw_index/graph_linear_builder.rs`).

The Rust source is shallowly embedded: machine integers become `Nat`,
`ScoreType` (an injected, total, deterministic scorer value) becomes `Int`,
fixed-stride flat adjacency arrays become `List Nat`, and the standard
library `BinaryHeap` becomes a list together with maximum extraction (its
observable behaviour under a total order).  External collaborators that are
declared outside the sources at hand (`FixedLengthPriorityQueue`,
`EntryPoints`, the visited pool) are modelled from the specification, as
marked on each definition.
-/

namespace HnswSpec

/-- A scored point: pair of point id and score, §3 of the spec
(`ScoredPointOffset` in the source).  The spec fixes the total order:
by score ascending, ties broken by id. -/
structure ScoredPointOffset where
  idx : Nat
  score : Int
deriving DecidableEq, Repr

/-- The total order on scored points: by score ascending, ties broken by id
(spec §3: "Total order: by score ascending; ties broken by id"). -/
def spoLt (a b : ScoredPointOffset) : Prop :=
  a.score < b.score ∨ (a.score = b.score ∧ a.idx < b.idx)

instance : DecidableRel spoLt := fun a b => by
  unfold spoLt; exact inferInstance

/-- Maximum element of a nonempty list of scored points, as iterating
`max` (this is the observable behaviour of draining the `BinaryHeap`
maximum; the spo order is total and antisymmetric, so the maximum value
is unique). -/
def heapMax : List ScoredPointOffset → Option ScoredPointOffset
  | [] => none
  | x :: xs => some (xs.foldl (fun acc y => if spoLt acc y then y else acc) x)

/-- Popping the maximum of the candidates heap: return the maximum and the
remaining multiset (`BinaryHeap::pop` of the Rust standard library). -/
def heapPop (l : List ScoredPointOffset) : Option (ScoredPointOffset × List ScoredPointOffset) :=
  match heapMax l with
  | none => none
  | some mx => some (mx, l.erase mx)

/-- Ordered insertion into an ascending (by the spo order) list. -/
def insSorted (x : ScoredPointOffset) : List ScoredPointOffset → List ScoredPointOffset
  | [] => [x]
  | y :: t => if spoLt x y then x :: y :: t else y :: insSorted x t

/-- Insertion sort ascending in the spo order.  Because the spo order is a
total order in which order-equivalent elements are equal, this is the
unique sorted arrangement of a multiset, hence also the observable result
of `BinaryHeap::into_sorted_vec`. -/
def sortSpo (l : List ScoredPointOffset) : List ScoredPointOffset :=
  l.foldr insSorted []

/-- Modelled from the spec: `FixedLengthPriorityQueue` lives in
`spaces/tools.rs`, which is not among the sources at hand.  Spec §4.5: a
fixed-capacity max-beam of size `ef_construct` retaining the
highest-scoring points; its top is the worst kept element; drained it
yields elements ascending by score; a push at capacity either replaces the
worst element (returning it) if the new element is better, or returns the
new element itself (§9.5).  The kept elements are represented as a list
sorted ascending in the spo order, so the worst kept element is the
head. -/
structure FixedLengthPriorityQueue where
  capacity : Nat
  elems : List ScoredPointOffset
deriving DecidableEq, Repr

namespace FixedLengthPriorityQueue

def new (cap : Nat) : FixedLengthPriorityQueue := ⟨cap, []⟩

/-- Push returning the evicted element (`None` while below capacity). -/
def push (q : FixedLengthPriorityQueue) (x : ScoredPointOffset) :
    Option ScoredPointOffset × FixedLengthPriorityQueue :=
  if q.elems.length < q.capacity then (none, ⟨q.capacity, insSorted x q.elems⟩)
  else
    match q.elems with
    | [] => (some x, q)
    | worst :: rest =>
      if spoLt worst x then (some worst, ⟨q.capacity, insSorted x rest⟩)
      else (some x, q)

/-- The worst kept element (`FixedLengthPriorityQueue::top`). -/
def top (q : FixedLengthPriorityQueue) : Option ScoredPointOffset := q.elems.head?

/-- Draining the queue to a vector, best first (descending): the reverse
of the ascending element list. -/
def into_vec (q : FixedLengthPriorityQueue) : List ScoredPointOffset := q.elems.reverse

end FixedLengthPriorityQueue

/-- Modelled from the spec: the entry point record of `entry_points.rs`
(not among the sources at hand), §4.2: a pair of point id and level. -/
structure EntryPoint where
  id : Nat
  level : Nat
deriving DecidableEq, Repr

/-- Modelled from the spec: the Entry-Point Registry of `entry_points.rs`
(not among the sources at hand), §3/§4.2: it holds up to
`entry_points_num` records. -/
structure EntryPoints where
  num : Nat
  points : List EntryPoint
deriving DecidableEq, Repr

namespace EntryPoints

def new (num : Nat) : EntryPoints := ⟨num, []⟩

/-- The current best entry: the one with the largest level among the
records (earliest such record kept on ties). -/
def bestEntry : List EntryPoint → Option EntryPoint
  | [] => none
  | e :: t => some (t.foldl (fun acc x => if x.level > acc.level then x else acc) e)

/-- Modelled from the spec, §4.2: "`new_point(p, L_p, admit) →
Option<(id, level)>`: records p as a candidate entry, returns the prior
best admitted entry, or None if the registry was empty".  In the core
build the admit predicate is constant-true, so it is omitted.  The spec
does not fix the eviction rule once `num` records are held; the model
keeps the existing records in that case. -/
def new_point (eps : EntryPoints) (p level : Nat) : Option EntryPoint × EntryPoints :=
  let best := bestEntry eps.points
  let pts := if eps.points.length < eps.num then eps.points ++ [⟨p, level⟩] else eps.points
  (best, ⟨eps.num, pts⟩)

end EntryPoints

/-- Write the elements of `xs` into `l` starting at position `i`,
replacing the previous contents (the model of an in-place indexed store
plus `copy_from_slice`).  Within bounds (`i + xs.length ≤ l.length`) this
is exactly the Rust behaviour; outside them the Rust code panics. -/
def writeAt (l : List Nat) (i : Nat) (xs : List Nat) : List Nat :=
  l.take i ++ xs ++ l.drop (i + xs.length)

/-- The builder state (`GraphLinearBuilder` of
`graph_linear_builder.rs`).  The scorer is the injected `RawScorer`
capability; the visited pool holds no observable state and is modelled
per search invocation. -/
structure GraphLinearBuilder where
  m : Nat
  m0 : Nat
  ef_construct : Nat
  links_layers : List (List Nat)
  entry_points : EntryPoints
  point_levels : List Nat
  score_fn : Nat → Nat → Int

/-- A link request (`GraphLinkRequest`). -/
structure GraphLinkRequest where
  point_id : Nat
  level : Nat
  entry : ScoredPointOffset
deriving DecidableEq, Repr

/-- A link response (`GraphLinkResponse`). -/
structure GraphLinkResponse where
  point_id : Nat
  level : Nat
  entry : ScoredPointOffset
  links : List Nat
  neighbor_ids : List Nat
  neighbor_links : List (List Nat)
deriving DecidableEq, Repr

/-- `GraphLinkResponse::next_request`: descend one level while above the
base layer. -/
def next_request (r : GraphLinkResponse) : Option GraphLinkRequest :=
  if r.level > 0 then some ⟨r.point_id, r.level - 1, r.entry⟩ else none

namespace GraphLinearBuilder

/-- `GraphLinearBuilder::new`: one flat zero-initialized layer array per
level `0..=levels_count`, of stride `level_m + 1` per point.
`levels.iter().max().unwrap()` requires a nonempty `levels`; the fold
with base 0 coincides with it there. -/
def new (levels : List Nat) (m m0 ef_construct entry_points_num : Nat)
    (score_fn : Nat → Nat → Int) : GraphLinearBuilder :=
  let levels_count := levels.foldl Nat.max 0
  let links_layers := (List.range (levels_count + 1)).map (fun i =>
    let level_m := if i = 0 then m0 else m
    List.replicate ((level_m + 1) * levels.length) 0)
  { m := m
    m0 := m0
    ef_construct := ef_construct
    links_layers := links_layers
    entry_points := EntryPoints.new entry_points_num
    point_levels := levels
    score_fn := score_fn }

/-- `get_m`: maximum degree per level, `m0` at the base layer and `m`
above. -/
def get_m (s : GraphLinearBuilder) (level : Nat) : Nat :=
  if level = 0 then s.m0 else s.m

def get_point_level (s : GraphLinearBuilder) (point_id : Nat) : Nat :=
  s.point_levels.getD point_id 0

def score (s : GraphLinearBuilder) (a b : Nat) : Int := s.score_fn a b

def num_points (s : GraphLinearBuilder) : Nat := s.point_levels.length

/-- `get_links`: read the stored neighbour list of `point_id` at `level`
from the flat layer array: the cell at `start_index = point_id * (level_m + 1)`
is the count, the following cells the ids. -/
def get_links (s : GraphLinearBuilder) (point_id level : Nat) : List Nat :=
  ((s.links_layers.getD level []).drop (point_id * (get_m s level + 1) + 1)).take
    ((s.links_layers.getD level []).getD (point_id * (get_m s level + 1)) 0)

/-- `set_links`: store the count then the ids at the point's slot. -/
def set_links (s : GraphLinearBuilder) (point_id level : Nat) (links : List Nat) :
    GraphLinearBuilder :=
  { s with
    links_layers := s.links_layers.set level
      (writeAt (s.links_layers.getD level []) (point_id * (get_m s level + 1))
        (links.length :: links)) }

/-- The loop body of `select_candidate_with_heuristic_from_sorted`:
scan the candidates in order; stop scanning once `m` are selected; admit a
candidate iff its score against every already selected point does not
exceed its own (query) score. -/
def select_loop (s : GraphLinearBuilder) (m : Nat) :
    List ScoredPointOffset → List Nat → List Nat
  | [], acc => acc
  | c :: rest, acc =>
    if m ≤ acc.length then acc
    else if ∀ sel ∈ acc, score s c.idx sel ≤ c.score then
      select_loop s m rest (acc ++ [c.idx])
    else
      select_loop s m rest acc

/-- `select_candidate_with_heuristic_from_sorted` (the neighbour
heuristic of hnswlib issue 99). -/
def select_candidate_with_heuristic_from_sorted (s : GraphLinearBuilder)
    (candidates : List ScoredPointOffset) (m : Nat) : List Nat :=
  select_loop s m candidates []

end GraphLinearBuilder

/-- The state threaded through one `search_on_level` invocation: the
checked-out visited list (a set of marked ids), the `nearest` beam, and
the `candidates` max-heap. -/
structure SearchState where
  visited : List Nat
  nearest : FixedLengthPriorityQueue
  candidates : List ScoredPointOffset
deriving Repr

/-- `process_candidate`: offer a scored point to the beam; push it onto
the candidates heap only when the element displaced from the beam was not
the offered point itself. -/
def process_candidate (nearest : FixedLengthPriorityQueue)
    (candidates : List ScoredPointOffset) (score_point : ScoredPointOffset) :
    FixedLengthPriorityQueue × List ScoredPointOffset :=
  let pushed := nearest.push score_point
  let was_added := match pushed.1 with
    | none => true
    | some removed => removed.idx ≠ score_point.idx
  (pushed.2, if was_added then score_point :: candidates else candidates)

/-- Expansion of one popped candidate in `search_on_level`: walk its
stored links; any link not yet visited is marked
(`check_and_update_visited`), scored against the query, and processed. -/
def expand (s : GraphLinearBuilder) (id : Nat) :
    List Nat → SearchState → SearchState
  | [], st => st
  | link :: rest, st =>
    if link ∈ st.visited then expand s id rest st
    else
      expand s id rest
        { visited := link :: st.visited
          nearest := (process_candidate st.nearest st.candidates
            ⟨link, GraphLinearBuilder.score s link id⟩).1
          candidates := (process_candidate st.nearest st.candidates
            ⟨link, GraphLinearBuilder.score s link id⟩).2 }

/-- The best-first loop of `search_on_level`.  Each iteration pops the
maximum of the candidates heap; if its score is strictly below the score
of the worst element kept in the beam the loop breaks, otherwise the
candidate is expanded.  The fuel argument bounds the number of
iterations; `num_points + 1` iterations always suffice because every heap
entry consumed a fresh visited mark (the Rust loop runs until the heap is
empty). -/
def searchLoop (s : GraphLinearBuilder) (id level : Nat) :
    Nat → SearchState → SearchState
  | 0, st => st
  | fuel + 1, st =>
    match heapPop st.candidates with
    | none => st
    | some (candidate, rest) =>
      let brk : Bool := match st.nearest.top with
        | none => false
        | some worst => decide (candidate.score < worst.score)
      if brk then { st with candidates := rest }
      else
        let links := GraphLinearBuilder.get_links s candidate.idx level
        searchLoop s id level fuel (expand s id links { st with candidates := rest })

/-- The loop body of the pass over the query's own pre-existing links
after the main loop of `search_on_level`: each listed link that is not
yet visited (a peek, `check`, which does not mark) is scored and
processed.  Note the argument order `score(id, existing_link)` of the
source. -/
def offerExisting (s : GraphLinearBuilder) (id : Nat) :
    List Nat → SearchState → SearchState
  | [], st => st
  | link :: rest, st =>
    if link ∈ st.visited then offerExisting s id rest st
    else
      offerExisting s id rest
        { st with
          nearest := (process_candidate st.nearest st.candidates
            ⟨link, GraphLinearBuilder.score s id link⟩).1
          candidates := (process_candidate st.nearest st.candidates
            ⟨link, GraphLinearBuilder.score s id link⟩).2 }

/-- The pass over the query's own pre-existing links. -/
def existingLinksPass (s : GraphLinearBuilder) (id level : Nat)
    (st : SearchState) : SearchState :=
  offerExisting s id (GraphLinearBuilder.get_links s id level) st

/-- The final pass as the specification words it ("offer it through the
same process" as expansion): each not-yet-visited listed link is MARKED
visited, scored, and offered to both queues.  The source's pass instead
only peeks at the visited set (`check`), which `offerExisting` models;
this variant exists to compare the two.  The score argument order of the
source's pass is kept so that the only difference is the marking. -/
def offerExistingMarking (s : GraphLinearBuilder) (id : Nat) :
    List Nat → SearchState → SearchState
  | [], st => st
  | link :: rest, st =>
    if link ∈ st.visited then offerExistingMarking s id rest st
    else
      offerExistingMarking s id rest
        { visited := link :: st.visited
          nearest := (process_candidate st.nearest st.candidates
            ⟨link, GraphLinearBuilder.score s id link⟩).1
          candidates := (process_candidate st.nearest st.candidates
            ⟨link, GraphLinearBuilder.score s id link⟩).2 }

namespace GraphLinearBuilder

/-- The initial search state of `search_on_level`: the entry is marked
visited and seeds both the beam and the candidates heap. -/
def searchInit (s : GraphLinearBuilder) (level_entry : ScoredPointOffset) : SearchState :=
  { visited := [level_entry.idx]
    nearest := ((FixedLengthPriorityQueue.new s.ef_construct).push level_entry).2
    candidates := [level_entry] }

/-- `search_on_level`. -/
def search_on_level (s : GraphLinearBuilder) (id : Nat)
    (level_entry : ScoredPointOffset) (level : Nat) : FixedLengthPriorityQueue :=
  let st0 := searchInit s level_entry
  let st1 := searchLoop s id level (num_points s + 1) st0
  (existingLinksPass s id level st1).nearest

/-- The variant of `search_on_level` whose final pass marks each offered
link visited, as the specification describes ("offer it through the same
process"); used to compare with the source's peek-only pass. -/
def search_on_level_marking (s : GraphLinearBuilder) (id : Nat)
    (level_entry : ScoredPointOffset) (level : Nat) : FixedLengthPriorityQueue :=
  let st0 := searchInit s level_entry
  let st1 := searchLoop s id level (num_points s + 1) st0
  (offerExistingMarking s id (get_links s id level) st1).nearest

/-- One full scan of the current best's links in `search_entry`: move to
any link scoring strictly better than the current best (the scan keeps
walking the same link list as the current point improves, exactly as the
source's `for` loop does). -/
def greedyScan (s : GraphLinearBuilder) (id level : Nat)
    (cur : ScoredPointOffset) : ScoredPointOffset :=
  (get_links s cur.idx level).foldl (fun c link =>
    let sc := score s link id
    if c.score < sc then ⟨link, sc⟩ else c) cur

/-- The `while changed` loop of `search_entry` on one level: rescan from
the updated point until a scan yields no improvement.  A scan improves
the score strictly, so `num_points + 1` rescans always suffice. -/
def greedyLoop (s : GraphLinearBuilder) (id level : Nat) :
    Nat → ScoredPointOffset → ScoredPointOffset
  | 0, cur => cur
  | fuel + 1, cur =>
    let next := greedyScan s id level cur
    if cur.score < next.score then greedyLoop s id level fuel next else cur

/-- `rev_range(a, b)` of `common/utils.rs` (not among the sources at
hand); spec §4.6: the levels from `top_level` down to `target_level + 1`,
exclusive of `target_level`. -/
def rev_range (a b : Nat) : List Nat := (List.range' (b + 1) (a - b)).reverse

/-- `search_entry`: greedy hill-climb from the top level down to just
above the target level. -/
def search_entry (s : GraphLinearBuilder) (id entry_point top_level target_level : Nat) :
    ScoredPointOffset :=
  let start : ScoredPointOffset := ⟨entry_point, score s id entry_point⟩
  (rev_range top_level target_level).foldl
    (fun cur level => greedyLoop s id level (num_points s + 1) cur) start

/-- `link`: search the level, select the new point's neighbours with the
heuristic, and compute the updated neighbour lists.  A neighbour below
capacity gets the new point appended; a full neighbour's list is
re-pruned with the heuristic over the new point plus its first `level_m`
stored links, fed in descending order (the source accumulates them in a
`BinaryHeap` and reverses `into_sorted_vec`; `sortSpo` is the observable
result of that sort). -/
def link (s : GraphLinearBuilder) (request : GraphLinkRequest) : GraphLinkResponse :=
  let nearest_points := search_on_level s request.point_id request.entry request.level
  let entry := (heapMax nearest_points.elems).getD request.entry
  let level_m := get_m s request.level
  let links := select_candidate_with_heuristic_from_sorted s
    nearest_points.into_vec level_m
  let neighbor_links := links.map (fun other_point =>
    let other_point_links := get_links s other_point request.level
    if other_point_links.length < level_m then
      other_point_links ++ [request.point_id]
    else
      let candidates : List ScoredPointOffset :=
        ⟨request.point_id, score s request.point_id other_point⟩ ::
          (other_point_links.take level_m).map
            (fun l => ⟨l, score s l other_point⟩)
      select_candidate_with_heuristic_from_sorted s
        (sortSpo candidates).reverse level_m)
  { point_id := request.point_id
    level := request.level
    entry := entry
    links := links
    neighbor_ids := links
    neighbor_links := neighbor_links }

/-- `apply_link_response`: write the new point's list, then each updated
neighbour list, at the response's level. -/
def apply_link_response (s : GraphLinearBuilder) (r : GraphLinkResponse) :
    GraphLinearBuilder :=
  let s1 := set_links s r.point_id r.level r.links
  (r.neighbor_ids.zip r.neighbor_links).foldl
    (fun st p => set_links st p.1 r.level p.2) s1

/-- `get_link_request`: register the point with the entry registry; with
no prior entry there is nothing to link.  A prior entry above the point's
level is refined by greedy descent, otherwise it is scored directly; the
request level is the minimum of the point's and the entry's level. -/
def get_link_request (s : GraphLinearBuilder) (point_id : Nat) :
    GraphLinearBuilder × Option GraphLinkRequest :=
  let level := get_point_level s point_id
  let np := s.entry_points.new_point point_id level
  let s' := { s with entry_points := np.2 }
  match np.1 with
  | none => (s', none)
  | some entry_point =>
    let entry :=
      if level < entry_point.level then
        search_entry s' point_id entry_point.id entry_point.level level
      else
        ⟨entry_point.id, score s point_id entry_point.id⟩
    (s', some ⟨point_id, min level entry_point.level, entry⟩)

/-- The `while let` loop of `link_new_point`: link at the current level,
apply the response, and continue with `next_request`, which descends one
level until the base layer (`response.level = request.level` holds by
definition of `link`, so structural recursion on the level realizes the
loop). -/
def link_level (point_id : Nat) :
    Nat → GraphLinearBuilder → ScoredPointOffset → GraphLinearBuilder
  | 0, s, entry => apply_link_response s (link s ⟨point_id, 0, entry⟩)
  | level + 1, s, entry =>
    let response := link s ⟨point_id, level + 1, entry⟩
    link_level point_id level (apply_link_response s response) response.entry

/-- `link_new_point`. -/
def link_new_point (s : GraphLinearBuilder) (point_id : Nat) : GraphLinearBuilder :=
  match get_link_request s point_id with
  | (s', none) => s'
  | (s', some r) => link_level r.point_id r.level s' r.entry

end GraphLinearBuilder

/-! ### The neighbour heuristic (claim C2) -/

/-- A candidate list sorted descending by score. -/
def SortedDesc (l : List ScoredPointOffset) : Prop :=
  l.Pairwise (fun a b => b.score ≤ a.score)

instance (l : List ScoredPointOffset) : Decidable (SortedDesc l) := by
  unfold SortedDesc; exact inferInstance

namespace GraphLinearBuilder

/-- The admit-iff characterization of the heuristic: scanning the
candidates in order, a candidate is admitted exactly when fewer than `m`
are already admitted and its score against every already admitted point
does not exceed its own score. -/
def selectChar (s : GraphLinearBuilder) (m : Nat)
    (candidates : List ScoredPointOffset) : List Nat :=
  candidates.foldl (fun acc c =>
    if acc.length < m ∧ ∀ sel ∈ acc, score s c.idx sel ≤ c.score then acc ++ [c.idx]
    else acc) []

end GraphLinearBuilder

def wBuilder : GraphLinearBuilder :=
  GraphLinearBuilder.new [0, 0] 1 2 4 10
    (fun a b => if (a = 0 ∧ b = 1) ∨ (a = 1 ∧ b = 0) then 9 else 0)

namespace GraphLinearBuilder

/-- The layer arrays have their constructed lengths: `(M(l)+1) · N` cells
for each existing layer `l`. -/
def LayerInv (s : GraphLinearBuilder) : Prop :=
  ∀ l, l < s.links_layers.length →
    (s.links_layers.getD l []).length = (get_m s l + 1) * s.num_points

/-- Every count cell respects the per-level degree bound. -/
def CountInv (s : GraphLinearBuilder) : Prop :=
  ∀ p l, (s.links_layers.getD l []).getD (p * (get_m s l + 1)) 0 ≤ get_m s l

/-- A sequence of raw `set_links` writes, each given as
`(point_id, level, links)`. -/
def applyWrites (s : GraphLinearBuilder) (ws : List (Nat × Nat × List Nat)) :
    GraphLinearBuilder :=
  ws.foldl (fun st w => set_links st w.1 w.2.1 w.2.2) s

end GraphLinearBuilder

/-- A list ascending in the spo order (weakly, but order-equal elements
are equal, so weak and strict ascent differ only on duplicates). -/
def AscSpo (l : List ScoredPointOffset) : Prop :=
  l.Pairwise (fun a b => ¬ spoLt b a)

instance (l : List ScoredPointOffset) : Decidable (AscSpo l) := by
  unfold AscSpo; exact inferInstance

/-- The representation invariant of the beam queue: original capacity,
size within capacity, elements ascending (worst kept first). -/
def QueueInv (ef : Nat) (q : FixedLengthPriorityQueue) : Prop :=
  q.capacity = ef ∧ q.elems.length ≤ ef ∧ AscSpo q.elems

/-- While the beam is below capacity nothing has ever been displaced from
it, so every pending candidate still sits in the beam. -/
def NotFullSubset (st : SearchState) : Prop :=
  st.nearest.elems.length < st.nearest.capacity →
    ∀ c ∈ st.candidates, c ∈ st.nearest.elems

/-- The invariant of the best-first loop of `search_on_level`. -/
def SearchLoopInv (ef : Nat) (st : SearchState) : Prop :=
  QueueInv ef st.nearest ∧ NotFullSubset st

/-- The early-termination condition of the best-first loop: the popped
candidate scores strictly below the worst element kept in the beam. -/
def loopBreak (st : SearchState) (c : ScoredPointOffset) : Prop :=
  ∃ worst, st.nearest.top = some worst ∧ c.score < worst.score

/-- A concrete builder whose point 0 stores the duplicated neighbour
list `[1, 1]` at level 0, exhibiting the observable difference between
the source's peek-only final pass and the marking variant. -/
def c4Builder : GraphLinearBuilder :=
  GraphLinearBuilder.set_links
    (GraphLinearBuilder.new [0, 0, 0] 2 4 4 10 (fun _ _ => 5)) 0 0 [1, 1]

/-- The ids a level search can ever touch: the entry id and the ids
stored in some neighbour list of this level. -/
def SearchScope (s : GraphLinearBuilder) (level E x : Nat) : Prop :=
  x = E ∨ ∃ q, x ∈ GraphLinearBuilder.get_links s q level

/-- The bookkeeping invariant of a level search: visited ids are in
scope, beam members are visited, beam ids are distinct, pending
candidates are visited. -/
def SearchStateOK (s : GraphLinearBuilder) (level E : Nat) (st : SearchState) : Prop :=
  (∀ v ∈ st.visited, SearchScope s level E v) ∧
  (∀ e ∈ st.nearest.elems, e.idx ∈ st.visited) ∧
  (st.nearest.elems.map (fun e => e.idx)).Nodup ∧
  (∀ c ∈ st.candidates, c.idx ∈ st.visited)

namespace GraphLinearBuilder

/-- A sequence of `set_links` writes at one fixed level, given as
`(point_id, links)` pairs; `apply_link_response` is such a sequence. -/
def writePairs (level : Nat) (s : GraphLinearBuilder) (pairs : List (Nat × List Nat)) :
    GraphLinearBuilder :=
  pairs.foldl (fun st pr => set_links st pr.1 level pr.2) s

end GraphLinearBuilder

/-- The induction invariant of a whole build: the flat storage is intact
(`LayerInv`, `CountInv`), the construction parameters are unchanged, the
registry holds linked points, and every stored neighbour list is
duplicate-free, self-loop-free, mentions only linked points, and is empty
for points never linked. -/
def RunInv (levels0 linked : List Nat) (s : GraphLinearBuilder) : Prop :=
  GraphLinearBuilder.LayerInv s ∧
  GraphLinearBuilder.CountInv s ∧
  s.point_levels = levels0 ∧
  s.links_layers.length = levels0.foldl Nat.max 0 + 1 ∧
  (∀ x ∈ linked, x < levels0.length) ∧
  (∀ e ∈ s.entry_points.points, e.id ∈ linked) ∧
  (∀ p l, (GraphLinearBuilder.get_links s p l).Nodup) ∧
  (∀ p l, p ∉ GraphLinearBuilder.get_links s p l) ∧
  (∀ p l x, x ∈ GraphLinearBuilder.get_links s p l → x ∈ linked) ∧
  (∀ p, p ∉ linked → ∀ l, GraphLinearBuilder.get_links s p l = [])

/-- During the insertion of `p`, at every level up to the one currently
being linked, `p` has no stored list and sits in nobody's list. -/
def FreshBelow (s : GraphLinearBuilder) (p lvl : Nat) : Prop :=
  ∀ l, l ≤ lvl → GraphLinearBuilder.get_links s p l = [] ∧
    ∀ q, p ∉ GraphLinearBuilder.get_links s q l

/-- Modelled from the spec: the parallel-capable reference implementation
(`graph_layers_builder.rs`, the oracle of §8) is not among the sources at
hand.  Its state is modelled from §2–§4: the same construction parameters
and entry registry, and an adjacency map satisfying the §4.1 store
contract (`get_links` returns the last list written), which abstracts the
oracle's own storage. -/
structure RefBuilder where
  m : Nat
  m0 : Nat
  ef_construct : Nat
  links : Nat → Nat → List Nat
  entry_points : EntryPoints
  point_levels : List Nat
  score_fn : Nat → Nat → Int

namespace RefBuilder

/-- Modelled from the spec, §6: a fresh builder with empty adjacency. -/
def new (levels : List Nat) (m m0 ef_construct entry_points_num : Nat)
    (score_fn : Nat → Nat → Int) : RefBuilder :=
  { m := m
    m0 := m0
    ef_construct := ef_construct
    links := fun _ _ => []
    entry_points := EntryPoints.new entry_points_num
    point_levels := levels
    score_fn := score_fn }

/-- Modelled from the spec, §3: `M(0) = m0`, `M(ℓ>0) = m`. -/
def get_m (t : RefBuilder) (level : Nat) : Nat :=
  if level = 0 then t.m0 else t.m

/-- Modelled from the spec, §4.1: `set_links` replaces one point's list
at one layer. -/
def set_links (t : RefBuilder) (p level : Nat) (xs : List Nat) : RefBuilder :=
  { t with links := fun q l => if q = p ∧ l = level then xs else t.links q l }

/-- Modelled from the spec, §4.7: scan the descending candidates in
order, admit `c` iff every already admitted point scores against `c` at
most `c`'s own score, stop once `M` are admitted. -/
def refSelect (t : RefBuilder) (m : Nat) :
    List ScoredPointOffset → List Nat → List Nat
  | [], acc => acc
  | c :: rest, acc =>
    if acc.length = m then acc
    else if ∀ sel ∈ acc, t.score_fn c.idx sel ≤ c.score then
      refSelect t m rest (acc ++ [c.idx])
    else
      refSelect t m rest acc

/-- Modelled from the spec, §4.5 step 3: expansion of one popped
candidate (the offer rule of §4.5/§9.5 is `process_candidate`). -/
def refExpand (t : RefBuilder) (id : Nat) :
    List Nat → SearchState → SearchState
  | [], st => st
  | n :: rest, st =>
    if n ∈ st.visited then refExpand t id rest st
    else
      refExpand t id rest
        { visited := n :: st.visited
          nearest := (process_candidate st.nearest st.candidates
            ⟨n, t.score_fn n id⟩).1
          candidates := (process_candidate st.nearest st.candidates
            ⟨n, t.score_fn n id⟩).2 }

/-- Modelled from the spec, §4.5 step 2: pop the best pending candidate;
stop when it scores below the worst kept beam element, else expand. -/
def refSearchLoop (t : RefBuilder) (id level : Nat) :
    Nat → SearchState → SearchState
  | 0, st => st
  | fuel + 1, st =>
    match heapPop st.candidates with
    | none => st
    | some (candidate, rest) =>
      let brk : Bool := match st.nearest.top with
        | none => false
        | some worst => decide (candidate.score < worst.score)
      if brk then { st with candidates := rest }
      else
        refSearchLoop t id level fuel
          (refExpand t id (t.links candidate.idx level) { st with candidates := rest })

/-- Modelled from the spec, §4.5 step 4: every not-yet-visited stored
link of the query is offered through the same process as step 3
(marking it visited). -/
def refOfferExisting (t : RefBuilder) (id : Nat) :
    List Nat → SearchState → SearchState
  | [], st => st
  | n :: rest, st =>
    if n ∈ st.visited then refOfferExisting t id rest st
    else
      refOfferExisting t id rest
        { visited := n :: st.visited
          nearest := (process_candidate st.nearest st.candidates
            ⟨n, t.score_fn n id⟩).1
          candidates := (process_candidate st.nearest st.candidates
            ⟨n, t.score_fn n id⟩).2 }

/-- Modelled from the spec, §4.5: seed with the entry (step 1), loop
(steps 2–3), then the query's own pre-existing links (step 4), and
return the beam (step 5). -/
def refSearchOnLevel (t : RefBuilder) (id : Nat) (entry : ScoredPointOffset)
    (level : Nat) : FixedLengthPriorityQueue :=
  let st0 : SearchState :=
    { visited := [entry.idx]
      nearest := ((FixedLengthPriorityQueue.new t.ef_construct).push entry).2
      candidates := [entry] }
  let st1 := refSearchLoop t id level (t.point_levels.length + 1) st0
  (refOfferExisting t id (t.links id level) st1).nearest

/-- Modelled from the spec, §4.6: one hill-climb scan over the current
best's neighbours. -/
def refGreedyScan (t : RefBuilder) (id level : Nat)
    (cur : ScoredPointOffset) : ScoredPointOffset :=
  (t.links cur.idx level).foldl (fun c n =>
    let sc := t.score_fn n id
    if c.score < sc then ⟨n, sc⟩ else c) cur

/-- Modelled from the spec, §4.6: rescan until no improvement. -/
def refGreedyLoop (t : RefBuilder) (id level : Nat) :
    Nat → ScoredPointOffset → ScoredPointOffset
  | 0, cur => cur
  | fuel + 1, cur =>
    let next := refGreedyScan t id level cur
    if cur.score < next.score then refGreedyLoop t id level fuel next else cur

/-- Modelled from the spec, §4.6: greedy descent from `top_level` down to
`target_level + 1`. -/
def refSearchEntry (t : RefBuilder) (id entry_point top_level target_level : Nat) :
    ScoredPointOffset :=
  let start : ScoredPointOffset := ⟨entry_point, t.score_fn id entry_point⟩
  (GraphLinearBuilder.rev_range top_level target_level).foldl
    (fun cur level => refGreedyLoop t id level (t.point_levels.length + 1) cur) start

/-- Modelled from the spec, §4.8 step 5 (a–e): search the level, reverse
the drained queue to descending order, select with the heuristic, write
the new point's list, update each selected neighbour (append below
capacity, else re-prune the descending-by-score sort of the new point and
the neighbour's first `M(ℓ)` links), and pass on the highest-scoring
search result as the next entry (the present one if the search came back
empty). -/
def refLinkLevel (t : RefBuilder) (p level : Nat) (entry : ScoredPointOffset) :
    RefBuilder × ScoredPointOffset :=
  let res := refSearchOnLevel t p entry level
  let lks := refSelect t (t.get_m level) res.elems.reverse []
  let t1 := t.set_links p level lks
  let t2 := lks.foldl (fun tc q =>
    tc.set_links q level
      (if (tc.links q level).length < t.get_m level then
        tc.links q level ++ [p]
      else
        refSelect t (t.get_m level)
          (sortSpo (⟨p, t.score_fn p q⟩ ::
            ((tc.links q level).take (t.get_m level)).map
              (fun x => ⟨x, t.score_fn x q⟩))).reverse [])) t1
  (t2, (heapMax res.elems).getD entry)

/-- Modelled from the spec, §4.8 step 5: process the levels from
`ℓ_start` down to 0. -/
def refLinkLoop (p : Nat) :
    Nat → RefBuilder → ScoredPointOffset → RefBuilder
  | 0, t, entry => (refLinkLevel t p 0 entry).1
  | level + 1, t, entry =>
    let r := refLinkLevel t p (level + 1) entry
    refLinkLoop p level r.1 r.2

/-- Modelled from the spec, §4.8 steps 1–5: register the point, stop if
the registry was empty, refine the entry by descent when it lies above
the point's level, and link each level downward. -/
def link_new_point (t : RefBuilder) (p : Nat) : RefBuilder :=
  let level := t.point_levels.getD p 0
  let np := t.entry_points.new_point p level
  let t1 := { t with entry_points := np.2 }
  match np.1 with
  | none => t1
  | some entry_point =>
    let entry :=
      if level < entry_point.level then
        refSearchEntry t1 p entry_point.id entry_point.level level
      else ⟨entry_point.id, t.score_fn p entry_point.id⟩
    refLinkLoop p (min level entry_point.level) t1 entry

/-- The fixed-level write sequence of the reference store. -/
def refWritePairs (level : Nat) (t : RefBuilder) (pairs : List (Nat × List Nat)) :
    RefBuilder :=
  pairs.foldl (fun tc pr => tc.set_links pr.1 level pr.2) t

end RefBuilder

/-- The simulation relation of the equivalence proof: equal parameters,
equal registry, and pointwise equal adjacency. -/
def SimR (s : GraphLinearBuilder) (t : RefBuilder) : Prop :=
  s.m = t.m ∧ s.m0 = t.m0 ∧ s.ef_construct = t.ef_construct ∧
  s.point_levels = t.point_levels ∧ s.entry_points = t.entry_points ∧
  s.score_fn = t.score_fn ∧
  ∀ p l, GraphLinearBuilder.get_links s p l = t.links p l

/-! ## Theorems -/

theorem spoLt_irrefl (a : ScoredPointOffset) : ¬ spoLt a a := by
  simp [spoLt]

theorem spoLt_trans {a b c : ScoredPointOffset} (h1 : spoLt a b) (h2 : spoLt b c) :
    spoLt a c := by
  rcases h1 with h1 | ⟨h1s, h1i⟩ <;> rcases h2 with h2 | ⟨h2s, h2i⟩
  · exact Or.inl (lt_trans h1 h2)
  · exact Or.inl (h2s ▸ h1)
  · exact Or.inl (h1s ▸ h2)
  · exact Or.inr ⟨h1s.trans h2s, lt_trans h1i h2i⟩

theorem spoLt_total (a b : ScoredPointOffset) :
    spoLt a b ∨ a = b ∨ spoLt b a := by
  rcases lt_trichotomy a.score b.score with h | h | h
  · exact Or.inl (Or.inl h)
  · rcases lt_trichotomy a.idx b.idx with hi | hi | hi
    · exact Or.inl (Or.inr ⟨h, hi⟩)
    · refine Or.inr (Or.inl ?_)
      cases a; cases b; simp_all
    · exact Or.inr (Or.inr (Or.inr ⟨h.symm, hi⟩))
  · exact Or.inr (Or.inr (Or.inl h))

theorem spoLt_asymm {a b : ScoredPointOffset} (h : spoLt a b) : ¬ spoLt b a := by
  intro h2
  exact spoLt_irrefl a (spoLt_trans h h2)

/-- Not-lt means ge in the spo order (with equality only for equal values). -/
theorem spoLt_not_iff {a b : ScoredPointOffset} :
    ¬ spoLt a b ↔ (a = b ∨ spoLt b a) := by
  constructor
  · intro h
    rcases spoLt_total a b with h1 | h1 | h1
    · exact absurd h1 h
    · exact Or.inl h1
    · exact Or.inr h1
  · rintro (rfl | h1)
    · exact spoLt_irrefl a
    · exact spoLt_asymm h1

theorem heapMax_isSome {l : List ScoredPointOffset} (h : l ≠ []) :
    (heapMax l).isSome := by
  cases l with
  | nil => simp at h
  | cons x xs => simp [heapMax]

theorem foldlMax_mem (x : ScoredPointOffset) (xs : List ScoredPointOffset) :
    xs.foldl (fun acc y => if spoLt acc y then y else acc) x ∈ x :: xs := by
  induction xs generalizing x with
  | nil => simp
  | cons y ys ih =>
    simp only [List.foldl_cons]
    by_cases hxy : spoLt x y
    · simp only [if_pos hxy]
      rcases List.mem_cons.mp (ih y) with h | h
      · rw [h]
        exact List.mem_cons_of_mem _ (List.mem_cons_self y ys)
      · exact List.mem_cons_of_mem _ (List.mem_cons_of_mem _ h)
    · simp only [if_neg hxy]
      rcases List.mem_cons.mp (ih x) with h | h
      · rw [h]
        exact List.mem_cons_self x (y :: ys)
      · exact List.mem_cons_of_mem _ (List.mem_cons_of_mem _ h)

theorem foldlMax_ge (x : ScoredPointOffset) (xs : List ScoredPointOffset) :
    ∀ z ∈ x :: xs,
      z = xs.foldl (fun acc y => if spoLt acc y then y else acc) x ∨
        spoLt z (xs.foldl (fun acc y => if spoLt acc y then y else acc) x) := by
  induction xs generalizing x with
  | nil =>
    intro z hz
    simp only [List.mem_singleton] at hz
    simp [hz]
  | cons y ys ih =>
    intro z hz
    simp only [List.foldl_cons]
    by_cases hxy : spoLt x y
    · simp only [if_pos hxy]
      rcases List.mem_cons.mp hz with rfl | hz'
      · -- z = x, and spoLt x y; y relates to the fold result
        rcases ih y y (List.mem_cons_self y ys) with h | h
        · exact Or.inr (h ▸ hxy)
        · exact Or.inr (spoLt_trans hxy h)
      · exact ih y z hz'
    · simp only [if_neg hxy]
      rcases List.mem_cons.mp hz with rfl | hz'
      · exact ih z z (List.mem_cons_self z ys)
      · rcases List.mem_cons.mp hz' with rfl | hz''
        · -- z = y, and ¬ spoLt x y, so z = x or spoLt z x
          have hx := ih x x (List.mem_cons_self x ys)
          rcases spoLt_not_iff.mp hxy with h | h
          · exact h ▸ hx
          · rcases hx with h2 | h2
            · exact Or.inr (h2 ▸ h)
            · exact Or.inr (spoLt_trans h h2)
        · exact ih x z (List.mem_cons_of_mem x hz'')

theorem heapMax_mem {l : List ScoredPointOffset} {mx : ScoredPointOffset}
    (h : heapMax l = some mx) : mx ∈ l := by
  cases l with
  | nil => simp [heapMax] at h
  | cons x xs =>
    simp only [heapMax, Option.some.injEq] at h
    exact h ▸ foldlMax_mem x xs

/-- Every element of the heap is at most the popped maximum in the spo
order. -/
theorem heapMax_ge {l : List ScoredPointOffset} {mx : ScoredPointOffset}
    (h : heapMax l = some mx) : ∀ y ∈ l, y = mx ∨ spoLt y mx := by
  cases l with
  | nil => simp [heapMax] at h
  | cons x xs =>
    simp only [heapMax, Option.some.injEq] at h
    exact h ▸ foldlMax_ge x xs

namespace GraphLinearBuilder

theorem selectChar_foldl_of_full (s : GraphLinearBuilder) (m : Nat)
    (candidates : List ScoredPointOffset) (acc : List Nat) (h : m ≤ acc.length) :
    candidates.foldl (fun acc c =>
      if acc.length < m ∧ ∀ sel ∈ acc, score s c.idx sel ≤ c.score then acc ++ [c.idx]
      else acc) acc = acc := by
  induction candidates with
  | nil => rfl
  | cons c rest ih =>
    simp only [List.foldl_cons]
    rw [if_neg, ih]
    intro hcon
    exact absurd h (Nat.not_le.mpr hcon.1)

theorem select_loop_eq_foldl (s : GraphLinearBuilder) (m : Nat)
    (candidates : List ScoredPointOffset) (acc : List Nat) :
    select_loop s m candidates acc =
      candidates.foldl (fun acc c =>
        if acc.length < m ∧ ∀ sel ∈ acc, score s c.idx sel ≤ c.score then acc ++ [c.idx]
        else acc) acc := by
  induction candidates generalizing acc with
  | nil => rfl
  | cons c rest ih =>
    simp only [select_loop, List.foldl_cons]
    by_cases hfull : m ≤ acc.length
    · rw [if_pos hfull, if_neg, selectChar_foldl_of_full s m rest acc hfull]
      intro hcon
      exact absurd hfull (Nat.not_le.mpr hcon.1)
    · rw [if_neg hfull]
      by_cases hgood : ∀ sel ∈ acc, score s c.idx sel ≤ c.score
      · rw [if_pos hgood, if_pos ⟨Nat.lt_of_not_le hfull, hgood⟩, ih]
      · rw [if_neg hgood, if_neg, ih]
        intro hcon
        exact absurd hcon.2 hgood

theorem select_loop_length (s : GraphLinearBuilder) (m : Nat)
    (candidates : List ScoredPointOffset) (acc : List Nat) (h : acc.length ≤ m) :
    (select_loop s m candidates acc).length ≤ m := by
  induction candidates generalizing acc with
  | nil => exact h
  | cons c rest ih =>
    simp only [select_loop]
    by_cases hfull : m ≤ acc.length
    · rw [if_pos hfull]; exact h
    · rw [if_neg hfull]
      by_cases hgood : ∀ sel ∈ acc, score s c.idx sel ≤ c.score
      · rw [if_pos hgood]
        exact ih _ (by simpa using Nat.lt_of_not_le hfull)
      · rw [if_neg hgood]; exact ih _ h

theorem select_loop_append (s : GraphLinearBuilder) (m : Nat)
    (candidates : List ScoredPointOffset) (acc : List Nat) :
    ∃ t, select_loop s m candidates acc = acc ++ t ∧
      t.Sublist (candidates.map (fun c => c.idx)) := by
  induction candidates generalizing acc with
  | nil => exact ⟨[], by simp [select_loop]⟩
  | cons c rest ih =>
    simp only [select_loop, List.map_cons]
    by_cases hfull : m ≤ acc.length
    · rw [if_pos hfull]
      exact ⟨[], by simp⟩
    · rw [if_neg hfull]
      by_cases hgood : ∀ sel ∈ acc, score s c.idx sel ≤ c.score
      · rw [if_pos hgood]
        obtain ⟨t, ht, hsub⟩ := ih (acc ++ [c.idx])
        exact ⟨c.idx :: t, by simpa using ht, List.Sublist.cons₂ _ hsub⟩
      · rw [if_neg hgood]
        obtain ⟨t, ht, hsub⟩ := ih acc
        exact ⟨t, ht, List.Sublist.cons _ hsub⟩

/-- The selected ids form a sublist (order-preserving subsequence) of the
candidates' ids. -/
theorem select_sublist (s : GraphLinearBuilder)
    (candidates : List ScoredPointOffset) (m : Nat) :
    (select_candidate_with_heuristic_from_sorted s candidates m).Sublist
      (candidates.map (fun c => c.idx)) := by
  obtain ⟨t, ht, hsub⟩ := select_loop_append s m candidates []
  simpa [select_candidate_with_heuristic_from_sorted, ht] using hsub

theorem select_length (s : GraphLinearBuilder)
    (candidates : List ScoredPointOffset) (m : Nat) :
    (select_candidate_with_heuristic_from_sorted s candidates m).length ≤ m :=
  select_loop_length s m candidates [] (Nat.zero_le m)

theorem select_mem (s : GraphLinearBuilder)
    (candidates : List ScoredPointOffset) (m : Nat) {x : Nat}
    (h : x ∈ select_candidate_with_heuristic_from_sorted s candidates m) :
    ∃ c ∈ candidates, c.idx = x := by
  have := (select_sublist s candidates m).mem h
  simpa using this

theorem select_nodup (s : GraphLinearBuilder)
    (candidates : List ScoredPointOffset) (m : Nat)
    (h : (candidates.map (fun c => c.idx)).Nodup) :
    (select_candidate_with_heuristic_from_sorted s candidates m).Nodup :=
  (select_sublist s candidates m).nodup h

end GraphLinearBuilder

/-- C2: for every candidate list sorted descending by score and every
bound `M`, the neighbour heuristic `select_candidate_with_heuristic_from_sorted`
scans candidates in order and admits a candidate `c` iff fewer than `M`
candidates are already admitted and its score against every already
admitted point is at most its own score (the `selectChar` fold states
this admit-iff rule literally); consequently the result has length at
most `M` and its elements appear in the candidates' order (it is a
sublist of the candidates' id sequence). -/
theorem c2_neighbor_heuristic (s : GraphLinearBuilder)
    (candidates : List ScoredPointOffset) (m : Nat) (hsorted : SortedDesc candidates) :
    GraphLinearBuilder.select_candidate_with_heuristic_from_sorted s candidates m =
        GraphLinearBuilder.selectChar s m candidates ∧
      (GraphLinearBuilder.select_candidate_with_heuristic_from_sorted s candidates m).length ≤ m ∧
      (GraphLinearBuilder.select_candidate_with_heuristic_from_sorted s candidates m).Sublist
        (candidates.map (fun c => c.idx)) :=
  ⟨GraphLinearBuilder.select_loop_eq_foldl s m candidates [],
    GraphLinearBuilder.select_length s candidates m,
    GraphLinearBuilder.select_sublist s candidates m⟩

/-- A tiny concrete builder used to instantiate hypotheses in witness
statements. -/
theorem c2_neighbor_heuristic_witness :
    SortedDesc [⟨1, 5⟩, ⟨2, 3⟩] ∧
      (GraphLinearBuilder.select_candidate_with_heuristic_from_sorted wBuilder
            [⟨1, 5⟩, ⟨2, 3⟩] 1 =
          GraphLinearBuilder.selectChar wBuilder 1 [⟨1, 5⟩, ⟨2, 3⟩] ∧
        (GraphLinearBuilder.select_candidate_with_heuristic_from_sorted wBuilder
            [⟨1, 5⟩, ⟨2, 3⟩] 1).length ≤ 1 ∧
        (GraphLinearBuilder.select_candidate_with_heuristic_from_sorted wBuilder
            [⟨1, 5⟩, ⟨2, 3⟩] 1).Sublist
          (([⟨1, 5⟩, ⟨2, 3⟩] : List ScoredPointOffset).map (fun c => c.idx))) :=
  ⟨by decide, c2_neighbor_heuristic wBuilder [⟨1, 5⟩, ⟨2, 3⟩] 1 (by decide)⟩

/-! ### Flat adjacency storage: element lemmas for `writeAt` -/

theorem writeAt_length {l : List Nat} {i : Nat} (xs : List Nat)
    (h : i + xs.length ≤ l.length) : (writeAt l i xs).length = l.length := by
  simp only [writeAt, List.length_append, List.length_take, List.length_drop]
  omega

theorem writeAt_getElem?_of_lt {l : List Nat} {i j : Nat} (xs : List Nat)
    (h1 : j < i) (h2 : j < l.length) : (writeAt l i xs)[j]? = l[j]? := by
  have hlen : j < (l.take i).length := by
    simp only [List.length_take]
    omega
  rw [writeAt, List.append_assoc, List.getElem?_append_left hlen, List.getElem?_take,
    if_pos h1]

theorem writeAt_getElem?_inner {l : List Nat} {i j : Nat} (xs : List Nat)
    (h1 : i ≤ l.length) (h2 : j < xs.length) : (writeAt l i xs)[i + j]? = xs[j]? := by
  have hlen : (l.take i).length = i := by
    simp only [List.length_take]
    omega
  rw [writeAt, List.append_assoc,
    List.getElem?_append_right (by rw [hlen]; omega), hlen]
  have hij : i + j - i = j := by omega
  rw [hij, List.getElem?_append_left h2]

theorem writeAt_getElem?_of_ge {l : List Nat} {i j : Nat} (xs : List Nat)
    (h1 : i ≤ l.length) (h2 : i + xs.length ≤ j) : (writeAt l i xs)[j]? = l[j]? := by
  have hlen : (l.take i).length = i := by
    simp only [List.length_take]
    omega
  rw [writeAt, List.append_assoc,
    List.getElem?_append_right (by rw [hlen]; omega), hlen,
    List.getElem?_append_right (by omega : xs.length ≤ j - i), List.getElem?_drop]
  congr 1
  omega

theorem writeAt_getD_of_lt {l : List Nat} {i j : Nat} (xs : List Nat)
    (h1 : j < i) (h2 : j < l.length) : (writeAt l i xs).getD j 0 = l.getD j 0 := by
  rw [List.getD_eq_getElem?_getD, writeAt_getElem?_of_lt xs h1 h2,
    ← List.getD_eq_getElem?_getD]

theorem writeAt_getD_inner {l : List Nat} {i j : Nat} (xs : List Nat)
    (h1 : i ≤ l.length) (h2 : j < xs.length) : (writeAt l i xs).getD (i + j) 0 = xs.getD j 0 := by
  rw [List.getD_eq_getElem?_getD, writeAt_getElem?_inner xs h1 h2,
    ← List.getD_eq_getElem?_getD]

theorem writeAt_getD_of_ge {l : List Nat} {i j : Nat} (xs : List Nat)
    (h1 : i ≤ l.length) (h2 : i + xs.length ≤ j) : (writeAt l i xs).getD j 0 = l.getD j 0 := by
  rw [List.getD_eq_getElem?_getD, writeAt_getElem?_of_ge xs h1 h2,
    ← List.getD_eq_getElem?_getD]

/-! ### Storage lemmas for `get_links` and `set_links` -/

namespace GraphLinearBuilder

@[simp] theorem set_links_m (s : GraphLinearBuilder) (q l : Nat) (xs : List Nat) :
    (set_links s q l xs).m = s.m := rfl

@[simp] theorem set_links_m0 (s : GraphLinearBuilder) (q l : Nat) (xs : List Nat) :
    (set_links s q l xs).m0 = s.m0 := rfl

@[simp] theorem set_links_ef (s : GraphLinearBuilder) (q l : Nat) (xs : List Nat) :
    (set_links s q l xs).ef_construct = s.ef_construct := rfl

@[simp] theorem set_links_point_levels (s : GraphLinearBuilder) (q l : Nat) (xs : List Nat) :
    (set_links s q l xs).point_levels = s.point_levels := rfl

@[simp] theorem set_links_entry_points (s : GraphLinearBuilder) (q l : Nat) (xs : List Nat) :
    (set_links s q l xs).entry_points = s.entry_points := rfl

@[simp] theorem set_links_score_fn (s : GraphLinearBuilder) (q l : Nat) (xs : List Nat) :
    (set_links s q l xs).score_fn = s.score_fn := rfl

@[simp] theorem get_m_set_links (s : GraphLinearBuilder) (q l : Nat) (xs : List Nat)
    (l' : Nat) : get_m (set_links s q l xs) l' = get_m s l' := rfl

@[simp] theorem num_points_set_links (s : GraphLinearBuilder) (q l : Nat) (xs : List Nat) :
    num_points (set_links s q l xs) = num_points s := rfl

@[simp] theorem score_set_links (s : GraphLinearBuilder) (q l : Nat) (xs : List Nat)
    (a b : Nat) : score (set_links s q l xs) a b = score s a b := rfl

@[simp] theorem length_links_layers_set_links (s : GraphLinearBuilder) (q l : Nat)
    (xs : List Nat) : (set_links s q l xs).links_layers.length = s.links_layers.length := by
  simp [set_links]

/-- Writing at a different level leaves a level's reads unchanged. -/
theorem get_links_set_links_level_ne (s : GraphLinearBuilder) (q l' : Nat) (xs : List Nat)
    (p l : Nat) (h : l' ≠ l) :
    get_links (set_links s q l' xs) p l = get_links s p l := by
  have hlayer : (set_links s q l' xs).links_layers.getD l [] = s.links_layers.getD l [] := by
    show (s.links_layers.set l' _).getD l [] = s.links_layers.getD l []
    rw [List.getD_eq_getElem?_getD, List.getElem?_set_ne h, ← List.getD_eq_getElem?_getD]
  simp only [get_links, hlayer, get_m_set_links]

/-- Reading back a freshly written slot returns the written list. -/
theorem get_links_set_links_same (s : GraphLinearBuilder) (p l : Nat) (xs : List Nat)
    (hl : l < s.links_layers.length)
    (hlen : (s.links_layers.getD l []).length = (get_m s l + 1) * s.num_points)
    (hp : p < s.num_points)
    (hxs : xs.length ≤ get_m s l) :
    get_links (set_links s p l xs) p l = xs := by
  set w := get_m s l with hw
  set i := p * (w + 1) with hi
  set L := s.links_layers.getD l [] with hL
  have hslot : i + (w + 1) ≤ L.length := by
    have : (p + 1) * (w + 1) ≤ s.num_points * (w + 1) :=
      Nat.mul_le_mul_right _ (by omega)
    have hexp : (p + 1) * (w + 1) = i + (w + 1) := by
      rw [hi, Nat.succ_mul]
    rw [hlen, Nat.mul_comm]
    omega
  have hys : (xs.length :: xs).length ≤ w + 1 := by
    simp only [List.length_cons]
    omega
  have hbound : i + (xs.length :: xs).length ≤ L.length := by omega
  have hilen : i ≤ L.length := by omega
  have hlayer : (set_links s p l xs).links_layers.getD l [] =
      writeAt L i (xs.length :: xs) := by
    show (s.links_layers.set l _).getD l [] = _
    rw [List.getD_eq_getElem?_getD, List.getElem?_set_eq hl]
    rfl
  have hcount : (writeAt L i (xs.length :: xs)).getD i 0 = xs.length := by
    have := writeAt_getD_inner (xs.length :: xs) hilen
      (by simp : (0 : Nat) < (xs.length :: xs).length)
    simpa using this
  simp only [get_links, hlayer, get_m_set_links, ← hw, ← hi, hcount]
  apply List.ext_getElem?
  intro n
  rw [List.getElem?_take]
  by_cases hn : n < xs.length
  · rw [if_pos hn, List.getElem?_drop]
    have hpos : i + 1 + n = i + (1 + n) := by omega
    rw [hpos, writeAt_getElem?_inner (xs.length :: xs) hilen
      (by simp only [List.length_cons]; omega)]
    have h1n : 1 + n = n + 1 := by omega
    rw [h1n, List.getElem?_cons_succ]
  · rw [if_neg hn]
    rw [eq_comm, List.getElem?_eq_none]
    omega

/-- Writing a different point's slot (same level) leaves a point's reads
unchanged, provided the layer has its constructed length, the written
point is in range, the written list respects the degree bound, and the
read point's count cell respects the degree bound. -/
theorem get_links_set_links_point_ne (s : GraphLinearBuilder) (q l : Nat) (xs : List Nat)
    (p : Nat) (hne : p ≠ q)
    (hlen0 : l < s.links_layers.length →
      (s.links_layers.getD l []).length = (get_m s l + 1) * s.num_points)
    (hq : q < s.num_points)
    (hxs : xs.length ≤ get_m s l)
    (hcount : (s.links_layers.getD l []).getD (p * (get_m s l + 1)) 0 ≤ get_m s l) :
    get_links (set_links s q l xs) p l = get_links s p l := by
  by_cases hl : l < s.links_layers.length
  case neg =>
    have hset : (set_links s q l xs).links_layers = s.links_layers := by
      show s.links_layers.set l _ = s.links_layers
      exact List.set_eq_of_length_le (by omega)
    simp only [get_links, hset, get_m_set_links]
  have hlen := hlen0 hl
  set w := get_m s l with hw
  set L := s.links_layers.getD l [] with hL
  set iq := q * (w + 1) with hiq
  set ip := p * (w + 1) with hip
  have hslotq : iq + (w + 1) ≤ L.length := by
    have : (q + 1) * (w + 1) ≤ s.num_points * (w + 1) :=
      Nat.mul_le_mul_right _ (by omega)
    have hexp : (q + 1) * (w + 1) = iq + (w + 1) := by
      rw [hiq, Nat.succ_mul]
    rw [hlen, Nat.mul_comm]
    omega
  have hys : (xs.length :: xs).length ≤ w + 1 := by
    simp only [List.length_cons]
    omega
  have hiqlen : iq ≤ L.length := by omega
  have hlayer : (set_links s q l xs).links_layers.getD l [] =
      writeAt L iq (xs.length :: xs) := by
    show (s.links_layers.set l _).getD l [] = _
    rw [List.getD_eq_getElem?_getD, List.getElem?_set_eq hl]
    rfl
  -- the two slots are disjoint
  have hdisj : ip + (w + 1) ≤ iq ∨ iq + (w + 1) ≤ ip := by
    rcases Nat.lt_or_ge p q with h | h
    · left
      have : (p + 1) * (w + 1) ≤ q * (w + 1) := Nat.mul_le_mul_right _ h
      have hexp : (p + 1) * (w + 1) = ip + (w + 1) := by rw [hip, Nat.succ_mul]
      omega
    · right
      have hqp : q + 1 ≤ p := by omega
      have : (q + 1) * (w + 1) ≤ p * (w + 1) := Nat.mul_le_mul_right _ hqp
      have hexp : (q + 1) * (w + 1) = iq + (w + 1) := by rw [hiq, Nat.succ_mul]
      omega
  by_cases hpN : p < s.num_points
  · have hslotp : ip + (w + 1) ≤ L.length := by
      have : (p + 1) * (w + 1) ≤ s.num_points * (w + 1) :=
        Nat.mul_le_mul_right _ (by omega)
      have hexp : (p + 1) * (w + 1) = ip + (w + 1) := by rw [hip, Nat.succ_mul]
      rw [hlen, Nat.mul_comm]
      omega
    have hcell : ∀ j, ip ≤ j → j ≤ ip + w →
        (writeAt L iq (xs.length :: xs))[j]? = L[j]? := by
      intro j hj1 hj2
      rcases hdisj with hd | hd
      · exact writeAt_getElem?_of_lt _ (by omega) (by omega)
      · exact writeAt_getElem?_of_ge _ hiqlen (by omega)
    have hcnt : (writeAt L iq (xs.length :: xs)).getD ip 0 = L.getD ip 0 := by
      rw [List.getD_eq_getElem?_getD, List.getD_eq_getElem?_getD,
        hcell ip (le_refl ip) (by omega)]
    simp only [get_links, hlayer, get_m_set_links, ← hw, ← hip, ← hL, hcnt]
    apply List.ext_getElem?
    intro n
    rw [List.getElem?_take, List.getElem?_take]
    by_cases hn : n < L.getD ip 0
    · rw [if_pos hn, if_pos hn, List.getElem?_drop, List.getElem?_drop]
      exact hcell (ip + 1 + n) (by omega) (by omega)
    · rw [if_neg hn, if_neg hn]
  · -- p out of range: both reads are empty
    have hipge : L.length ≤ ip := by
      have : s.num_points * (w + 1) ≤ p * (w + 1) := Nat.mul_le_mul_right _ (by omega)
      rw [hlen, Nat.mul_comm]
      omega
    have hwlen : (writeAt L iq (xs.length :: xs)).length = L.length :=
      writeAt_length _ (by omega)
    have h1 : (writeAt L iq (xs.length :: xs)).drop (ip + 1) = [] :=
      List.drop_eq_nil_of_le (by omega)
    have h2 : L.drop (ip + 1) = [] := List.drop_eq_nil_of_le (by omega)
    simp only [get_links, hlayer, get_m_set_links, ← hw, ← hip, ← hL, h1, h2, List.take_nil]

/-- Writing at a nonexistent level leaves the layers untouched (the Rust
code would panic on the out-of-range index). -/
theorem layers_set_links_oob (s : GraphLinearBuilder) (q l' : Nat) (xs : List Nat)
    (h : s.links_layers.length ≤ l') :
    (set_links s q l' xs).links_layers = s.links_layers :=
  List.set_eq_of_length_le h

theorem getD_layers_set_links_ne (s : GraphLinearBuilder) (q l' : Nat) (xs : List Nat)
    (l : Nat) (h : l' ≠ l) :
    (set_links s q l' xs).links_layers.getD l [] = s.links_layers.getD l [] := by
  show (s.links_layers.set l' _).getD l [] = s.links_layers.getD l []
  rw [List.getD_eq_getElem?_getD, List.getElem?_set_ne h, ← List.getD_eq_getElem?_getD]

theorem getD_layers_set_links_same (s : GraphLinearBuilder) (q l : Nat) (xs : List Nat)
    (hl : l < s.links_layers.length) :
    (set_links s q l xs).links_layers.getD l [] =
      writeAt (s.links_layers.getD l []) (q * (get_m s l + 1)) (xs.length :: xs) := by
  show (s.links_layers.set l _).getD l [] = _
  rw [List.getD_eq_getElem?_getD, List.getElem?_set_eq hl]
  rfl

theorem layerInv_set_links (s : GraphLinearBuilder) (q l' : Nat) (xs : List Nat)
    (hInv : LayerInv s) (hq : q < s.num_points) (hxs : xs.length ≤ get_m s l') :
    LayerInv (set_links s q l' xs) := by
  intro l hl
  rw [length_links_layers_set_links] at hl
  by_cases he : l' = l
  · subst he
    rw [getD_layers_set_links_same s q l' xs hl, get_m_set_links, num_points_set_links]
    have hlen := hInv l' hl
    have hslot : q * (get_m s l' + 1) + (get_m s l' + 1) ≤
        (s.links_layers.getD l' []).length := by
      have h1 : (q + 1) * (get_m s l' + 1) ≤ s.num_points * (get_m s l' + 1) :=
        Nat.mul_le_mul_right _ (by omega)
      have h2 : (q + 1) * (get_m s l' + 1) =
          q * (get_m s l' + 1) + (get_m s l' + 1) := Nat.succ_mul _ _
      have h3 : s.num_points * (get_m s l' + 1) = (get_m s l' + 1) * s.num_points :=
        Nat.mul_comm _ _
      have h4 := hlen
      omega
    rw [writeAt_length _ (by simp only [List.length_cons]; omega)]
    exact hlen
  · rw [getD_layers_set_links_ne s q l' xs l he, get_m_set_links, num_points_set_links]
    exact hInv l hl

theorem countInv_set_links (s : GraphLinearBuilder) (q l' : Nat) (xs : List Nat)
    (hCnt : CountInv s) (hLay : LayerInv s) (hq : q < s.num_points)
    (hxs : xs.length ≤ get_m s l') :
    CountInv (set_links s q l' xs) := by
  intro p l
  by_cases he : l' = l
  case neg =>
    rw [getD_layers_set_links_ne s q l' xs l he, get_m_set_links]
    exact hCnt p l
  subst he
  by_cases hl : l' < s.links_layers.length
  case neg =>
    have hset := layers_set_links_oob s q l' xs (by omega)
    rw [get_m_set_links]
    show ((set_links s q l' xs).links_layers.getD l' []).getD _ 0 ≤ _
    rw [hset]
    exact hCnt p l'
  rw [getD_layers_set_links_same s q l' xs hl, get_m_set_links]
  set w := get_m s l' with hw
  set L := s.links_layers.getD l' [] with hL
  have hlen := hLay l' hl
  have hslotq : q * (w + 1) + (w + 1) ≤ L.length := by
    have h1 : (q + 1) * (w + 1) ≤ s.num_points * (w + 1) :=
      Nat.mul_le_mul_right _ (by omega)
    have h2 : (q + 1) * (w + 1) = q * (w + 1) + (w + 1) := Nat.succ_mul _ _
    have h3 : s.num_points * (w + 1) = (w + 1) * s.num_points := Nat.mul_comm _ _
    have h4 : L.length = (w + 1) * s.num_points := hlen
    omega
  by_cases hpq : p = q
  · subst hpq
    have := writeAt_getD_inner (xs.length :: xs)
      (by omega : p * (w + 1) ≤ L.length)
      (by simp : (0 : Nat) < (xs.length :: xs).length)
    simpa using le_trans (le_of_eq (by simpa using this)) hxs
  · by_cases hpN : p < s.num_points
    · rcases Nat.lt_or_ge p q with hlt | hge
      · have hd : p * (w + 1) + (w + 1) ≤ q * (w + 1) := by
          have h1 : (p + 1) * (w + 1) ≤ q * (w + 1) := Nat.mul_le_mul_right _ hlt
          have h2 : (p + 1) * (w + 1) = p * (w + 1) + (w + 1) := Nat.succ_mul _ _
          omega
        have hpin : p * (w + 1) < L.length := by omega
        rw [writeAt_getD_of_lt _ (by omega) hpin]
        exact hCnt p l'
      · have hqp : q < p := by omega
        have hd : q * (w + 1) + (w + 1) ≤ p * (w + 1) := by
          have h1 : (q + 1) * (w + 1) ≤ p * (w + 1) := Nat.mul_le_mul_right _ (by omega)
          have h2 : (q + 1) * (w + 1) = q * (w + 1) + (w + 1) := Nat.succ_mul _ _
          omega
        rw [writeAt_getD_of_ge _ (by omega) (by simp only [List.length_cons]; omega)]
        exact hCnt p l'
    · -- the count cell is beyond the layer: reads default 0
      have hip : L.length ≤ p * (w + 1) := by
        have h1 : s.num_points * (w + 1) ≤ p * (w + 1) :=
          Nat.mul_le_mul_right _ (by omega)
        have h3 : s.num_points * (w + 1) = (w + 1) * s.num_points := Nat.mul_comm _ _
        have h4 : L.length = (w + 1) * s.num_points := hlen
        omega
      have hwlen : (writeAt L (q * (w + 1)) (xs.length :: xs)).length = L.length :=
        writeAt_length _ (by simp only [List.length_cons]; omega)
      rw [List.getD_eq_getElem?_getD, List.getElem?_eq_none (by omega)]
      simp

/-- The layers of a fresh builder: layer `l` exists iff
`l ≤ max levels` and is then an all-zero array of the constructed
length. -/
theorem getD_layers_new (levels : List Nat) (m m0 ef num : Nat) (f : Nat → Nat → Int)
    (l : Nat) :
    (new levels m m0 ef num f).links_layers.getD l [] =
      if l < levels.foldl Nat.max 0 + 1 then
        List.replicate ((get_m (new levels m m0 ef num f) l + 1) * levels.length) 0
      else [] := by
  by_cases hl : l < levels.foldl Nat.max 0 + 1
  · rw [if_pos hl]
    show ((List.range (levels.foldl Nat.max 0 + 1)).map _).getD l [] = _
    rw [List.getD_eq_getElem?_getD, List.getElem?_map,
      List.getElem?_range hl]
    simp only [Option.map_some, Option.getD_some]
    rfl
  · rw [if_neg hl]
    show ((List.range (levels.foldl Nat.max 0 + 1)).map _).getD l [] = _
    rw [List.getD_eq_getElem?_getD, List.getElem?_eq_none
      (by simpa using Nat.le_of_not_lt hl)]
    rfl

theorem layerInv_new (levels : List Nat) (m m0 ef num : Nat) (f : Nat → Nat → Int) :
    LayerInv (new levels m m0 ef num f) := by
  intro l hl
  have hlen : (new levels m m0 ef num f).links_layers.length =
      levels.foldl Nat.max 0 + 1 := by
    show ((List.range _).map _).length = _
    simp
  rw [hlen] at hl
  rw [getD_layers_new, if_pos hl, List.length_replicate]
  rfl

theorem countInv_new (levels : List Nat) (m m0 ef num : Nat) (f : Nat → Nat → Int) :
    CountInv (new levels m m0 ef num f) := by
  intro p l
  rw [getD_layers_new]
  by_cases hl : l < levels.foldl Nat.max 0 + 1
  · rw [if_pos hl, List.getD_eq_getElem?_getD]
    by_cases hp : p * (get_m (new levels m m0 ef num f) l + 1) <
        (get_m (new levels m m0 ef num f) l + 1) * levels.length
    · rw [List.getElem?_replicate_of_lt hp]
      simp
    · rw [List.getElem?_eq_none (by simpa using Nat.le_of_not_lt hp)]
      simp
  · rw [if_neg hl]
    simp

/-- A fresh builder reads the empty list for every point and level. -/
theorem get_links_new (levels : List Nat) (m m0 ef num : Nat) (f : Nat → Nat → Int)
    (p l : Nat) : get_links (new levels m m0 ef num f) p l = [] := by
  have hcnt : ((new levels m m0 ef num f).links_layers.getD l []).getD
      (p * (get_m (new levels m m0 ef num f) l + 1)) 0 = 0 := by
    rw [getD_layers_new]
    by_cases hl : l < levels.foldl Nat.max 0 + 1
    · rw [if_pos hl, List.getD_eq_getElem?_getD]
      by_cases hp : p * (get_m (new levels m m0 ef num f) l + 1) <
          (get_m (new levels m m0 ef num f) l + 1) * levels.length
      · rw [List.getElem?_replicate_of_lt hp]
        rfl
      · rw [List.getElem?_eq_none (by simpa using Nat.le_of_not_lt hp)]
        rfl
    · rw [if_neg hl]
      rfl
  unfold get_links
  rw [hcnt]
  rfl

theorem get_links_applyWrites_empty (ws : List (Nat × Nat × List Nat)) :
    ∀ (s : GraphLinearBuilder) (p l : Nat), LayerInv s → CountInv s →
      get_links s p l = [] →
      (∀ w ∈ ws, (w.1 ≠ p ∨ w.2.1 ≠ l) ∧ w.1 < s.num_points ∧
        w.2.2.length ≤ get_m s w.2.1) →
      get_links (applyWrites s ws) p l = [] := by
  induction ws with
  | nil => intro s p l _ _ hpre _; exact hpre
  | cons w rest ih =>
    intro s p l hLay hCnt hpre hws
    obtain ⟨hne, hwN, hwlen⟩ := hws w (List.mem_cons_self w rest)
    have hstep : get_links (set_links s w.1 w.2.1 w.2.2) p l = [] := by
      rcases hne with hne | hne
      · by_cases hel : w.2.1 = l
        · subst hel
          rw [get_links_set_links_point_ne s w.1 w.2.1 w.2.2 p (Ne.symm hne)
            (fun hl => hLay w.2.1 hl) hwN hwlen (hCnt p w.2.1)]
          exact hpre
        · rw [get_links_set_links_level_ne s w.1 w.2.1 w.2.2 p l hel]
          exact hpre
      · rw [get_links_set_links_level_ne s w.1 w.2.1 w.2.2 p l hne]
        exact hpre
    have happ : applyWrites s (w :: rest) =
        applyWrites (set_links s w.1 w.2.1 w.2.2) rest := rfl
    rw [happ]
    refine ih (set_links s w.1 w.2.1 w.2.2) p l
      (layerInv_set_links s w.1 w.2.1 w.2.2 hLay hwN hwlen)
      (countInv_set_links s w.1 w.2.1 w.2.2 hCnt hLay hwN hwlen)
      hstep ?_
    intro w2 hw2
    obtain ⟨h1, h2, h3⟩ := hws w2 (List.mem_cons_of_mem w hw2)
    exact ⟨h1, by simpa using h2, by simpa using h3⟩

end GraphLinearBuilder

/-- C10: immediately after `GraphLinearBuilder::new`, every `get_links`
read returns the empty slice (the flat per-layer arrays are
zero-initialized, so every count cell reads 0), and a point's slot keeps
reading empty under any sequence of `set_links` writes that target other
slots (in-range points, lists within the degree bound). -/
theorem c10_fresh_builder_links_empty (levels : List Nat) (m m0 ef num : Nat)
    (f : Nat → Nat → Int) (hne : levels ≠ []) :
    (∀ p l, GraphLinearBuilder.get_links
        (GraphLinearBuilder.new levels m m0 ef num f) p l = []) ∧
    (∀ (ws : List (Nat × Nat × List Nat)) (p l : Nat),
      (∀ w ∈ ws, (w.1 ≠ p ∨ w.2.1 ≠ l) ∧ w.1 < levels.length ∧
        w.2.2.length ≤ GraphLinearBuilder.get_m
          (GraphLinearBuilder.new levels m m0 ef num f) w.2.1) →
      GraphLinearBuilder.get_links
        (GraphLinearBuilder.applyWrites
          (GraphLinearBuilder.new levels m m0 ef num f) ws) p l = []) := by
  constructor
  · exact GraphLinearBuilder.get_links_new levels m m0 ef num f
  · intro ws p l hws
    exact GraphLinearBuilder.get_links_applyWrites_empty ws _ p l
      (GraphLinearBuilder.layerInv_new levels m m0 ef num f)
      (GraphLinearBuilder.countInv_new levels m m0 ef num f)
      (GraphLinearBuilder.get_links_new levels m m0 ef num f p l) hws

theorem c10_fresh_builder_links_empty_witness :
    ([0, 0] : List Nat) ≠ [] ∧
      ((∀ p l, GraphLinearBuilder.get_links
          (GraphLinearBuilder.new [0, 0] 1 2 4 10 (fun _ _ => 0)) p l = []) ∧
        (∀ (ws : List (Nat × Nat × List Nat)) (p l : Nat),
          (∀ w ∈ ws, (w.1 ≠ p ∨ w.2.1 ≠ l) ∧ w.1 < ([0, 0] : List Nat).length ∧
            w.2.2.length ≤ GraphLinearBuilder.get_m
              (GraphLinearBuilder.new [0, 0] 1 2 4 10 (fun _ _ => 0)) w.2.1) →
          GraphLinearBuilder.get_links
            (GraphLinearBuilder.applyWrites
              (GraphLinearBuilder.new [0, 0] 1 2 4 10 (fun _ _ => 0)) ws) p l = [])) :=
  ⟨by decide, c10_fresh_builder_links_empty [0, 0] 1 2 4 10 (fun _ _ => 0) (by decide)⟩

/-! ### The beam queue: ordering and size invariants -/

theorem insSorted_perm (x : ScoredPointOffset) (l : List ScoredPointOffset) :
    (insSorted x l).Perm (x :: l) := by
  induction l with
  | nil => simp [insSorted]
  | cons y t ih =>
    by_cases h : spoLt x y
    · simp [insSorted, h]
    · simp only [insSorted, if_neg h]
      exact (ih.cons y).trans (List.Perm.swap x y t)

theorem mem_insSorted {x y : ScoredPointOffset} {l : List ScoredPointOffset} :
    y ∈ insSorted x l ↔ y = x ∨ y ∈ l := by
  rw [(insSorted_perm x l).mem_iff]
  simp

theorem length_insSorted (x : ScoredPointOffset) (l : List ScoredPointOffset) :
    (insSorted x l).length = l.length + 1 := by
  rw [(insSorted_perm x l).length_eq]
  simp

theorem ascSpo_insSorted {x : ScoredPointOffset} {l : List ScoredPointOffset}
    (h : AscSpo l) : AscSpo (insSorted x l) := by
  induction l with
  | nil =>
    simp [insSorted, AscSpo]
  | cons y t ih =>
    rcases List.pairwise_cons.mp h with ⟨hy, ht⟩
    by_cases hxy : spoLt x y
    · simp only [insSorted, if_pos hxy]
      refine List.pairwise_cons.mpr ⟨?_, h⟩
      intro z hz
      rcases List.mem_cons.mp hz with rfl | hz'
      · exact spoLt_asymm hxy
      · intro hzx
        exact (hy z hz') (spoLt_trans hzx hxy)
    · simp only [insSorted, if_neg hxy]
      refine List.pairwise_cons.mpr ⟨?_, ih ht⟩
      intro z hz
      rcases mem_insSorted.mp hz with rfl | hz'
      · exact hxy
      · exact hy z hz'

theorem queueInv_new (ef : Nat) : QueueInv ef (FixedLengthPriorityQueue.new ef) := by
  refine ⟨rfl, by simp [FixedLengthPriorityQueue.new], ?_⟩
  simp [FixedLengthPriorityQueue.new, AscSpo]

theorem queueInv_push {ef : Nat} {q : FixedLengthPriorityQueue}
    (h : QueueInv ef q) (x : ScoredPointOffset) : QueueInv ef (q.push x).2 := by
  obtain ⟨hcap, hle, hasc⟩ := h
  unfold FixedLengthPriorityQueue.push
  split
  case isTrue hfull =>
    exact ⟨hcap, by rw [length_insSorted]; omega, ascSpo_insSorted hasc⟩
  case isFalse hfull =>
    split
    case h_1 hq =>
      exact ⟨hcap, hle, hasc⟩
    case h_2 worst rest hq =>
      rw [hq] at hasc hle
      split
      case isTrue hwx =>
        refine ⟨hcap, ?_, ascSpo_insSorted (List.Pairwise.of_cons hasc)⟩
        show (insSorted x rest).length ≤ ef
        rw [length_insSorted]
        simp only [List.length_cons] at hle
        omega
      case isFalse hwx =>
        exact ⟨hcap, by rw [hq]; exact hle, by rw [hq]; exact hasc⟩

theorem queueInv_process_candidate {ef : Nat} {nearest : FixedLengthPriorityQueue}
    (h : QueueInv ef nearest) (candidates : List ScoredPointOffset)
    (sp : ScoredPointOffset) :
    QueueInv ef (process_candidate nearest candidates sp).1 :=
  queueInv_push h sp

theorem queueInv_expand {ef : Nat} (s : GraphLinearBuilder) (id : Nat)
    (links : List Nat) (st : SearchState) (h : QueueInv ef st.nearest) :
    QueueInv ef (expand s id links st).nearest := by
  induction links generalizing st with
  | nil => exact h
  | cons x t ih =>
    rw [expand]
    by_cases hx : x ∈ st.visited
    · rw [if_pos hx]
      exact ih st h
    · rw [if_neg hx]
      exact ih _ (queueInv_process_candidate h st.candidates
        ⟨x, GraphLinearBuilder.score s x id⟩)

theorem queueInv_searchLoop {ef : Nat} (s : GraphLinearBuilder) (id level fuel : Nat)
    (st : SearchState) (h : QueueInv ef st.nearest) :
    QueueInv ef (searchLoop s id level fuel st).nearest := by
  induction fuel generalizing st with
  | zero => exact h
  | succ n ih =>
    show QueueInv ef (searchLoop s id level (n + 1) st).nearest
    rw [searchLoop]
    match hp : heapPop st.candidates with
    | none => exact h
    | some (candidate, rest) =>
      simp only
      by_cases hbrk : (match st.nearest.top with
        | none => false
        | some worst => decide (candidate.score < worst.score)) = true
      · rw [if_pos hbrk]
        exact h
      · rw [if_neg hbrk]
        exact ih _ (queueInv_expand s id _ _ h)

theorem queueInv_offerExisting {ef : Nat} (s : GraphLinearBuilder) (id : Nat)
    (links : List Nat) (st : SearchState) (h : QueueInv ef st.nearest) :
    QueueInv ef (offerExisting s id links st).nearest := by
  induction links generalizing st with
  | nil => exact h
  | cons x t ih =>
    rw [offerExisting]
    by_cases hx : x ∈ st.visited
    · rw [if_pos hx]
      exact ih st h
    · rw [if_neg hx]
      exact ih _ (queueInv_process_candidate h st.candidates
        ⟨x, GraphLinearBuilder.score s id x⟩)

theorem queueInv_existingLinksPass {ef : Nat} (s : GraphLinearBuilder) (id level : Nat)
    (st : SearchState) (h : QueueInv ef st.nearest) :
    QueueInv ef (existingLinksPass s id level st).nearest :=
  queueInv_offerExisting s id _ st h

/-- The result queue of `search_on_level` keeps its original capacity,
holds at most `ef_construct` elements, and its element list is ascending
in the spo order. -/
theorem queueInv_search_on_level (s : GraphLinearBuilder) (id : Nat)
    (entry : ScoredPointOffset) (level : Nat) :
    QueueInv s.ef_construct (GraphLinearBuilder.search_on_level s id entry level) := by
  unfold GraphLinearBuilder.search_on_level
  refine queueInv_existingLinksPass s id level _ ?_
  refine queueInv_searchLoop s id level _ _ ?_
  exact queueInv_push (queueInv_new s.ef_construct) entry

theorem ascSpo_score {l : List ScoredPointOffset} (h : AscSpo l) :
    l.Pairwise (fun a b => a.score ≤ b.score) := by
  refine h.imp ?_
  intro a b hab
  by_contra hcon
  exact hab (Or.inl (by omega))

theorem push_capacity (q : FixedLengthPriorityQueue) (x : ScoredPointOffset) :
    (q.push x).2.capacity = q.capacity := by
  unfold FixedLengthPriorityQueue.push
  split
  · rfl
  · split
    · rfl
    · split <;> rfl

theorem push_elems_of_lt {q : FixedLengthPriorityQueue} {x : ScoredPointOffset}
    (h : q.elems.length < q.capacity) :
    (q.push x).2.elems = insSorted x q.elems ∧ (q.push x).1 = none := by
  unfold FixedLengthPriorityQueue.push
  rw [if_pos h]
  exact ⟨rfl, rfl⟩

theorem push_length_of_full {q : FixedLengthPriorityQueue} {x : ScoredPointOffset}
    (h : ¬ q.elems.length < q.capacity) :
    (q.push x).2.elems.length = q.elems.length := by
  unfold FixedLengthPriorityQueue.push
  rw [if_neg h]
  split
  case h_1 hq => rfl
  case h_2 worst rest hq =>
    split
    case isTrue hwx =>
      show (insSorted x rest).length = q.elems.length
      rw [length_insSorted, hq]
      simp
    case isFalse hwx => rfl

theorem heapPop_eq {l : List ScoredPointOffset} {c : ScoredPointOffset}
    {rest : List ScoredPointOffset} (h : heapPop l = some (c, rest)) :
    heapMax l = some c ∧ rest = l.erase c := by
  unfold heapPop at h
  match hm : heapMax l with
  | none => rw [hm] at h; cases h
  | some mx =>
    rw [hm] at h
    simp only [Option.some.injEq, Prod.mk.injEq] at h
    obtain ⟨h1, h2⟩ := h
    subst h1
    exact ⟨rfl, h2.symm⟩

theorem notFullSubset_offer {st : SearchState} (h : NotFullSubset st)
    (X : ScoredPointOffset) (v' : List Nat) :
    NotFullSubset
      { visited := v',
        nearest := (process_candidate st.nearest st.candidates X).1,
        candidates := (process_candidate st.nearest st.candidates X).2 } := by
  intro hlt c hc
  have hn1 : (process_candidate st.nearest st.candidates X).1 = (st.nearest.push X).2 := rfl
  simp only [hn1] at hlt ⊢
  rw [push_capacity] at hlt
  by_cases hfull : st.nearest.elems.length < st.nearest.capacity
  · obtain ⟨he, hr⟩ := push_elems_of_lt (x := X) hfull
    have hc2 : (process_candidate st.nearest st.candidates X).2 = X :: st.candidates := by
      simp [process_candidate, hr]
    rw [hc2] at hc
    rw [he]
    rcases List.mem_cons.mp hc with rfl | hcm
    · exact mem_insSorted.mpr (Or.inl rfl)
    · exact mem_insSorted.mpr (Or.inr (h hfull c hcm))
  · have hlen := push_length_of_full (x := X) hfull
    rw [hlen] at hlt
    exact absurd hlt hfull

theorem notFullSubset_expand (s : GraphLinearBuilder) (id : Nat) (links : List Nat)
    (st : SearchState) (h : NotFullSubset st) :
    NotFullSubset (expand s id links st) := by
  induction links generalizing st with
  | nil => exact h
  | cons x t ih =>
    rw [expand]
    by_cases hx : x ∈ st.visited
    · rw [if_pos hx]
      exact ih st h
    · rw [if_neg hx]
      exact ih _ (notFullSubset_offer h _ _)

theorem notFullSubset_pop {st : SearchState} {c : ScoredPointOffset}
    {rest : List ScoredPointOffset} (h : NotFullSubset st)
    (hpop : heapPop st.candidates = some (c, rest)) :
    NotFullSubset { st with candidates := rest } := by
  intro hlt y hy
  obtain ⟨_, herase⟩ := heapPop_eq hpop
  refine h hlt y ?_
  rw [herase] at hy
  exact List.erase_subset (a := c) (l := st.candidates) hy

/-- A break can only happen when the beam is full: while it is below
capacity the popped maximum still sits in the beam, hence cannot score
strictly below the beam's worst kept element. -/
theorem break_full {ef : Nat} {st : SearchState} {c : ScoredPointOffset}
    {rest : List ScoredPointOffset} (hq : QueueInv ef st.nearest)
    (hns : NotFullSubset st) (hpop : heapPop st.candidates = some (c, rest))
    (hbrk : loopBreak st c) : st.nearest.elems.length = ef := by
  obtain ⟨hcap, hle, hasc⟩ := hq
  obtain ⟨worst, htop, hscore⟩ := hbrk
  by_contra hne
  have hlt : st.nearest.elems.length < ef := lt_of_le_of_ne hle hne
  have hcm : c ∈ st.nearest.elems :=
    hns (by rw [hcap]; exact hlt) c (heapMax_mem (heapPop_eq hpop).1)
  unfold FixedLengthPriorityQueue.top at htop
  match he : st.nearest.elems with
  | [] =>
    rw [he] at htop
    cases htop
  | w :: tail =>
    rw [he] at htop
    simp only [List.head?_cons, Option.some.injEq] at htop
    subst htop
    rw [he] at hcm hasc
    rcases List.mem_cons.mp hcm with rfl | hcm'
    · exact absurd hscore (lt_irrefl _)
    · exact (List.pairwise_cons.mp hasc).1 c hcm' (Or.inl hscore)

theorem searchLoop_succ (s : GraphLinearBuilder) (id level fuel : Nat)
    (st : SearchState) :
    searchLoop s id level (fuel + 1) st =
      match heapPop st.candidates with
      | none => st
      | some (candidate, rest) =>
        if (match st.nearest.top with
            | none => false
            | some worst => decide (candidate.score < worst.score)) = true
        then { st with candidates := rest }
        else searchLoop s id level fuel
          (expand s id (GraphLinearBuilder.get_links s candidate.idx level)
            { st with candidates := rest }) := rfl

theorem searchLoop_succ_break (s : GraphLinearBuilder) (id level fuel : Nat)
    (st : SearchState) (c : ScoredPointOffset) (rest : List ScoredPointOffset)
    (hpop : heapPop st.candidates = some (c, rest)) (worst : ScoredPointOffset)
    (htop : st.nearest.top = some worst) (hscore : c.score < worst.score) :
    searchLoop s id level (fuel + 1) st = { st with candidates := rest } := by
  rw [searchLoop_succ]
  simp only [hpop, htop]
  rw [if_pos (decide_eq_true hscore)]

theorem searchLoop_succ_expand (s : GraphLinearBuilder) (id level fuel : Nat)
    (st : SearchState) (c : ScoredPointOffset) (rest : List ScoredPointOffset)
    (hpop : heapPop st.candidates = some (c, rest)) (hnb : ¬ loopBreak st c) :
    searchLoop s id level (fuel + 1) st =
      searchLoop s id level fuel
        (expand s id (GraphLinearBuilder.get_links s c.idx level)
          { st with candidates := rest }) := by
  rw [searchLoop_succ]
  simp only [hpop]
  match htop : st.nearest.top with
  | none =>
    simp only [htop]
    rw [if_neg (by simp)]
  | some worst =>
    have hsc : ¬ c.score < worst.score := fun hc => hnb ⟨worst, htop, hc⟩
    simp only [htop]
    rw [if_neg (by simpa using hsc)]

/-- C3: in every invocation of `search_on_level` the best-first loop pops
the maximum of the candidates heap each iteration; it breaks early only
when the beam is full (`ef_construct` elements) with the popped score
strictly below the beam's worst kept score (`loopBreak`); a popped
candidate that does not satisfy the break bound is always expanded.  The
loop invariant holds at the initial state and is preserved through every
expansion step, so the per-iteration statements cover every reachable
loop state. -/
theorem c3_best_first_loop (s : GraphLinearBuilder) (id level : Nat)
    (entry : ScoredPointOffset) :
    SearchLoopInv s.ef_construct (GraphLinearBuilder.searchInit s entry) ∧
      (∀ (st : SearchState) (c : ScoredPointOffset) (rest : List ScoredPointOffset),
        heapPop st.candidates = some (c, rest) →
          c ∈ st.candidates ∧ ∀ y ∈ st.candidates, y = c ∨ spoLt y c) ∧
      (∀ (fuel : Nat) (st : SearchState) (c : ScoredPointOffset)
          (rest : List ScoredPointOffset),
        SearchLoopInv s.ef_construct st →
        heapPop st.candidates = some (c, rest) →
          (loopBreak st c →
            searchLoop s id level (fuel + 1) st = { st with candidates := rest } ∧
            st.nearest.elems.length = s.ef_construct) ∧
          (¬ loopBreak st c →
            searchLoop s id level (fuel + 1) st =
              searchLoop s id level fuel
                (expand s id (GraphLinearBuilder.get_links s c.idx level)
                  { st with candidates := rest }) ∧
            SearchLoopInv s.ef_construct
              (expand s id (GraphLinearBuilder.get_links s c.idx level)
                { st with candidates := rest }))) := by
  refine ⟨?_, ?_, ?_⟩
  · constructor
    · exact queueInv_push (queueInv_new _) entry
    · intro hlt c hc
      simp only [GraphLinearBuilder.searchInit] at hlt hc ⊢
      have hc' : c = entry := by simpa using hc
      subst hc'
      rw [push_capacity] at hlt
      have hcap : (FixedLengthPriorityQueue.new s.ef_construct).capacity =
          s.ef_construct := rfl
      rw [hcap] at hlt
      by_cases hef : 0 < s.ef_construct
      · obtain ⟨he, _⟩ := push_elems_of_lt
          (q := FixedLengthPriorityQueue.new s.ef_construct) (x := c)
          (by simpa [FixedLengthPriorityQueue.new] using hef)
        rw [he]
        exact mem_insSorted.mpr (Or.inl rfl)
      · exfalso
        have h0 : s.ef_construct = 0 := by omega
        rw [h0] at hlt
        exact absurd hlt (Nat.not_lt_zero _)
  · intro st c rest hpop
    exact ⟨heapMax_mem (heapPop_eq hpop).1, heapMax_ge (heapPop_eq hpop).1⟩
  · intro fuel st c rest hInv hpop
    obtain ⟨hq, hns⟩ := hInv
    constructor
    · intro hbrk
      obtain ⟨worst, htop, hscore⟩ := hbrk
      exact ⟨searchLoop_succ_break s id level fuel st c rest hpop worst htop hscore,
        break_full hq hns hpop ⟨worst, htop, hscore⟩⟩
    · intro hnb
      refine ⟨searchLoop_succ_expand s id level fuel st c rest hpop hnb, ?_, ?_⟩
      · exact queueInv_expand s id _ _ hq
      · exact notFullSubset_expand s id _ _ (notFullSubset_pop hns hpop)

namespace GraphLinearBuilder

theorem writePairs_cons (level : Nat) (s : GraphLinearBuilder) (pr : Nat × List Nat)
    (rest : List (Nat × List Nat)) :
    writePairs level s (pr :: rest) =
      writePairs level (set_links s pr.1 level pr.2) rest := rfl

theorem writePairs_fields (level : Nat) (pairs : List (Nat × List Nat)) :
    ∀ s : GraphLinearBuilder,
      (writePairs level s pairs).m = s.m ∧
      (writePairs level s pairs).m0 = s.m0 ∧
      (writePairs level s pairs).point_levels = s.point_levels ∧
      (writePairs level s pairs).entry_points = s.entry_points ∧
      (writePairs level s pairs).links_layers.length = s.links_layers.length := by
  induction pairs with
  | nil => intro s; exact ⟨rfl, rfl, rfl, rfl, rfl⟩
  | cons pr rest ih =>
    intro s
    rw [writePairs_cons]
    have h := ih (set_links s pr.1 level pr.2)
    simpa using h

theorem get_m_writePairs (level : Nat) (pairs : List (Nat × List Nat))
    (s : GraphLinearBuilder) (l : Nat) :
    get_m (writePairs level s pairs) l = get_m s l := by
  obtain ⟨h1, h2, -, -, -⟩ := writePairs_fields level pairs s
  unfold get_m
  rw [h1, h2]

theorem num_points_writePairs (level : Nat) (pairs : List (Nat × List Nat))
    (s : GraphLinearBuilder) :
    num_points (writePairs level s pairs) = num_points s := by
  obtain ⟨-, -, h3, -, -⟩ := writePairs_fields level pairs s
  unfold num_points
  rw [h3]

theorem invs_writePairs (level : Nat) (pairs : List (Nat × List Nat)) :
    ∀ s : GraphLinearBuilder, LayerInv s → CountInv s →
      (∀ pr ∈ pairs, pr.1 < num_points s) →
      (∀ pr ∈ pairs, pr.2.length ≤ get_m s level) →
      LayerInv (writePairs level s pairs) ∧ CountInv (writePairs level s pairs) := by
  induction pairs with
  | nil => intro s h1 h2 _ _; exact ⟨h1, h2⟩
  | cons pr rest ih =>
    intro s h1 h2 hN hlen
    rw [writePairs_cons]
    refine ih _ (layerInv_set_links s pr.1 level pr.2 h1
        (hN pr (List.mem_cons_self pr rest)) (hlen pr (List.mem_cons_self pr rest)))
      (countInv_set_links s pr.1 level pr.2 h2 h1
        (hN pr (List.mem_cons_self pr rest)) (hlen pr (List.mem_cons_self pr rest)))
      ?_ ?_
    · intro pr2 h2m
      rw [num_points_set_links]
      exact hN pr2 (List.mem_cons_of_mem pr h2m)
    · intro pr2 h2m
      rw [get_m_set_links]
      exact hlen pr2 (List.mem_cons_of_mem pr h2m)

theorem get_links_writePairs_level_ne (level : Nat) (pairs : List (Nat × List Nat)) :
    ∀ (s : GraphLinearBuilder) (q l' : Nat), l' ≠ level →
      get_links (writePairs level s pairs) q l' = get_links s q l' := by
  induction pairs with
  | nil => intro s q l' _; rfl
  | cons pr rest ih =>
    intro s q l' hne
    rw [writePairs_cons, ih _ q l' hne,
      get_links_set_links_level_ne s pr.1 level pr.2 q l' (Ne.symm hne)]

theorem get_links_writePairs_not_mem (level : Nat) (pairs : List (Nat × List Nat)) :
    ∀ (s : GraphLinearBuilder) (q : Nat), LayerInv s → CountInv s →
      (∀ pr ∈ pairs, pr.1 < num_points s) →
      (∀ pr ∈ pairs, pr.2.length ≤ get_m s level) →
      q ∉ pairs.map Prod.fst →
      get_links (writePairs level s pairs) q level = get_links s q level := by
  induction pairs with
  | nil => intro s q _ _ _ _ _; rfl
  | cons pr rest ih =>
    intro s q h1 h2 hN hlen hq
    have hqpr : q ≠ pr.1 := by
      intro he
      exact hq (by rw [List.map_cons]; exact he ▸ List.mem_cons_self _ _)
    rw [writePairs_cons]
    rw [ih _ q (layerInv_set_links s pr.1 level pr.2 h1
        (hN pr (List.mem_cons_self pr rest)) (hlen pr (List.mem_cons_self pr rest)))
      (countInv_set_links s pr.1 level pr.2 h2 h1
        (hN pr (List.mem_cons_self pr rest)) (hlen pr (List.mem_cons_self pr rest)))
      (fun pr2 h2m => by
        rw [num_points_set_links]; exact hN pr2 (List.mem_cons_of_mem pr h2m))
      (fun pr2 h2m => by
        rw [get_m_set_links]; exact hlen pr2 (List.mem_cons_of_mem pr h2m))
      (fun hmem => hq (by rw [List.map_cons]; exact List.mem_cons_of_mem _ hmem))]
    exact get_links_set_links_point_ne s pr.1 level pr.2 q hqpr
      (fun hl => h1 level hl) (hN pr (List.mem_cons_self pr rest))
      (hlen pr (List.mem_cons_self pr rest)) (h2 q level)

theorem get_links_writePairs_mem (level : Nat) (pairs : List (Nat × List Nat)) :
    ∀ s : GraphLinearBuilder, LayerInv s → CountInv s →
      (∀ pr ∈ pairs, pr.1 < num_points s) →
      (∀ pr ∈ pairs, pr.2.length ≤ get_m s level) →
      (pairs.map Prod.fst).Nodup → level < s.links_layers.length →
      ∀ pr ∈ pairs, get_links (writePairs level s pairs) pr.1 level = pr.2 := by
  induction pairs with
  | nil => intro s _ _ _ _ _ _ pr hpr; exact absurd hpr (List.not_mem_nil pr)
  | cons pr0 rest ih =>
    intro s h1 h2 hN hlen hnd hlvl pr hpr
    have hN0 := hN pr0 (List.mem_cons_self pr0 rest)
    have hlen0 := hlen pr0 (List.mem_cons_self pr0 rest)
    have h1s := layerInv_set_links s pr0.1 level pr0.2 h1 hN0 hlen0
    have h2s := countInv_set_links s pr0.1 level pr0.2 h2 h1 hN0 hlen0
    have hNs : ∀ pr2 ∈ rest, pr2.1 < num_points (set_links s pr0.1 level pr0.2) := by
      intro pr2 h2m
      rw [num_points_set_links]
      exact hN pr2 (List.mem_cons_of_mem pr0 h2m)
    have hlens : ∀ pr2 ∈ rest, pr2.2.length ≤ get_m (set_links s pr0.1 level pr0.2) level := by
      intro pr2 h2m
      rw [get_m_set_links]
      exact hlen pr2 (List.mem_cons_of_mem pr0 h2m)
    rw [writePairs_cons]
    have hnd2 : (pr0.1 :: rest.map Prod.fst).Nodup := by
      rw [List.map_cons] at hnd
      exact hnd
    rcases List.mem_cons.mp hpr with rfl | hpr'
    · have hnotin : pr.1 ∉ rest.map Prod.fst := (List.nodup_cons.mp hnd2).1
      rw [get_links_writePairs_not_mem level rest _ pr.1 h1s h2s hNs hlens hnotin]
      exact get_links_set_links_same s pr.1 level pr.2 hlvl (h1 level hlvl) hN0 hlen0
    · refine ih _ h1s h2s hNs hlens ?_ ?_ pr hpr'
      · exact (List.nodup_cons.mp hnd2).2
      · rw [length_links_layers_set_links]
        exact hlvl

end GraphLinearBuilder

theorem push_elems_subset {q : FixedLengthPriorityQueue} {x y : ScoredPointOffset}
    (h : y ∈ (q.push x).2.elems) : y = x ∨ y ∈ q.elems := by
  unfold FixedLengthPriorityQueue.push at h
  split at h
  case isTrue hfull => exact mem_insSorted.mp h
  case isFalse hfull =>
    split at h
    case h_1 hq => exact Or.inr h
    case h_2 worst rest hq =>
      split at h
      case isTrue hwx =>
        rcases mem_insSorted.mp h with h1 | h1
        · exact Or.inl h1
        · exact Or.inr (by rw [hq]; exact List.mem_cons_of_mem worst h1)
      case isFalse hwx => exact Or.inr h

theorem push_idx_nodup {q : FixedLengthPriorityQueue} {x : ScoredPointOffset}
    (hx : x.idx ∉ q.elems.map (fun e => e.idx))
    (hnd : (q.elems.map (fun e => e.idx)).Nodup) :
    ((q.push x).2.elems.map (fun e => e.idx)).Nodup := by
  unfold FixedLengthPriorityQueue.push
  split
  case isTrue hfull =>
    have hperm : ((insSorted x q.elems).map (fun e => e.idx)).Perm
        (x.idx :: q.elems.map (fun e => e.idx)) := by
      simpa using (insSorted_perm x q.elems).map (fun e => e.idx)
    exact hperm.nodup_iff.mpr (List.nodup_cons.mpr ⟨hx, hnd⟩)
  case isFalse hfull =>
    split
    case h_1 hq => exact hnd
    case h_2 worst rest hq =>
      rw [hq] at hx hnd
      split
      case isTrue hwx =>
        have hperm : ((insSorted x rest).map (fun e => e.idx)).Perm
            (x.idx :: rest.map (fun e => e.idx)) := by
          simpa using (insSorted_perm x rest).map (fun e => e.idx)
        refine hperm.nodup_iff.mpr (List.nodup_cons.mpr ⟨?_, ?_⟩)
        · intro hmem
          exact hx (by simpa using Or.inr (by simpa using hmem))
        · exact (List.nodup_cons.mp (by simpa using hnd)).2
      case isFalse hwx =>
        rw [hq]
        exact hnd

theorem searchStateOK_offer {s : GraphLinearBuilder} {level E : Nat}
    {st : SearchState} (h : SearchStateOK s level E st) (X : ScoredPointOffset)
    (hnv : X.idx ∉ st.visited) (hsc : SearchScope s level E X.idx) :
    SearchStateOK s level E
      { visited := X.idx :: st.visited,
        nearest := (process_candidate st.nearest st.candidates X).1,
        candidates := (process_candidate st.nearest st.candidates X).2 } := by
  obtain ⟨hv, hev, hnd, hcv⟩ := h
  have hp1 : (process_candidate st.nearest st.candidates X).1 = (st.nearest.push X).2 := rfl
  refine ⟨?_, ?_, ?_, ?_⟩
  · intro v hvm
    rcases List.mem_cons.mp hvm with rfl | hvm'
    · exact hsc
    · exact hv v hvm'
  · intro e he
    rw [hp1] at he
    rcases push_elems_subset he with rfl | he'
    · exact List.mem_cons_self _ _
    · exact List.mem_cons_of_mem _ (hev e he')
  · rw [hp1]
    refine push_idx_nodup ?_ hnd
    intro hmem
    obtain ⟨e, he, hei⟩ := List.mem_map.mp hmem
    exact hnv (hei ▸ hev e he)
  · intro c hc
    show c.idx ∈ X.idx :: st.visited
    have hp2 : (process_candidate st.nearest st.candidates X).2 =
        (if (match (st.nearest.push X).1 with
          | none => true
          | some removed => decide (removed.idx ≠ X.idx)) = true
         then X :: st.candidates else st.candidates) := rfl
    rw [hp2] at hc
    by_cases hcond : (match (st.nearest.push X).1 with
        | none => true
        | some removed => decide (removed.idx ≠ X.idx)) = true
    · rw [if_pos hcond] at hc
      rcases List.mem_cons.mp hc with rfl | hc'
      · exact List.mem_cons_self _ _
      · exact List.mem_cons_of_mem _ (hcv c hc')
    · rw [if_neg hcond] at hc
      exact List.mem_cons_of_mem _ (hcv c hc)

theorem searchStateOK_expand {s : GraphLinearBuilder} {id level E : Nat}
    (links : List Nat) (st : SearchState) (h : SearchStateOK s level E st)
    (hls : ∀ x ∈ links, SearchScope s level E x) :
    SearchStateOK s level E (expand s id links st) := by
  induction links generalizing st with
  | nil => exact h
  | cons x t ih =>
    rw [expand]
    by_cases hx : x ∈ st.visited
    · rw [if_pos hx]
      exact ih st h (fun y hy => hls y (List.mem_cons_of_mem x hy))
    · rw [if_neg hx]
      exact ih _ (searchStateOK_offer h ⟨x, GraphLinearBuilder.score s x id⟩ hx
          (hls x (List.mem_cons_self x t)))
        (fun y hy => hls y (List.mem_cons_of_mem x hy))

theorem searchStateOK_pop {s : GraphLinearBuilder} {level E : Nat}
    {st : SearchState} (h : SearchStateOK s level E st)
    {c : ScoredPointOffset} {rest : List ScoredPointOffset}
    (hpop : heapPop st.candidates = some (c, rest)) :
    SearchStateOK s level E { st with candidates := rest } := by
  obtain ⟨hv, hev, hnd, hcv⟩ := h
  obtain ⟨_, herase⟩ := heapPop_eq hpop
  refine ⟨hv, hev, hnd, ?_⟩
  intro y hy
  rw [herase] at hy
  exact hcv y (List.erase_subset (a := c) (l := st.candidates) hy)

theorem searchStateOK_searchLoop (s : GraphLinearBuilder) (id level E : Nat)
    (fuel : Nat) (st : SearchState) (h : SearchStateOK s level E st) :
    SearchStateOK s level E (searchLoop s id level fuel st) := by
  induction fuel generalizing st with
  | zero => exact h
  | succ n ih =>
    rw [searchLoop_succ]
    match hpop : heapPop st.candidates with
    | none => exact h
    | some (candidate, rest) =>
      simp only
      by_cases hbrk : (match st.nearest.top with
          | none => false
          | some worst => decide (candidate.score < worst.score)) = true
      · rw [if_pos hbrk]
        exact searchStateOK_pop h hpop
      · rw [if_neg hbrk]
        refine ih _ (searchStateOK_expand _ _ (searchStateOK_pop h hpop) ?_)
        intro x hx
        exact Or.inr ⟨candidate.idx, hx⟩

theorem searchStateOK_init (s : GraphLinearBuilder) (level : Nat)
    (entry : ScoredPointOffset) :
    SearchStateOK s level entry.idx (GraphLinearBuilder.searchInit s entry) := by
  refine ⟨?_, ?_, ?_, ?_⟩
  · intro v hv
    have : v = entry.idx := by
      simpa [GraphLinearBuilder.searchInit] using hv
    exact Or.inl this
  · intro e he
    have he' : e = entry ∨ e ∈ (FixedLengthPriorityQueue.new s.ef_construct).elems :=
      push_elems_subset he
    rcases he' with rfl | he''
    · exact List.mem_cons_self _ _
    · exact absurd he'' (by simp [FixedLengthPriorityQueue.new])
  · refine push_idx_nodup ?_ ?_
    · simp [FixedLengthPriorityQueue.new]
    · simp [FixedLengthPriorityQueue.new]
  · intro c hc
    have : c = entry := by
      simpa [GraphLinearBuilder.searchInit] using hc
    subst this
    exact List.mem_cons_self _ _

/-- When the query's own list at the level is empty — as is the case
whenever the builder links a fresh point — the final pass is a no-op and
the search result ids are in scope and pairwise distinct. -/
theorem search_on_level_spec (s : GraphLinearBuilder) (id level : Nat)
    (entry : ScoredPointOffset)
    (hself : GraphLinearBuilder.get_links s id level = []) :
    (∀ e ∈ (GraphLinearBuilder.search_on_level s id entry level).elems,
        SearchScope s level entry.idx e.idx) ∧
      ((GraphLinearBuilder.search_on_level s id entry level).elems.map
        (fun e => e.idx)).Nodup := by
  have hpass : GraphLinearBuilder.search_on_level s id entry level =
      (searchLoop s id level (GraphLinearBuilder.num_points s + 1)
        (GraphLinearBuilder.searchInit s entry)).nearest := by
    unfold GraphLinearBuilder.search_on_level existingLinksPass
    rw [hself]
    rfl
  have hOK := searchStateOK_searchLoop s id level entry.idx
    (GraphLinearBuilder.num_points s + 1)
    (GraphLinearBuilder.searchInit s entry) (searchStateOK_init s level entry)
  obtain ⟨hv, hev, hnd, _⟩ := hOK
  rw [hpass]
  exact ⟨fun e he => hv e.idx (hev e he), hnd⟩

theorem sortSpo_perm (l : List ScoredPointOffset) : (sortSpo l).Perm l := by
  induction l with
  | nil => rfl
  | cons x t ih =>
    show (insSorted x (sortSpo t)).Perm (x :: t)
    exact (insSorted_perm x (sortSpo t)).trans (ih.cons x)

theorem ascSpo_sortSpo (l : List ScoredPointOffset) : AscSpo (sortSpo l) := by
  induction l with
  | nil => simp [sortSpo, AscSpo]
  | cons x t ih => exact ascSpo_insSorted ih

/-- C5: in the link step for point `p` at level `ℓ`, the neighbour ids
are exactly the selected links, and each selected neighbour `q` is
assigned: its current list with `p` appended when below `M(ℓ)`, and
otherwise the heuristic over the descending-by-score sort of
`(p, score(p,q))` together with the first `M(ℓ)` stored entries of `q`'s
list, each scored against `q`.  The last conjunct certifies that
`(sortSpo ·).reverse` is the descending-by-score sort: a permutation of
its input that is descending by score. -/
theorem c5_neighbor_reprune (s : GraphLinearBuilder) (request : GraphLinkRequest) :
    (GraphLinearBuilder.link s request).neighbor_ids =
        (GraphLinearBuilder.link s request).links ∧
      (∀ pr ∈ (GraphLinearBuilder.link s request).neighbor_ids.zip
          (GraphLinearBuilder.link s request).neighbor_links,
        pr.2 =
          if (GraphLinearBuilder.get_links s pr.1 request.level).length <
              GraphLinearBuilder.get_m s request.level then
            GraphLinearBuilder.get_links s pr.1 request.level ++ [request.point_id]
          else
            GraphLinearBuilder.select_candidate_with_heuristic_from_sorted s
              (sortSpo (⟨request.point_id,
                  GraphLinearBuilder.score s request.point_id pr.1⟩ ::
                ((GraphLinearBuilder.get_links s pr.1 request.level).take
                    (GraphLinearBuilder.get_m s request.level)).map
                  (fun l => ⟨l, GraphLinearBuilder.score s l pr.1⟩))).reverse
              (GraphLinearBuilder.get_m s request.level)) ∧
      (∀ L : List ScoredPointOffset, ((sortSpo L).reverse).Perm L ∧
        ((sortSpo L).reverse).Pairwise (fun a b => b.score ≤ a.score)) := by
  refine ⟨rfl, ?_, ?_⟩
  · intro pr hpr
    have hzip : (GraphLinearBuilder.link s request).neighbor_ids.zip
        (GraphLinearBuilder.link s request).neighbor_links =
        (GraphLinearBuilder.link s request).links.map (fun q =>
          (q, if (GraphLinearBuilder.get_links s q request.level).length <
              GraphLinearBuilder.get_m s request.level then
            GraphLinearBuilder.get_links s q request.level ++ [request.point_id]
          else
            GraphLinearBuilder.select_candidate_with_heuristic_from_sorted s
              (sortSpo (⟨request.point_id,
                  GraphLinearBuilder.score s request.point_id q⟩ ::
                ((GraphLinearBuilder.get_links s q request.level).take
                    (GraphLinearBuilder.get_m s request.level)).map
                  (fun l => ⟨l, GraphLinearBuilder.score s l q⟩))).reverse
              (GraphLinearBuilder.get_m s request.level))) := by
      have h := List.zip_map' (fun q => q)
        (fun q =>
          if (GraphLinearBuilder.get_links s q request.level).length <
              GraphLinearBuilder.get_m s request.level then
            GraphLinearBuilder.get_links s q request.level ++ [request.point_id]
          else
            GraphLinearBuilder.select_candidate_with_heuristic_from_sorted s
              (sortSpo (⟨request.point_id,
                  GraphLinearBuilder.score s request.point_id q⟩ ::
                ((GraphLinearBuilder.get_links s q request.level).take
                    (GraphLinearBuilder.get_m s request.level)).map
                  (fun l => ⟨l, GraphLinearBuilder.score s l q⟩))).reverse
              (GraphLinearBuilder.get_m s request.level))
        (GraphLinearBuilder.link s request).links
      rw [show (fun (q : Nat) => q) = id from rfl, List.map_id] at h
      exact h
    rw [hzip] at hpr
    obtain ⟨q, hq, rfl⟩ := List.mem_map.mp hpr
    rfl
  · intro L
    refine ⟨(List.reverse_perm _).trans (sortSpo_perm L), ?_⟩
    rw [List.pairwise_reverse]
    exact ascSpo_score (ascSpo_sortSpo L)

theorem greedyScan_scope (s : GraphLinearBuilder) (id level : Nat)
    (cur : ScoredPointOffset) :
    (GraphLinearBuilder.greedyScan s id level cur).idx = cur.idx ∨
      (GraphLinearBuilder.greedyScan s id level cur).idx ∈
        GraphLinearBuilder.get_links s cur.idx level := by
  unfold GraphLinearBuilder.greedyScan
  generalize hL : GraphLinearBuilder.get_links s cur.idx level = links
  clear hL
  induction links generalizing cur with
  | nil => exact Or.inl rfl
  | cons x t ih =>
    rw [List.foldl_cons]
    by_cases hup : cur.score < GraphLinearBuilder.score s x id
    · rw [if_pos hup]
      rcases ih ⟨x, GraphLinearBuilder.score s x id⟩ with h | h
      · exact Or.inr (h ▸ List.mem_cons_self x t)
      · exact Or.inr (List.mem_cons_of_mem x h)
    · rw [if_neg hup]
      rcases ih cur with h | h
      · exact Or.inl h
      · exact Or.inr (List.mem_cons_of_mem x h)

theorem greedyLoop_scope (s : GraphLinearBuilder) (id level fuel : Nat)
    (cur : ScoredPointOffset) :
    (GraphLinearBuilder.greedyLoop s id level fuel cur).idx = cur.idx ∨
      ∃ q, (GraphLinearBuilder.greedyLoop s id level fuel cur).idx ∈
        GraphLinearBuilder.get_links s q level := by
  induction fuel generalizing cur with
  | zero => exact Or.inl rfl
  | succ n ih =>
    rw [GraphLinearBuilder.greedyLoop]
    by_cases hup : cur.score < (GraphLinearBuilder.greedyScan s id level cur).score
    · rw [if_pos hup]
      rcases ih (GraphLinearBuilder.greedyScan s id level cur) with h | h
      · rcases greedyScan_scope s id level cur with h2 | h2
        · exact Or.inl (h.trans h2)
        · exact Or.inr ⟨cur.idx, h ▸ h2⟩
      · exact Or.inr h
    · rw [if_neg hup]
      exact Or.inl rfl

theorem search_entry_scope (s : GraphLinearBuilder)
    (id entry_point top_level target_level : Nat) :
    (GraphLinearBuilder.search_entry s id entry_point top_level target_level).idx =
        entry_point ∨
      ∃ q l, (GraphLinearBuilder.search_entry s id entry_point
        top_level target_level).idx ∈ GraphLinearBuilder.get_links s q l := by
  unfold GraphLinearBuilder.search_entry
  generalize (GraphLinearBuilder.rev_range top_level target_level) = lvls
  have hgen : ∀ (ls : List Nat) (start : ScoredPointOffset),
      (ls.foldl (fun cur level =>
        GraphLinearBuilder.greedyLoop s id level
          (GraphLinearBuilder.num_points s + 1) cur) start).idx = start.idx ∨
      ∃ q l, (ls.foldl (fun cur level =>
        GraphLinearBuilder.greedyLoop s id level
          (GraphLinearBuilder.num_points s + 1) cur) start).idx ∈
          GraphLinearBuilder.get_links s q l := by
    intro ls
    induction ls with
    | nil => intro start; exact Or.inl rfl
    | cons lv t ih =>
      intro start
      rw [List.foldl_cons]
      rcases ih (GraphLinearBuilder.greedyLoop s id lv
          (GraphLinearBuilder.num_points s + 1) start) with h | h
      · rcases greedyLoop_scope s id lv (GraphLinearBuilder.num_points s + 1) start
          with h2 | h2
        · exact Or.inl (h.trans h2)
        · obtain ⟨q, hq⟩ := h2
          exact Or.inr ⟨q, lv, h ▸ hq⟩
      · exact Or.inr h
  exact hgen lvls _

/-- The zip of neighbour ids and neighbour lists in a link response
pairs each selected neighbour with its freshly computed list. -/
theorem link_zip_eq (s : GraphLinearBuilder) (request : GraphLinkRequest) :
    (GraphLinearBuilder.link s request).neighbor_ids.zip
        (GraphLinearBuilder.link s request).neighbor_links =
      (GraphLinearBuilder.link s request).links.map (fun q =>
        (q, if (GraphLinearBuilder.get_links s q request.level).length <
            GraphLinearBuilder.get_m s request.level then
          GraphLinearBuilder.get_links s q request.level ++ [request.point_id]
        else
          GraphLinearBuilder.select_candidate_with_heuristic_from_sorted s
            (sortSpo (⟨request.point_id,
                GraphLinearBuilder.score s request.point_id q⟩ ::
              ((GraphLinearBuilder.get_links s q request.level).take
                  (GraphLinearBuilder.get_m s request.level)).map
                (fun l => ⟨l, GraphLinearBuilder.score s l q⟩))).reverse
            (GraphLinearBuilder.get_m s request.level))) := by
  have h := List.zip_map' (fun q => q)
    (fun q =>
      if (GraphLinearBuilder.get_links s q request.level).length <
          GraphLinearBuilder.get_m s request.level then
        GraphLinearBuilder.get_links s q request.level ++ [request.point_id]
      else
        GraphLinearBuilder.select_candidate_with_heuristic_from_sorted s
          (sortSpo (⟨request.point_id,
              GraphLinearBuilder.score s request.point_id q⟩ ::
            ((GraphLinearBuilder.get_links s q request.level).take
                (GraphLinearBuilder.get_m s request.level)).map
              (fun l => ⟨l, GraphLinearBuilder.score s l q⟩))).reverse
          (GraphLinearBuilder.get_m s request.level))
    (GraphLinearBuilder.link s request).links
  rw [show (fun (q : Nat) => q) = id from rfl, List.map_id] at h
  exact h

theorem map_idx_mk (f : Nat → Int) (xs : List Nat) :
    (xs.map (fun l => (⟨l, f l⟩ : ScoredPointOffset))).map (fun c => c.idx) = xs := by
  induction xs with
  | nil => rfl
  | cons a t ih => simp only [List.map_cons, ih]

theorem link_step_props (levels0 linked : List Nat) (p lvl : Nat)
    (s : GraphLinearBuilder) (entry : ScoredPointOffset)
    (hRun : RunInv levels0 (linked ++ [p]) s)
    (hFresh : FreshBelow s p lvl)
    (hent : entry.idx ∈ linked)
    (hp : p < levels0.length)
    (hpl : p ∉ linked) :
    (∀ x ∈ (GraphLinearBuilder.link s ⟨p, lvl, entry⟩).links, x ∈ linked) ∧
      (GraphLinearBuilder.link s ⟨p, lvl, entry⟩).links.Nodup ∧
      (GraphLinearBuilder.link s ⟨p, lvl, entry⟩).entry.idx ∈ linked ∧
      (∀ pr ∈ ((p, (GraphLinearBuilder.link s ⟨p, lvl, entry⟩).links) ::
          (GraphLinearBuilder.link s ⟨p, lvl, entry⟩).neighbor_ids.zip
            (GraphLinearBuilder.link s ⟨p, lvl, entry⟩).neighbor_links),
        pr.1 < levels0.length ∧ pr.2.length ≤ GraphLinearBuilder.get_m s lvl ∧
          pr.2.Nodup ∧ pr.1 ∉ pr.2 ∧ (∀ x ∈ pr.2, x ∈ linked ++ [p])) ∧
      ((((p, (GraphLinearBuilder.link s ⟨p, lvl, entry⟩).links) ::
          (GraphLinearBuilder.link s ⟨p, lvl, entry⟩).neighbor_ids.zip
            (GraphLinearBuilder.link s ⟨p, lvl, entry⟩).neighbor_links)).map
        Prod.fst).Nodup := by
  obtain ⟨hLay, hCnt, hlev, hlen, hltN, hreg, hnd, hself0, hsub, hempty⟩ := hRun
  have hselfempty : GraphLinearBuilder.get_links s p lvl = [] :=
    (hFresh lvl (le_refl lvl)).1
  obtain ⟨hscope, hnodup⟩ := search_on_level_spec s p lvl entry hselfempty
  -- members of the selected links are linked, distinct, and not p
  have hmemlinks : ∀ x ∈ (GraphLinearBuilder.link s ⟨p, lvl, entry⟩).links,
      x ∈ linked := by
    intro x hx
    obtain ⟨c, hc, hcx⟩ := GraphLinearBuilder.select_mem s _ _ hx
    have hcel : c ∈ (GraphLinearBuilder.search_on_level s p entry lvl).elems :=
      List.mem_reverse.mp hc
    rcases hscope c hcel with h1 | ⟨q, hq⟩
    · rw [← hcx, h1]
      exact hent
    · have hx2 := hsub q lvl c.idx hq
      rcases List.mem_append.mp hx2 with h2 | h2
      · exact hcx ▸ h2
      · exfalso
        have : c.idx = p := by simpa using h2
        exact (hFresh lvl (le_refl lvl)).2 q (this ▸ hq)
  have hnodupLinks : (GraphLinearBuilder.link s ⟨p, lvl, entry⟩).links.Nodup := by
    refine GraphLinearBuilder.select_nodup s _ _ ?_
    rw [FixedLengthPriorityQueue.into_vec, List.map_reverse]
    exact List.nodup_reverse.mpr hnodup
  have hplinks : p ∉ (GraphLinearBuilder.link s ⟨p, lvl, entry⟩).links :=
    fun hmem => hpl (hmemlinks p hmem)
  have hlinksN : ∀ x ∈ (GraphLinearBuilder.link s ⟨p, lvl, entry⟩).links,
      x < levels0.length := by
    intro x hx
    exact hltN x (List.mem_append.mpr (Or.inl (hmemlinks x hx)))
  have hentry : (GraphLinearBuilder.link s ⟨p, lvl, entry⟩).entry.idx ∈ linked := by
    show ((heapMax (GraphLinearBuilder.search_on_level s p entry lvl).elems).getD
      entry).idx ∈ linked
    match hmx : heapMax (GraphLinearBuilder.search_on_level s p entry lvl).elems with
    | none => exact hent
    | some mx =>
      have hmel := heapMax_mem hmx
      rcases hscope mx hmel with h1 | ⟨q, hq⟩
      · rw [Option.getD_some, h1]
        exact hent
      · rw [Option.getD_some]
        have hx2 := hsub q lvl mx.idx hq
        rcases List.mem_append.mp hx2 with h2 | h2
        · exact h2
        · exfalso
          have : mx.idx = p := by simpa using h2
          exact (hFresh lvl (le_refl lvl)).2 q (this ▸ hq)
  refine ⟨hmemlinks, hnodupLinks, hentry, ?_, ?_⟩
  · intro pr hpr
    rcases List.mem_cons.mp hpr with rfl | hpr'
    · refine ⟨hp, GraphLinearBuilder.select_length s _ _, hnodupLinks, hplinks,
        fun x hx => List.mem_append.mpr (Or.inl (hmemlinks x hx))⟩
    · rw [link_zip_eq] at hpr'
      obtain ⟨q, hq, rfl⟩ := List.mem_map.mp hpr'
      have hqlinked : q ∈ linked := hmemlinks q hq
      have hqN : q < levels0.length := hltN q (List.mem_append.mpr (Or.inl hqlinked))
      have hqnp : q ≠ p := fun he => hpl (he ▸ hqlinked)
      have hqold := hnd q lvl
      have hqoldself := hself0 q lvl
      have hpold : p ∉ GraphLinearBuilder.get_links s q lvl :=
        (hFresh lvl (le_refl lvl)).2 q
      by_cases hcase : (GraphLinearBuilder.get_links s q lvl).length <
          GraphLinearBuilder.get_m s lvl
      · simp only [hcase, if_pos]
        refine ⟨hqN, ?_, ?_, ?_, ?_⟩
        · rw [List.length_append, List.length_singleton]
          omega
        · rw [List.nodup_append]
          refine ⟨hqold, List.nodup_singleton p, fun a ha hb => ?_⟩
          have hap : a = p := by simpa using hb
          exact hpold (hap ▸ ha)
        · intro hmem
          rcases List.mem_append.mp hmem with h2 | h2
          · exact hqoldself h2
          · exact hqnp (by simpa using h2)
        · intro x hx
          rcases List.mem_append.mp hx with h2 | h2
          · exact List.mem_append.mpr (Or.inl
              (by
                have := hsub q lvl x h2
                rcases List.mem_append.mp this with h3 | h3
                · exact h3
                · exact absurd ((by simpa using h3) ▸ h2) hpold))
          · exact List.mem_append.mpr (Or.inr h2)
      · simp only [hcase, if_neg, if_false]
        -- the re-pruned list
        have hcandidx : ((sortSpo (⟨p, GraphLinearBuilder.score s p q⟩ ::
            ((GraphLinearBuilder.get_links s q lvl).take
              (GraphLinearBuilder.get_m s lvl)).map
              (fun l => ⟨l, GraphLinearBuilder.score s l q⟩))).reverse.map
            (fun c => c.idx)).Perm
            (p :: (GraphLinearBuilder.get_links s q lvl).take
              (GraphLinearBuilder.get_m s lvl)) := by
          have hperm : (sortSpo (⟨p, GraphLinearBuilder.score s p q⟩ ::
              ((GraphLinearBuilder.get_links s q lvl).take
                (GraphLinearBuilder.get_m s lvl)).map
                (fun l => ⟨l, GraphLinearBuilder.score s l q⟩))).reverse.Perm
              (⟨p, GraphLinearBuilder.score s p q⟩ ::
              ((GraphLinearBuilder.get_links s q lvl).take
                (GraphLinearBuilder.get_m s lvl)).map
                (fun l => ⟨l, GraphLinearBuilder.score s l q⟩)) :=
            (List.reverse_perm _).trans (sortSpo_perm _)
          have h2 := hperm.map (fun c => c.idx)
          rw [List.map_cons, map_idx_mk] at h2
          exact h2
        have htakesub : ∀ x ∈ (GraphLinearBuilder.get_links s q lvl).take
            (GraphLinearBuilder.get_m s lvl), x ∈ GraphLinearBuilder.get_links s q lvl :=
          fun x hx => List.mem_of_mem_take hx
        refine ⟨hqN, GraphLinearBuilder.select_length s _ _, ?_, ?_, ?_⟩
        · refine GraphLinearBuilder.select_nodup s _ _ ?_
          refine hcandidx.nodup_iff.mpr ?_
          refine List.nodup_cons.mpr ⟨fun hmem => hpold (htakesub p hmem), ?_⟩
          exact hqold.sublist (List.take_sublist _ _)
        · intro hmem
          obtain ⟨c, hc, hcx⟩ := GraphLinearBuilder.select_mem s _ _ hmem
          have : c.idx ∈ p :: (GraphLinearBuilder.get_links s q lvl).take
              (GraphLinearBuilder.get_m s lvl) := by
            refine hcandidx.subset ?_
            exact List.mem_map.mpr ⟨c, hc, rfl⟩
          rcases List.mem_cons.mp this with h2 | h2
          · exact hqnp (hcx ▸ h2)
          · exact hqoldself (htakesub q (hcx ▸ h2))
        · intro x hx
          obtain ⟨c, hc, hcx⟩ := GraphLinearBuilder.select_mem s _ _ hx
          have : c.idx ∈ p :: (GraphLinearBuilder.get_links s q lvl).take
              (GraphLinearBuilder.get_m s lvl) := by
            refine hcandidx.subset ?_
            exact List.mem_map.mpr ⟨c, hc, rfl⟩
          rcases List.mem_cons.mp this with h2 | h2
          · rw [← hcx, h2]
            exact List.mem_append.mpr (Or.inr (List.mem_singleton_self p))
          · have h3 := hsub q lvl c.idx (htakesub c.idx h2)
            exact hcx ▸ h3
  · rw [link_zip_eq]
    rw [List.map_cons]
    have hmapfst : ∀ (L : List Nat) (f : Nat → List Nat),
        (L.map (fun q => (q, f q))).map Prod.fst = L := by
      intro L f
      induction L with
      | nil => rfl
      | cons a t ih => simp only [List.map_cons, ih]
    rw [hmapfst]
    exact List.nodup_cons.mpr ⟨hplinks, hnodupLinks⟩

theorem apply_eq_writePairs (s : GraphLinearBuilder) (r : GraphLinkResponse) :
    GraphLinearBuilder.apply_link_response s r =
      GraphLinearBuilder.writePairs r.level s
        ((r.point_id, r.links) :: r.neighbor_ids.zip r.neighbor_links) := rfl

theorem link_apply_inv (levels0 linked : List Nat) (p lvl : Nat)
    (s : GraphLinearBuilder) (entry : ScoredPointOffset)
    (hRun : RunInv levels0 (linked ++ [p]) s)
    (hFresh : FreshBelow s p lvl)
    (hent : entry.idx ∈ linked)
    (hp : p < levels0.length)
    (hpl : p ∉ linked)
    (hlvl : lvl < s.links_layers.length) :
    RunInv levels0 (linked ++ [p])
        (GraphLinearBuilder.apply_link_response s
          (GraphLinearBuilder.link s ⟨p, lvl, entry⟩)) ∧
      (∀ l, l < lvl →
        GraphLinearBuilder.get_links (GraphLinearBuilder.apply_link_response s
          (GraphLinearBuilder.link s ⟨p, lvl, entry⟩)) p l = [] ∧
        ∀ q, p ∉ GraphLinearBuilder.get_links (GraphLinearBuilder.apply_link_response s
          (GraphLinearBuilder.link s ⟨p, lvl, entry⟩)) q l) ∧
      (GraphLinearBuilder.link s ⟨p, lvl, entry⟩).entry.idx ∈ linked := by
  obtain ⟨hmemlinks, hnodupLinks, hentry, hpairs, hndfst⟩ :=
    link_step_props levels0 linked p lvl s entry hRun hFresh hent hp hpl
  obtain ⟨hLay, hCnt, hlev, hlaylen, hltN, hreg, hnd, hself0, hsub, hempty⟩ := hRun
  have hNP : GraphLinearBuilder.num_points s = levels0.length := by
    unfold GraphLinearBuilder.num_points
    rw [hlev]
  have hNpairs : ∀ pr ∈ ((p, (GraphLinearBuilder.link s ⟨p, lvl, entry⟩).links) ::
      (GraphLinearBuilder.link s ⟨p, lvl, entry⟩).neighbor_ids.zip
        (GraphLinearBuilder.link s ⟨p, lvl, entry⟩).neighbor_links),
      pr.1 < GraphLinearBuilder.num_points s := by
    intro pr hpr
    rw [hNP]
    exact (hpairs pr hpr).1
  have hlenpairs : ∀ pr ∈ ((p, (GraphLinearBuilder.link s ⟨p, lvl, entry⟩).links) ::
      (GraphLinearBuilder.link s ⟨p, lvl, entry⟩).neighbor_ids.zip
        (GraphLinearBuilder.link s ⟨p, lvl, entry⟩).neighbor_links),
      pr.2.length ≤ GraphLinearBuilder.get_m s lvl :=
    fun pr hpr => (hpairs pr hpr).2.1
  have hresplevel : (GraphLinearBuilder.link s ⟨p, lvl, entry⟩).level = lvl := rfl
  have happly : GraphLinearBuilder.apply_link_response s
      (GraphLinearBuilder.link s ⟨p, lvl, entry⟩) =
      GraphLinearBuilder.writePairs lvl s
        ((p, (GraphLinearBuilder.link s ⟨p, lvl, entry⟩).links) ::
          (GraphLinearBuilder.link s ⟨p, lvl, entry⟩).neighbor_ids.zip
            (GraphLinearBuilder.link s ⟨p, lvl, entry⟩).neighbor_links) := rfl
  rw [happly]
  obtain ⟨hLay3, hCnt3⟩ := GraphLinearBuilder.invs_writePairs lvl _ s hLay hCnt
    hNpairs hlenpairs
  obtain ⟨hm3, hm03, hpl3, hep3, hll3⟩ := GraphLinearBuilder.writePairs_fields lvl
    ((p, (GraphLinearBuilder.link s ⟨p, lvl, entry⟩).links) ::
      (GraphLinearBuilder.link s ⟨p, lvl, entry⟩).neighbor_ids.zip
        (GraphLinearBuilder.link s ⟨p, lvl, entry⟩).neighbor_links) s
  -- a description of every stored list after the write
  have hdescribe : ∀ q' l',
      (l' ≠ lvl → GraphLinearBuilder.get_links (GraphLinearBuilder.writePairs lvl s
        ((p, (GraphLinearBuilder.link s ⟨p, lvl, entry⟩).links) ::
          (GraphLinearBuilder.link s ⟨p, lvl, entry⟩).neighbor_ids.zip
            (GraphLinearBuilder.link s ⟨p, lvl, entry⟩).neighbor_links)) q' l' =
        GraphLinearBuilder.get_links s q' l') := by
    intro q' l' hne
    exact GraphLinearBuilder.get_links_writePairs_level_ne lvl _ s q' l' hne
  have hdescribe2 : ∀ q',
      GraphLinearBuilder.get_links (GraphLinearBuilder.writePairs lvl s
        ((p, (GraphLinearBuilder.link s ⟨p, lvl, entry⟩).links) ::
          (GraphLinearBuilder.link s ⟨p, lvl, entry⟩).neighbor_ids.zip
            (GraphLinearBuilder.link s ⟨p, lvl, entry⟩).neighbor_links)) q' lvl =
        GraphLinearBuilder.get_links s q' lvl ∨
      ∃ pr ∈ ((p, (GraphLinearBuilder.link s ⟨p, lvl, entry⟩).links) ::
          (GraphLinearBuilder.link s ⟨p, lvl, entry⟩).neighbor_ids.zip
            (GraphLinearBuilder.link s ⟨p, lvl, entry⟩).neighbor_links),
        pr.1 = q' ∧ GraphLinearBuilder.get_links (GraphLinearBuilder.writePairs lvl s
          ((p, (GraphLinearBuilder.link s ⟨p, lvl, entry⟩).links) ::
            (GraphLinearBuilder.link s ⟨p, lvl, entry⟩).neighbor_ids.zip
              (GraphLinearBuilder.link s ⟨p, lvl, entry⟩).neighbor_links)) q' lvl =
          pr.2 := by
    intro q'
    by_cases hqmem : q' ∈ (((p, (GraphLinearBuilder.link s ⟨p, lvl, entry⟩).links) ::
        (GraphLinearBuilder.link s ⟨p, lvl, entry⟩).neighbor_ids.zip
          (GraphLinearBuilder.link s ⟨p, lvl, entry⟩).neighbor_links)).map Prod.fst
    · obtain ⟨pr, hprm, hpr1⟩ := List.mem_map.mp hqmem
      refine Or.inr ⟨pr, hprm, hpr1, ?_⟩
      rw [← hpr1]
      exact GraphLinearBuilder.get_links_writePairs_mem lvl _ s hLay hCnt hNpairs
        hlenpairs hndfst hlvl pr hprm
    · exact Or.inl (GraphLinearBuilder.get_links_writePairs_not_mem lvl _ s q' hLay
        hCnt hNpairs hlenpairs hqmem)
  refine ⟨⟨hLay3, hCnt3, hpl3.trans hlev, hll3.trans hlaylen, hltN, ?_, ?_, ?_, ?_, ?_⟩,
    ?_, hentry⟩
  · rw [hep3]
    exact hreg
  · -- nodup of every stored list
    intro q' l'
    by_cases hne : l' = lvl
    · subst hne
      rcases hdescribe2 q' with h | ⟨pr, hprm, hpr1, h⟩
      · rw [h]; exact hnd q' l'
      · rw [h]; exact (hpairs pr hprm).2.2.1
    · rw [hdescribe q' l' hne]
      exact hnd q' l'
  · -- no self loops
    intro q' l'
    by_cases hne : l' = lvl
    · subst hne
      rcases hdescribe2 q' with h | ⟨pr, hprm, hpr1, h⟩
      · rw [h]; exact hself0 q' l'
      · rw [h]
        rw [← hpr1]
        exact (hpairs pr hprm).2.2.2.1
    · rw [hdescribe q' l' hne]
      exact hself0 q' l'
  · -- stored ids are linked (or p)
    intro q' l' x hx
    by_cases hne : l' = lvl
    · subst hne
      rcases hdescribe2 q' with h | ⟨pr, hprm, hpr1, h⟩
      · rw [h] at hx; exact hsub q' l' x hx
      · rw [h] at hx
        exact (hpairs pr hprm).2.2.2.2 x hx
    · rw [hdescribe q' l' hne] at hx
      exact hsub q' l' x hx
  · -- unlinked points keep empty lists
    intro q' hq' l'
    by_cases hne : l' = lvl
    · subst hne
      rcases hdescribe2 q' with h | ⟨pr, hprm, hpr1, h⟩
      · rw [h]; exact hempty q' hq' l'
      · exfalso
        rcases List.mem_cons.mp hprm with rfl | hprm'
        · exact hq' (List.mem_append.mpr (Or.inr (by simpa using hpr1.symm)))
        · rw [link_zip_eq] at hprm'
          obtain ⟨q2, hq2, rfl⟩ := List.mem_map.mp hprm'
          exact hq' (List.mem_append.mpr (Or.inl (hpr1 ▸ hmemlinks q2 hq2)))
    · rw [hdescribe q' l' hne]
      exact hempty q' hq' l'
  · -- levels strictly below are untouched
    intro l hl
    constructor
    · rw [hdescribe p l (by omega)]
      exact (hFresh l (by omega)).1
    · intro q
      rw [hdescribe q l (by omega)]
      exact (hFresh l (by omega)).2 q

theorem link_level_inv (levels0 linked : List Nat) (p : Nat) :
    ∀ (lvl : Nat) (s : GraphLinearBuilder) (entry : ScoredPointOffset),
      RunInv levels0 (linked ++ [p]) s →
      FreshBelow s p lvl →
      entry.idx ∈ linked →
      p < levels0.length →
      p ∉ linked →
      lvl < s.links_layers.length →
      RunInv levels0 (linked ++ [p]) (GraphLinearBuilder.link_level p lvl s entry) := by
  intro lvl
  induction lvl with
  | zero =>
    intro s entry hRun hFresh hent hp hpl hlvl
    exact (link_apply_inv levels0 linked p 0 s entry hRun hFresh hent hp hpl hlvl).1
  | succ l ih =>
    intro s entry hRun hFresh hent hp hpl hlvl
    obtain ⟨hRun3, hFresh3, hent3⟩ :=
      link_apply_inv levels0 linked p (l + 1) s entry hRun hFresh hent hp hpl hlvl
    rw [GraphLinearBuilder.link_level]
    refine ih _ _ hRun3 ?_ hent3 hp hpl ?_
    · intro l2 hl2
      exact hFresh3 l2 (by omega)
    · have h1 := hRun3.2.2.2.1
      have h2 := hRun.2.2.2.1
      omega

theorem bestEntry_mem {pts : List EntryPoint} {e : EntryPoint}
    (h : EntryPoints.bestEntry pts = some e) : e ∈ pts := by
  cases pts with
  | nil => cases h
  | cons e0 t =>
    simp only [EntryPoints.bestEntry, Option.some.injEq] at h
    subst h
    induction t generalizing e0 with
    | nil => exact List.mem_singleton_self e0
    | cons y ys ih =>
      rw [List.foldl_cons]
      by_cases hy : y.level > e0.level
      · rw [if_pos hy]
        rcases List.mem_cons.mp (ih y) with h | h
        · rw [h]
          exact List.mem_cons_of_mem _ (List.mem_cons_self y ys)
        · exact List.mem_cons_of_mem _ (List.mem_cons_of_mem _ h)
      · rw [if_neg hy]
        rcases List.mem_cons.mp (ih e0) with h | h
        · rw [h]
          exact List.mem_cons_self _ _
        · exact List.mem_cons_of_mem _ (List.mem_cons_of_mem _ h)

theorem new_point_points_sub (eps : EntryPoints) (p level : Nat) :
    ∀ e ∈ (eps.new_point p level).2.points, e ∈ eps.points ∨ e = ⟨p, level⟩ := by
  intro e he
  unfold EntryPoints.new_point at he
  simp only at he
  split at he
  · rcases List.mem_append.mp he with h | h
    · exact Or.inl h
    · exact Or.inr (by simpa using h)
  · exact Or.inl he

theorem foldl_max_init_le (l : List Nat) (a : Nat) : a ≤ l.foldl Nat.max a := by
  induction l generalizing a with
  | nil => exact le_refl a
  | cons x t ih =>
    rw [List.foldl_cons]
    exact le_trans (Nat.le_max_left a x) (ih (Nat.max a x))

theorem foldl_max_mem_le (l : List Nat) (a x : Nat) (h : x ∈ l) :
    x ≤ l.foldl Nat.max a := by
  induction l generalizing a with
  | nil => exact absurd h (List.not_mem_nil x)
  | cons y t ih =>
    rw [List.foldl_cons]
    rcases List.mem_cons.mp h with rfl | h'
    · exact le_trans (Nat.le_max_right a x) (foldl_max_init_le t (Nat.max a x))
    · exact ih (Nat.max a y) h'

theorem getD_le_foldl_max (l : List Nat) (p : Nat) : l.getD p 0 ≤ l.foldl Nat.max 0 := by
  by_cases hp : p < l.length
  · refine foldl_max_mem_le l 0 _ ?_
    rw [List.getD_eq_getElem l 0 hp]
    exact List.getElem_mem hp
  · rw [List.getD_eq_default l 0 (by omega)]
    exact Nat.zero_le _

/-- One complete `link_new_point` preserves the build invariant, the new
point becoming linked. -/
theorem link_new_point_inv (levels0 linked : List Nat) (p : Nat)
    (s : GraphLinearBuilder) (hRun : RunInv levels0 linked s)
    (hp : p < levels0.length) (hpl : p ∉ linked) :
    RunInv levels0 (linked ++ [p]) (GraphLinearBuilder.link_new_point s p) := by
  obtain ⟨hLay, hCnt, hlev, hlaylen, hltN, hreg, hnd, hself0, hsub, hempty⟩ := hRun
  have hlinkedN : ∀ x ∈ linked ++ [p], x < levels0.length := by
    intro x hx
    rcases List.mem_append.mp hx with h | h
    · exact hltN x h
    · have hxp : x = p := by simpa using h
      rw [hxp]
      exact hp
  have hregsub : ∀ e ∈ (s.entry_points.new_point p
      (GraphLinearBuilder.get_point_level s p)).2.points, e.id ∈ linked ++ [p] := by
    intro e he
    rcases new_point_points_sub s.entry_points p _ e he with h | h
    · exact List.mem_append.mpr (Or.inl (hreg e h))
    · rw [h]
      exact List.mem_append.mpr (Or.inr (List.mem_singleton_self p))
  have hRunBase : ∀ eps : EntryPoints, (∀ e ∈ eps.points, e.id ∈ linked ++ [p]) →
      RunInv levels0 (linked ++ [p]) { s with entry_points := eps } := by
    intro eps heps
    refine ⟨hLay, hCnt, hlev, hlaylen, hlinkedN, heps, hnd, hself0, ?_, ?_⟩
    · intro q l x hx
      exact List.mem_append.mpr (Or.inl (hsub q l x hx))
    · intro q hq l
      refine hempty q ?_ l
      intro hql
      exact hq (List.mem_append.mpr (Or.inl hql))
  cases hbe : EntryPoints.bestEntry s.entry_points.points with
  | none =>
    have heq : GraphLinearBuilder.link_new_point s p =
        { s with entry_points := (s.entry_points.new_point p
          (GraphLinearBuilder.get_point_level s p)).2 } := by
      unfold GraphLinearBuilder.link_new_point GraphLinearBuilder.get_link_request
      simp only [EntryPoints.new_point, hbe]
    rw [heq]
    exact hRunBase _ (by
      intro e he
      exact hregsub e (by
        unfold EntryPoints.new_point
        simpa using he))
  | some ep =>
    have hepid : ep.id ∈ linked := hreg ep (bestEntry_mem hbe)
    have hlevelbound : min (GraphLinearBuilder.get_point_level s p) ep.level <
        s.links_layers.length := by
      have h1 : GraphLinearBuilder.get_point_level s p ≤ levels0.foldl Nat.max 0 := by
        unfold GraphLinearBuilder.get_point_level
        rw [hlev]
        exact getD_le_foldl_max levels0 p
      have h2 := Nat.min_le_left (GraphLinearBuilder.get_point_level s p) ep.level
      omega
    have hentscope : ∀ st : GraphLinearBuilder, st.links_layers = s.links_layers →
        st.m = s.m → st.m0 = s.m0 →
        ∀ e2 : ScoredPointOffset,
        (e2.idx = ep.id ∨ ∃ q l, e2.idx ∈ GraphLinearBuilder.get_links st q l) →
        e2.idx ∈ linked := by
      intro st hst hm hm0 e2 h
      rcases h with h | ⟨q, l, h⟩
      · rw [h]
        exact hepid
      · have hgl : GraphLinearBuilder.get_links st q l =
            GraphLinearBuilder.get_links s q l := by
          unfold GraphLinearBuilder.get_links GraphLinearBuilder.get_m
          rw [hst, hm, hm0]
        rw [hgl] at h
        exact hsub q l e2.idx h
    have heq : GraphLinearBuilder.link_new_point s p =
        GraphLinearBuilder.link_level p
          (min (GraphLinearBuilder.get_point_level s p) ep.level)
          { s with entry_points := (s.entry_points.new_point p
            (GraphLinearBuilder.get_point_level s p)).2 }
          (if GraphLinearBuilder.get_point_level s p < ep.level then
            GraphLinearBuilder.search_entry
              { s with entry_points := (s.entry_points.new_point p
                (GraphLinearBuilder.get_point_level s p)).2 }
              p ep.id ep.level (GraphLinearBuilder.get_point_level s p)
          else ⟨ep.id, GraphLinearBuilder.score s p ep.id⟩) := by
      unfold GraphLinearBuilder.link_new_point GraphLinearBuilder.get_link_request
      simp only [EntryPoints.new_point, hbe]
    rw [heq]
    refine link_level_inv levels0 linked p _ _ _ (hRunBase _ hregsub) ?_ ?_ hp hpl
      hlevelbound
    · intro l _
      refine ⟨hempty p hpl l, ?_⟩
      intro q hq
      exact hpl (hsub q l p hq)
    · by_cases hcond : GraphLinearBuilder.get_point_level s p < ep.level
      · rw [if_pos hcond]
        refine hentscope _ rfl rfl rfl _ ?_
        exact search_entry_scope _ p ep.id ep.level _
      · rw [if_neg hcond]
        exact hepid

theorem runInv_new (levels0 : List Nat) (m m0 ef num : Nat) (f : Nat → Nat → Int) :
    RunInv levels0 [] (GraphLinearBuilder.new levels0 m m0 ef num f) := by
  refine ⟨GraphLinearBuilder.layerInv_new levels0 m m0 ef num f,
    GraphLinearBuilder.countInv_new levels0 m m0 ef num f, rfl, ?_, ?_, ?_, ?_, ?_, ?_, ?_⟩
  · show ((List.range _).map _).length = _
    simp
  · intro x hx
    exact absurd hx (List.not_mem_nil x)
  · intro e he
    exact absurd he (List.not_mem_nil e)
  · intro q l
    rw [GraphLinearBuilder.get_links_new]
    exact List.nodup_nil
  · intro q l
    rw [GraphLinearBuilder.get_links_new]
    exact List.not_mem_nil q
  · intro q l x hx
    rw [GraphLinearBuilder.get_links_new] at hx
    exact absurd hx (List.not_mem_nil x)
  · intro q _ l
    exact GraphLinearBuilder.get_links_new levels0 m m0 ef num f q l

theorem build_inv (levels0 : List Nat) :
    ∀ (ps linked : List Nat) (s : GraphLinearBuilder),
      RunInv levels0 linked s →
      (∀ x ∈ ps, x < levels0.length) →
      (linked ++ ps).Nodup →
      RunInv levels0 (linked ++ ps)
        (ps.foldl GraphLinearBuilder.link_new_point s) := by
  intro ps
  induction ps with
  | nil =>
    intro linked s h _ _
    simpa using h
  | cons q t ih =>
    intro linked s h hN hnd
    rw [List.foldl_cons]
    have hq : q ∉ linked := by
      obtain ⟨-, -, hdisj⟩ := List.nodup_append.mp hnd
      intro hql
      exact hdisj hql (List.mem_cons_self q t)
    have hstep := link_new_point_inv levels0 linked q s h
      (hN q (List.mem_cons_self q t)) hq
    have ht := ih (linked ++ [q]) _ hstep
      (fun x hx => hN x (List.mem_cons_of_mem q hx))
      (by
        rw [List.append_assoc]
        exact hnd)
    rw [List.append_assoc] at ht
    exact ht

theorem get_links_length_le (s : GraphLinearBuilder)
    (hCnt : GraphLinearBuilder.CountInv s) (p l : Nat) :
    (GraphLinearBuilder.get_links s p l).length ≤ GraphLinearBuilder.get_m s l := by
  refine le_trans ?_ (hCnt p l)
  show (List.take _ _).length ≤ _
  rw [List.length_take]
  exact Nat.min_le_left _ _

theorem offerExisting_marking_agree (s : GraphLinearBuilder) (id : Nat) :
    ∀ (links : List Nat) (st1 st2 : SearchState),
      st1.nearest = st2.nearest → st1.candidates = st2.candidates →
      (∀ y ∈ links, (y ∈ st1.visited ↔ y ∈ st2.visited)) → links.Nodup →
      (offerExisting s id links st1).nearest =
          (offerExistingMarking s id links st2).nearest ∧
        (offerExisting s id links st1).candidates =
          (offerExistingMarking s id links st2).candidates := by
  intro links
  induction links with
  | nil => intro st1 st2 hn hc _ _; exact ⟨hn, hc⟩
  | cons x t ih =>
    intro st1 st2 hn hc hv hnd
    rw [offerExisting, offerExistingMarking]
    have hx := hv x (List.mem_cons_self x t)
    rcases List.nodup_cons.mp hnd with ⟨hxt, hndt⟩
    by_cases hx1 : x ∈ st1.visited
    · rw [if_pos hx1, if_pos (hx.mp hx1)]
      exact ih st1 st2 hn hc (fun y hy => hv y (List.mem_cons_of_mem x hy)) hndt
    · rw [if_neg hx1, if_neg (fun h2 => hx1 (hx.mpr h2))]
      refine ih _ _ ?_ ?_ ?_ hndt
      · show (process_candidate st1.nearest st1.candidates _).1 =
          (process_candidate st2.nearest st2.candidates _).1
        rw [hn, hc]
      · show (process_candidate st1.nearest st1.candidates _).2 =
          (process_candidate st2.nearest st2.candidates _).2
        rw [hn, hc]
      · intro y hy
        show y ∈ st1.visited ↔ y ∈ x :: st2.visited
        have hyx : y ≠ x := fun h => hxt (h ▸ hy)
        rw [List.mem_cons]
        constructor
        · intro h
          exact Or.inr ((hv y (List.mem_cons_of_mem x hy)).mp h)
        · rintro (h | h)
          · exact absurd h hyx
          · exact (hv y (List.mem_cons_of_mem x hy)).mpr h

/-- C4 (amended): in every invocation of `search_on_level(query_id,
entry, ℓ)`, every id in `get_links(query_id, ℓ)` that is not yet visited
is scored against the query and offered to both `nearest` and
`candidates` (with `candidates` receiving it only if it was admitted to
the beam), exactly as during expansion EXCEPT that the visited set is
only peeked, not updated; whenever `get_links(query_id, ℓ)` is
duplicate-free — which holds for every list the builder itself stores —
the result coincides with the marking process the claim describes. -/
theorem c4_existing_links_pass_amended (s : GraphLinearBuilder) (id : Nat)
    (entry : ScoredPointOffset) (level : Nat)
    (h : (GraphLinearBuilder.get_links s id level).Nodup) :
    GraphLinearBuilder.search_on_level s id entry level =
      GraphLinearBuilder.search_on_level_marking s id entry level := by
  unfold GraphLinearBuilder.search_on_level GraphLinearBuilder.search_on_level_marking
  exact (offerExisting_marking_agree s id _ _ _ rfl rfl (fun y _ => Iff.rfl) h).1

/-- C4, as stated, is false of the code: the source's final pass does
not mark offered links visited, so in the concrete invocation below —
where the query's stored list holds the id 1 twice — the unvisited id is
offered twice, and the result differs from the marking process the claim
describes. -/
theorem c4_counterexample :
    GraphLinearBuilder.search_on_level c4Builder 0 ⟨2, 0⟩ 0 ≠
      GraphLinearBuilder.search_on_level_marking c4Builder 0 ⟨2, 0⟩ 0 := by
  decide

theorem c4_existing_links_pass_amended_witness :
    (GraphLinearBuilder.get_links wBuilder 0 0).Nodup ∧
      GraphLinearBuilder.search_on_level wBuilder 0 ⟨1, 0⟩ 0 =
        GraphLinearBuilder.search_on_level_marking wBuilder 0 ⟨1, 0⟩ 0 :=
  ⟨by decide, c4_existing_links_pass_amended wBuilder 0 ⟨1, 0⟩ 0 (by decide)⟩

/-- C6: at every level of every insertion, the candidate list the linker
feeds to the neighbour heuristic is exactly the level-search result queue
drained to ascending order and reversed: the `into_vec` fed to the
heuristic is the reverse of the queue's ascending element list, the drain
is ascending by score, the fed list is descending by score (best first),
and it retains at most `ef_construct` points. -/
theorem c6_linker_feeds_reversed_drain (s : GraphLinearBuilder)
    (request : GraphLinkRequest) :
    (GraphLinearBuilder.link s request).links =
        GraphLinearBuilder.select_candidate_with_heuristic_from_sorted s
          (GraphLinearBuilder.search_on_level s request.point_id request.entry
            request.level).into_vec (GraphLinearBuilder.get_m s request.level) ∧
      (GraphLinearBuilder.search_on_level s request.point_id request.entry
          request.level).into_vec =
        (GraphLinearBuilder.search_on_level s request.point_id request.entry
          request.level).elems.reverse ∧
      (GraphLinearBuilder.search_on_level s request.point_id request.entry
          request.level).elems.Pairwise (fun a b => a.score ≤ b.score) ∧
      (GraphLinearBuilder.search_on_level s request.point_id request.entry
          request.level).into_vec.Pairwise (fun a b => b.score ≤ a.score) ∧
      (GraphLinearBuilder.search_on_level s request.point_id request.entry
          request.level).elems.length ≤ s.ef_construct := by
  obtain ⟨hcap, hlen, hasc⟩ := queueInv_search_on_level s request.point_id
    request.entry request.level
  refine ⟨rfl, rfl, ascSpo_score hasc, ?_, hlen⟩
  rw [FixedLengthPriorityQueue.into_vec, List.pairwise_reverse]
  exact ascSpo_score hasc

theorem refSearchLoop_succ (t : RefBuilder) (id level fuel : Nat)
    (st : SearchState) :
    RefBuilder.refSearchLoop t id level (fuel + 1) st =
      match heapPop st.candidates with
      | none => st
      | some (candidate, rest) =>
        if (match st.nearest.top with
            | none => false
            | some worst => decide (candidate.score < worst.score)) = true
        then { st with candidates := rest }
        else RefBuilder.refSearchLoop t id level fuel
          (RefBuilder.refExpand t id (t.links candidate.idx level)
            { st with candidates := rest }) := rfl

theorem sim_select (s : GraphLinearBuilder) (t : RefBuilder)
    (hsf : s.score_fn = t.score_fn) (m : Nat) :
    ∀ (cands : List ScoredPointOffset) (acc : List Nat), acc.length ≤ m →
      GraphLinearBuilder.select_loop s m cands acc = RefBuilder.refSelect t m cands acc := by
  intro cands
  induction cands with
  | nil => intro acc _; rfl
  | cons c rest ih =>
    intro acc hacc
    rw [GraphLinearBuilder.select_loop, RefBuilder.refSelect]
    by_cases hlen : acc.length = m
    · rw [if_pos (by omega), if_pos hlen]
    · rw [if_neg (by omega), if_neg hlen]
      have hcond : (∀ sel ∈ acc, GraphLinearBuilder.score s c.idx sel ≤ c.score) ↔
          (∀ sel ∈ acc, t.score_fn c.idx sel ≤ c.score) := by
        unfold GraphLinearBuilder.score
        rw [hsf]
      by_cases hgood : ∀ sel ∈ acc, t.score_fn c.idx sel ≤ c.score
      · rw [if_pos (hcond.mpr hgood), if_pos hgood]
        refine ih _ ?_
        rw [List.length_append, List.length_singleton]
        omega
      · rw [if_neg (fun h2 => hgood (hcond.mp h2)), if_neg hgood]
        exact ih _ hacc

theorem sim_select_sorted (s : GraphLinearBuilder) (t : RefBuilder)
    (hsf : s.score_fn = t.score_fn) (cands : List ScoredPointOffset) (m : Nat) :
    GraphLinearBuilder.select_candidate_with_heuristic_from_sorted s cands m =
      RefBuilder.refSelect t m cands [] :=
  sim_select s t hsf m cands [] (Nat.zero_le m)

theorem sim_expand (s : GraphLinearBuilder) (t : RefBuilder)
    (hsf : s.score_fn = t.score_fn) (id : Nat) :
    ∀ (links : List Nat) (st : SearchState),
      expand s id links st = RefBuilder.refExpand t id links st := by
  intro links
  induction links with
  | nil => intro st; rfl
  | cons x rest ih =>
    intro st
    rw [expand, RefBuilder.refExpand]
    by_cases hx : x ∈ st.visited
    · rw [if_pos hx, if_pos hx]
      exact ih st
    · rw [if_neg hx, if_neg hx]
      have hsc : GraphLinearBuilder.score s x id = t.score_fn x id := by
        unfold GraphLinearBuilder.score
        rw [hsf]
      rw [hsc]
      exact ih _

theorem sim_searchLoop (s : GraphLinearBuilder) (t : RefBuilder)
    (hsf : s.score_fn = t.score_fn)
    (hlinks : ∀ p l, GraphLinearBuilder.get_links s p l = t.links p l)
    (id level : Nat) :
    ∀ (fuel : Nat) (st : SearchState),
      searchLoop s id level fuel st = RefBuilder.refSearchLoop t id level fuel st := by
  intro fuel
  induction fuel with
  | zero => intro st; rfl
  | succ n ih =>
    intro st
    rw [searchLoop_succ, refSearchLoop_succ]
    cases hpop : heapPop st.candidates with
    | none => rfl
    | some pr =>
      obtain ⟨c, rest⟩ := pr
      simp only
      by_cases hbrk : (match st.nearest.top with
          | none => false
          | some worst => decide (c.score < worst.score)) = true
      · rw [if_pos hbrk, if_pos hbrk]
      · rw [if_neg hbrk, if_neg hbrk, hlinks c.idx level,
          sim_expand s t hsf id (t.links c.idx level) _]
        exact ih _

theorem sim_search (s : GraphLinearBuilder) (t : RefBuilder) (hSim : SimR s t)
    (p level : Nat) (entry : ScoredPointOffset)
    (hself : GraphLinearBuilder.get_links s p level = []) :
    GraphLinearBuilder.search_on_level s p entry level =
      RefBuilder.refSearchOnLevel t p entry level := by
  obtain ⟨hm, hm0, hef, hpl, hep, hsf, hlinks⟩ := hSim
  have hselft : t.links p level = [] := by
    rw [← hlinks p level]
    exact hself
  unfold GraphLinearBuilder.search_on_level RefBuilder.refSearchOnLevel
  unfold existingLinksPass
  rw [hself, hselft]
  show (offerExisting s p [] _).nearest = (RefBuilder.refOfferExisting t p [] _).nearest
  rw [offerExisting, RefBuilder.refOfferExisting]
  have hinit : GraphLinearBuilder.searchInit s entry =
      ({ visited := [entry.idx]
         nearest := ((FixedLengthPriorityQueue.new t.ef_construct).push entry).2
         candidates := [entry] } : SearchState) := by
    unfold GraphLinearBuilder.searchInit
    rw [hef]
  have hnum : GraphLinearBuilder.num_points s = t.point_levels.length := by
    unfold GraphLinearBuilder.num_points
    rw [hpl]
  rw [hinit, hnum, sim_searchLoop s t hsf hlinks p level _ _]

theorem sim_greedyScan (s : GraphLinearBuilder) (t : RefBuilder)
    (hsf : s.score_fn = t.score_fn)
    (hlinks : ∀ p l, GraphLinearBuilder.get_links s p l = t.links p l)
    (id level : Nat) (cur : ScoredPointOffset) :
    GraphLinearBuilder.greedyScan s id level cur = RefBuilder.refGreedyScan t id level cur := by
  unfold GraphLinearBuilder.greedyScan RefBuilder.refGreedyScan
  rw [hlinks cur.idx level]
  generalize t.links cur.idx level = ls
  induction ls generalizing cur with
  | nil => rfl
  | cons x rest ih =>
    rw [List.foldl_cons, List.foldl_cons]
    simp only
    have hsc : GraphLinearBuilder.score s x id = t.score_fn x id := by
      unfold GraphLinearBuilder.score
      rw [hsf]
    rw [hsc]
    exact ih _

theorem sim_greedyLoop (s : GraphLinearBuilder) (t : RefBuilder)
    (hsf : s.score_fn = t.score_fn)
    (hlinks : ∀ p l, GraphLinearBuilder.get_links s p l = t.links p l)
    (id level : Nat) :
    ∀ (fuel : Nat) (cur : ScoredPointOffset),
      GraphLinearBuilder.greedyLoop s id level fuel cur =
        RefBuilder.refGreedyLoop t id level fuel cur := by
  intro fuel
  induction fuel with
  | zero => intro cur; rfl
  | succ n ih =>
    intro cur
    rw [GraphLinearBuilder.greedyLoop, RefBuilder.refGreedyLoop]
    rw [sim_greedyScan s t hsf hlinks id level cur]
    by_cases hup : cur.score < (RefBuilder.refGreedyScan t id level cur).score
    · rw [if_pos hup, if_pos hup, ih _]
    · rw [if_neg hup, if_neg hup]

theorem sim_search_entry (s : GraphLinearBuilder) (t : RefBuilder)
    (hsf : s.score_fn = t.score_fn)
    (hlinks : ∀ p l, GraphLinearBuilder.get_links s p l = t.links p l)
    (hpl : s.point_levels = t.point_levels)
    (id entry_point top_level target_level : Nat) :
    GraphLinearBuilder.search_entry s id entry_point top_level target_level =
      RefBuilder.refSearchEntry t id entry_point top_level target_level := by
  unfold GraphLinearBuilder.search_entry RefBuilder.refSearchEntry
  have hnum : GraphLinearBuilder.num_points s = t.point_levels.length := by
    unfold GraphLinearBuilder.num_points
    rw [hpl]
  have hstart : (⟨entry_point, GraphLinearBuilder.score s id entry_point⟩ :
      ScoredPointOffset) = ⟨entry_point, t.score_fn id entry_point⟩ := by
    unfold GraphLinearBuilder.score
    rw [hsf]
  rw [hstart, hnum]
  have hfun : (fun (cur : ScoredPointOffset) (level : Nat) =>
      GraphLinearBuilder.greedyLoop s id level (t.point_levels.length + 1) cur) =
      (fun (cur : ScoredPointOffset) (level : Nat) =>
        RefBuilder.refGreedyLoop t id level (t.point_levels.length + 1) cur) := by
    funext cur level
    exact sim_greedyLoop s t hsf hlinks id level _ cur
  rw [hfun]

theorem simR_set_links (s : GraphLinearBuilder) (t : RefBuilder) (hSim : SimR s t)
    (q level : Nat) (xs : List Nat)
    (hLay : GraphLinearBuilder.LayerInv s)
    (hCnt : GraphLinearBuilder.CountInv s)
    (hq : q < GraphLinearBuilder.num_points s)
    (hxs : xs.length ≤ GraphLinearBuilder.get_m s level)
    (hlvl : level < s.links_layers.length) :
    SimR (GraphLinearBuilder.set_links s q level xs) (t.set_links q level xs) := by
  obtain ⟨hm, hm0, hef, hpl, hep, hsf, hlinks⟩ := hSim
  refine ⟨hm, hm0, hef, hpl, hep, hsf, ?_⟩
  intro p' l'
  show GraphLinearBuilder.get_links (GraphLinearBuilder.set_links s q level xs) p' l' =
    (if p' = q ∧ l' = level then xs else t.links p' l')
  by_cases hl' : l' = level
  · subst hl'
    by_cases hp' : p' = q
    · subst hp'
      rw [if_pos ⟨rfl, rfl⟩]
      exact GraphLinearBuilder.get_links_set_links_same s p' l' xs hlvl
        (hLay l' hlvl) hq hxs
    · rw [if_neg (fun hc => hp' hc.1)]
      rw [GraphLinearBuilder.get_links_set_links_point_ne s q l' xs p' hp'
        (fun hl => hLay l' hl) hq hxs (hCnt p' l')]
      exact hlinks p' l'
  · rw [if_neg (fun hc => hl' hc.2)]
    rw [GraphLinearBuilder.get_links_set_links_level_ne s q level xs p' l'
      (fun hc => hl' hc.symm)]
    exact hlinks p' l'

theorem simR_writePairs (level : Nat) (pairs : List (Nat × List Nat)) :
    ∀ (s : GraphLinearBuilder) (t : RefBuilder), SimR s t →
      GraphLinearBuilder.LayerInv s → GraphLinearBuilder.CountInv s →
      (∀ pr ∈ pairs, pr.1 < GraphLinearBuilder.num_points s) →
      (∀ pr ∈ pairs, pr.2.length ≤ GraphLinearBuilder.get_m s level) →
      level < s.links_layers.length →
      SimR (GraphLinearBuilder.writePairs level s pairs)
        (RefBuilder.refWritePairs level t pairs) := by
  induction pairs with
  | nil => intro s t hSim _ _ _ _ _; exact hSim
  | cons pr rest ih =>
    intro s t hSim hLay hCnt hN hlen hlvl
    rw [GraphLinearBuilder.writePairs_cons]
    have hstep := simR_set_links s t hSim pr.1 level pr.2 hLay hCnt
      (hN pr (List.mem_cons_self pr rest)) (hlen pr (List.mem_cons_self pr rest)) hlvl
    refine ih _ _ hstep
      (GraphLinearBuilder.layerInv_set_links s pr.1 level pr.2 hLay
        (hN pr (List.mem_cons_self pr rest)) (hlen pr (List.mem_cons_self pr rest)))
      (GraphLinearBuilder.countInv_set_links s pr.1 level pr.2 hCnt hLay
        (hN pr (List.mem_cons_self pr rest)) (hlen pr (List.mem_cons_self pr rest)))
      ?_ ?_ ?_
    · intro pr2 h2
      rw [GraphLinearBuilder.num_points_set_links]
      exact hN pr2 (List.mem_cons_of_mem pr h2)
    · intro pr2 h2
      rw [GraphLinearBuilder.get_m_set_links]
      exact hlen pr2 (List.mem_cons_of_mem pr h2)
    · rw [GraphLinearBuilder.length_links_layers_set_links]
      exact hlvl

theorem refSet_links_ne (t : RefBuilder) (q level : Nat) (xs : List Nat)
    (q2 l2 : Nat) (h : ¬ (q2 = q ∧ l2 = level)) :
    (t.set_links q level xs).links q2 l2 = t.links q2 l2 := by
  show (if q2 = q ∧ l2 = level then xs else t.links q2 l2) = t.links q2 l2
  rw [if_neg h]

/-- The sequential neighbour update of the reference linker unfolds to a
fixed write sequence: because the written points are pairwise distinct,
each read of a neighbour's list sees the pre-loop store. -/
theorem refFold_eq_writePairs (t : RefBuilder) (level : Nat)
    (F : Nat → List Nat → List Nat) :
    ∀ (lks : List Nat) (t0 : RefBuilder),
      (∀ q ∈ lks, t0.links q level = t.links q level) → lks.Nodup →
      lks.foldl (fun tc q => tc.set_links q level (F q (tc.links q level))) t0 =
        RefBuilder.refWritePairs level t0 (lks.map (fun q => (q, F q (t.links q level)))) := by
  intro lks
  induction lks with
  | nil => intro t0 _ _; rfl
  | cons q rest ih =>
    intro t0 hread hnd
    rw [List.foldl_cons, List.map_cons]
    have hq : t0.links q level = t.links q level := hread q (List.mem_cons_self q rest)
    rw [hq]
    have hstep : RefBuilder.refWritePairs level t0
        ((q, F q (t.links q level)) :: rest.map (fun q2 => (q2, F q2 (t.links q2 level)))) =
        RefBuilder.refWritePairs level (t0.set_links q level (F q (t.links q level)))
          (rest.map (fun q2 => (q2, F q2 (t.links q2 level)))) := rfl
    rw [hstep]
    refine ih _ ?_ (List.nodup_cons.mp hnd).2
    intro q2 h2
    rw [refSet_links_ne]
    · exact hread q2 (List.mem_cons_of_mem q h2)
    · intro hc
      exact (List.nodup_cons.mp hnd).1 (hc.1 ▸ h2)

/-- One link-and-apply step simulates one reference level step: the
post-application states stay related and the entries passed down agree. -/
theorem sim_link_apply (levels0 linked : List Nat) (p lvl : Nat)
    (s : GraphLinearBuilder) (t : RefBuilder) (entry : ScoredPointOffset)
    (hRun : RunInv levels0 (linked ++ [p]) s)
    (hFresh : FreshBelow s p lvl)
    (hent : entry.idx ∈ linked)
    (hp : p < levels0.length)
    (hpl : p ∉ linked)
    (hlvl : lvl < s.links_layers.length)
    (hSim : SimR s t) :
    SimR (GraphLinearBuilder.apply_link_response s
        (GraphLinearBuilder.link s ⟨p, lvl, entry⟩))
      (RefBuilder.refLinkLevel t p lvl entry).1 ∧
    (GraphLinearBuilder.link s ⟨p, lvl, entry⟩).entry =
      (RefBuilder.refLinkLevel t p lvl entry).2 := by
  obtain ⟨hmemlinks, hnodupLinks, hentry, hpairs, hndfst⟩ :=
    link_step_props levels0 linked p lvl s entry hRun hFresh hent hp hpl
  have hSim2 := hSim
  obtain ⟨hm, hm0, hef, hplv, hep, hsf, hlinks⟩ := hSim2
  have hLay := hRun.1
  have hCnt := hRun.2.1
  have hlev := hRun.2.2.1
  have hself : GraphLinearBuilder.get_links s p lvl = [] := (hFresh lvl (le_refl lvl)).1
  have hsearch := sim_search s t hSim p lvl entry hself
  have hgm : GraphLinearBuilder.get_m s lvl = RefBuilder.get_m t lvl := by
    unfold GraphLinearBuilder.get_m RefBuilder.get_m
    rw [hm, hm0]
  have hNP : GraphLinearBuilder.num_points s = levels0.length := by
    unfold GraphLinearBuilder.num_points
    rw [hlev]
  have hscall : ∀ a b, GraphLinearBuilder.score s a b = t.score_fn a b := by
    intro a b
    unfold GraphLinearBuilder.score
    rw [hsf]
  have hlks : (GraphLinearBuilder.link s ⟨p, lvl, entry⟩).links =
      RefBuilder.refSelect t (RefBuilder.get_m t lvl)
        (RefBuilder.refSearchOnLevel t p entry lvl).elems.reverse [] := by
    show GraphLinearBuilder.select_candidate_with_heuristic_from_sorted s
        (GraphLinearBuilder.search_on_level s p entry lvl).elems.reverse
        (GraphLinearBuilder.get_m s lvl) =
      RefBuilder.refSelect t (RefBuilder.get_m t lvl)
        (RefBuilder.refSearchOnLevel t p entry lvl).elems.reverse []
    rw [hsearch, hgm, sim_select_sorted s t hsf _ _]
  have hentq : (GraphLinearBuilder.link s ⟨p, lvl, entry⟩).entry =
      (RefBuilder.refLinkLevel t p lvl entry).2 := by
    show (heapMax (GraphLinearBuilder.search_on_level s p entry lvl).elems).getD entry =
      (heapMax (RefBuilder.refSearchOnLevel t p entry lvl).elems).getD entry
    rw [hsearch]
  have hzip : (GraphLinearBuilder.link s ⟨p, lvl, entry⟩).neighbor_ids.zip
      (GraphLinearBuilder.link s ⟨p, lvl, entry⟩).neighbor_links =
      (GraphLinearBuilder.link s ⟨p, lvl, entry⟩).links.map (fun q =>
        (q, if (GraphLinearBuilder.get_links s q lvl).length <
            GraphLinearBuilder.get_m s lvl then
          GraphLinearBuilder.get_links s q lvl ++ [p]
        else
          GraphLinearBuilder.select_candidate_with_heuristic_from_sorted s
            (sortSpo (⟨p, GraphLinearBuilder.score s p q⟩ ::
              ((GraphLinearBuilder.get_links s q lvl).take
                  (GraphLinearBuilder.get_m s lvl)).map
                (fun l => ⟨l, GraphLinearBuilder.score s l q⟩))).reverse
            (GraphLinearBuilder.get_m s lvl))) :=
    link_zip_eq s ⟨p, lvl, entry⟩
  have hmapall : ∀ q,
      ((q, if (GraphLinearBuilder.get_links s q lvl).length <
          GraphLinearBuilder.get_m s lvl then
        GraphLinearBuilder.get_links s q lvl ++ [p]
      else
        GraphLinearBuilder.select_candidate_with_heuristic_from_sorted s
          (sortSpo (⟨p, GraphLinearBuilder.score s p q⟩ ::
            ((GraphLinearBuilder.get_links s q lvl).take
                (GraphLinearBuilder.get_m s lvl)).map
              (fun l => ⟨l, GraphLinearBuilder.score s l q⟩))).reverse
          (GraphLinearBuilder.get_m s lvl)) : Nat × List Nat) =
      ((q, if (t.links q lvl).length < RefBuilder.get_m t lvl then
        t.links q lvl ++ [p]
      else
        RefBuilder.refSelect t (RefBuilder.get_m t lvl)
          (sortSpo (⟨p, t.score_fn p q⟩ ::
            ((t.links q lvl).take (RefBuilder.get_m t lvl)).map
              (fun x => ⟨x, t.score_fn x q⟩))).reverse []) : Nat × List Nat) := by
    intro q
    have hmapfn : (fun l => (⟨l, GraphLinearBuilder.score s l q⟩ : ScoredPointOffset)) =
        (fun x => (⟨x, t.score_fn x q⟩ : ScoredPointOffset)) := by
      funext l
      show (⟨l, GraphLinearBuilder.score s l q⟩ : ScoredPointOffset) =
        ⟨l, t.score_fn l q⟩
      rw [hscall l q]
    rw [hlinks q lvl, hgm, hscall p q, hmapfn, sim_select_sorted s t hsf _ _]
  have hpairseq : ((p, (GraphLinearBuilder.link s ⟨p, lvl, entry⟩).links) ::
      (GraphLinearBuilder.link s ⟨p, lvl, entry⟩).neighbor_ids.zip
        (GraphLinearBuilder.link s ⟨p, lvl, entry⟩).neighbor_links) =
      ((p, RefBuilder.refSelect t (RefBuilder.get_m t lvl)
          (RefBuilder.refSearchOnLevel t p entry lvl).elems.reverse []) ::
        (RefBuilder.refSelect t (RefBuilder.get_m t lvl)
          (RefBuilder.refSearchOnLevel t p entry lvl).elems.reverse []).map (fun q =>
          (q, if (t.links q lvl).length < RefBuilder.get_m t lvl then
            t.links q lvl ++ [p]
          else
            RefBuilder.refSelect t (RefBuilder.get_m t lvl)
              (sortSpo (⟨p, t.score_fn p q⟩ ::
                ((t.links q lvl).take (RefBuilder.get_m t lvl)).map
                  (fun x => ⟨x, t.score_fn x q⟩))).reverse []))) := by
    rw [hzip, hlks]
    exact congrArg (List.cons _) (List.map_congr_left (fun q _ => hmapall q))
  have hplks : p ∉ RefBuilder.refSelect t (RefBuilder.get_m t lvl)
      (RefBuilder.refSearchOnLevel t p entry lvl).elems.reverse [] := by
    rw [← hlks]
    exact (hpairs _ (List.mem_cons_self _ _)).2.2.2.1
  have hndlks : (RefBuilder.refSelect t (RefBuilder.get_m t lvl)
      (RefBuilder.refSearchOnLevel t p entry lvl).elems.reverse []).Nodup := by
    rw [← hlks]
    exact hnodupLinks
  have hread : ∀ q ∈ RefBuilder.refSelect t (RefBuilder.get_m t lvl)
      (RefBuilder.refSearchOnLevel t p entry lvl).elems.reverse [],
      (RefBuilder.set_links t p lvl (RefBuilder.refSelect t (RefBuilder.get_m t lvl)
        (RefBuilder.refSearchOnLevel t p entry lvl).elems.reverse [])).links q lvl =
        t.links q lvl := by
    intro q hq
    refine refSet_links_ne t p lvl _ q lvl ?_
    intro hc
    exact hplks (hc.1 ▸ hq)
  have hreft : (RefBuilder.refLinkLevel t p lvl entry).1 =
      RefBuilder.refWritePairs lvl t
        ((p, RefBuilder.refSelect t (RefBuilder.get_m t lvl)
            (RefBuilder.refSearchOnLevel t p entry lvl).elems.reverse []) ::
          (RefBuilder.refSelect t (RefBuilder.get_m t lvl)
            (RefBuilder.refSearchOnLevel t p entry lvl).elems.reverse []).map (fun q =>
            (q, if (t.links q lvl).length < RefBuilder.get_m t lvl then
              t.links q lvl ++ [p]
            else
              RefBuilder.refSelect t (RefBuilder.get_m t lvl)
                (sortSpo (⟨p, t.score_fn p q⟩ ::
                  ((t.links q lvl).take (RefBuilder.get_m t lvl)).map
                    (fun x => ⟨x, t.score_fn x q⟩))).reverse []))) :=
    refFold_eq_writePairs t lvl
      (fun q ql => if ql.length < RefBuilder.get_m t lvl then ql ++ [p]
        else RefBuilder.refSelect t (RefBuilder.get_m t lvl)
          (sortSpo (⟨p, t.score_fn p q⟩ ::
            (ql.take (RefBuilder.get_m t lvl)).map
              (fun x => ⟨x, t.score_fn x q⟩))).reverse [])
      (RefBuilder.refSelect t (RefBuilder.get_m t lvl)
        (RefBuilder.refSearchOnLevel t p entry lvl).elems.reverse [])
      (RefBuilder.set_links t p lvl (RefBuilder.refSelect t (RefBuilder.get_m t lvl)
        (RefBuilder.refSearchOnLevel t p entry lvl).elems.reverse []))
      hread hndlks
  rw [← hpairseq] at hreft
  have hNpairs : ∀ pr ∈ ((p, (GraphLinearBuilder.link s ⟨p, lvl, entry⟩).links) ::
      (GraphLinearBuilder.link s ⟨p, lvl, entry⟩).neighbor_ids.zip
        (GraphLinearBuilder.link s ⟨p, lvl, entry⟩).neighbor_links),
      pr.1 < GraphLinearBuilder.num_points s := by
    intro pr hpr
    rw [hNP]
    exact (hpairs pr hpr).1
  have hlenpairs : ∀ pr ∈ ((p, (GraphLinearBuilder.link s ⟨p, lvl, entry⟩).links) ::
      (GraphLinearBuilder.link s ⟨p, lvl, entry⟩).neighbor_ids.zip
        (GraphLinearBuilder.link s ⟨p, lvl, entry⟩).neighbor_links),
      pr.2.length ≤ GraphLinearBuilder.get_m s lvl :=
    fun pr hpr => (hpairs pr hpr).2.1
  have happly : GraphLinearBuilder.apply_link_response s
      (GraphLinearBuilder.link s ⟨p, lvl, entry⟩) =
      GraphLinearBuilder.writePairs lvl s
        ((p, (GraphLinearBuilder.link s ⟨p, lvl, entry⟩).links) ::
          (GraphLinearBuilder.link s ⟨p, lvl, entry⟩).neighbor_ids.zip
            (GraphLinearBuilder.link s ⟨p, lvl, entry⟩).neighbor_links) := rfl
  refine ⟨?_, hentq⟩
  rw [happly, hreft]
  exact simR_writePairs lvl _ s t hSim hLay hCnt hNpairs hlenpairs hlvl

/-- The level-descent loop of the linker simulates the reference
level-descent loop. -/
theorem sim_link_level (levels0 linked : List Nat) (p : Nat) :
    ∀ (lvl : Nat) (s : GraphLinearBuilder) (t : RefBuilder) (entry : ScoredPointOffset),
      RunInv levels0 (linked ++ [p]) s →
      FreshBelow s p lvl →
      entry.idx ∈ linked →
      p < levels0.length →
      p ∉ linked →
      lvl < s.links_layers.length →
      SimR s t →
      SimR (GraphLinearBuilder.link_level p lvl s entry)
        (RefBuilder.refLinkLoop p lvl t entry) := by
  intro lvl
  induction lvl with
  | zero =>
    intro s t entry hRun hFresh hent hp hpl hlvl hSim
    exact (sim_link_apply levels0 linked p 0 s t entry hRun hFresh hent hp hpl hlvl
      hSim).1
  | succ l ih =>
    intro s t entry hRun hFresh hent hp hpl hlvl hSim
    obtain ⟨hSimStep, hentStep⟩ := sim_link_apply levels0 linked p (l + 1) s t entry
      hRun hFresh hent hp hpl hlvl hSim
    obtain ⟨hRun3, hFresh3, hent3⟩ :=
      link_apply_inv levels0 linked p (l + 1) s entry hRun hFresh hent hp hpl hlvl
    have hlvl3 : l < (GraphLinearBuilder.apply_link_response s
        (GraphLinearBuilder.link s ⟨p, l + 1, entry⟩)).links_layers.length := by
      have h1 := hRun3.2.2.2.1
      have h2 := hRun.2.2.2.1
      omega
    have hFresh4 : FreshBelow (GraphLinearBuilder.apply_link_response s
        (GraphLinearBuilder.link s ⟨p, l + 1, entry⟩)) p l := by
      intro l2 hl2
      exact hFresh3 l2 (by omega)
    have hent4 : ((RefBuilder.refLinkLevel t p (l + 1) entry).2).idx ∈ linked :=
      hentStep ▸ hent3
    have hgoal := ih (GraphLinearBuilder.apply_link_response s
        (GraphLinearBuilder.link s ⟨p, l + 1, entry⟩))
      (RefBuilder.refLinkLevel t p (l + 1) entry).1
      (RefBuilder.refLinkLevel t p (l + 1) entry).2
      hRun3 hFresh4 hent4 hp hpl hlvl3 hSimStep
    show SimR (GraphLinearBuilder.link_level p l
        (GraphLinearBuilder.apply_link_response s
          (GraphLinearBuilder.link s ⟨p, l + 1, entry⟩))
        (GraphLinearBuilder.link s ⟨p, l + 1, entry⟩).entry)
      (RefBuilder.refLinkLoop p l (RefBuilder.refLinkLevel t p (l + 1) entry).1
        (RefBuilder.refLinkLevel t p (l + 1) entry).2)
    rw [hentStep]
    exact hgoal

/-- One complete insertion of a fresh point simulates the reference
insertion. -/
theorem sim_link_new_point (levels0 linked : List Nat) (p : Nat)
    (s : GraphLinearBuilder) (t : RefBuilder)
    (hRun : RunInv levels0 linked s)
    (hp : p < levels0.length) (hpl : p ∉ linked)
    (hSim : SimR s t) :
    SimR (GraphLinearBuilder.link_new_point s p) (RefBuilder.link_new_point t p) := by
  have hRunC := hRun
  obtain ⟨hLay, hCnt, hlev, hlaylen, hltN, hreg, hnd, hself0, hsub, hempty⟩ := hRunC
  have hSim2 := hSim
  obtain ⟨hm, hm0, hef, hplv, hep, hsf, hlinks⟩ := hSim2
  have hlevp : GraphLinearBuilder.get_point_level s p = t.point_levels.getD p 0 := by
    unfold GraphLinearBuilder.get_point_level
    rw [hplv]
  have hlinkedN : ∀ x ∈ linked ++ [p], x < levels0.length := by
    intro x hx
    rcases List.mem_append.mp hx with h | h
    · exact hltN x h
    · have hxp : x = p := by simpa using h
      rw [hxp]
      exact hp
  have hregsub : ∀ e ∈ (s.entry_points.new_point p
      (GraphLinearBuilder.get_point_level s p)).2.points, e.id ∈ linked ++ [p] := by
    intro e he
    rcases new_point_points_sub s.entry_points p _ e he with h | h
    · exact List.mem_append.mpr (Or.inl (hreg e h))
    · rw [h]
      exact List.mem_append.mpr (Or.inr (List.mem_singleton_self p))
  have hRunBase : RunInv levels0 (linked ++ [p])
      { s with entry_points := (s.entry_points.new_point p
        (GraphLinearBuilder.get_point_level s p)).2 } := by
    refine ⟨hLay, hCnt, hlev, hlaylen, hlinkedN, hregsub, hnd, hself0, ?_, ?_⟩
    · intro q l x hx
      exact List.mem_append.mpr (Or.inl (hsub q l x hx))
    · intro q hq l
      refine hempty q ?_ l
      intro hql
      exact hq (List.mem_append.mpr (Or.inl hql))
  have hSim1 : SimR
      { s with entry_points := (s.entry_points.new_point p
        (GraphLinearBuilder.get_point_level s p)).2 }
      { t with entry_points := (t.entry_points.new_point p
        (GraphLinearBuilder.get_point_level s p)).2 } := by
    refine ⟨hm, hm0, hef, hplv, ?_, hsf, hlinks⟩
    show (s.entry_points.new_point p (GraphLinearBuilder.get_point_level s p)).2 =
      (t.entry_points.new_point p (GraphLinearBuilder.get_point_level s p)).2
    rw [hep]
  cases hbe : EntryPoints.bestEntry s.entry_points.points with
  | none =>
    have hbeT : EntryPoints.bestEntry t.entry_points.points = none := by
      rw [← hep]
      exact hbe
    have heqS : GraphLinearBuilder.link_new_point s p =
        { s with entry_points := (s.entry_points.new_point p
          (GraphLinearBuilder.get_point_level s p)).2 } := by
      unfold GraphLinearBuilder.link_new_point GraphLinearBuilder.get_link_request
      simp only [EntryPoints.new_point, hbe]
    have heqT : RefBuilder.link_new_point t p =
        { t with entry_points := (t.entry_points.new_point p
          (t.point_levels.getD p 0)).2 } := by
      unfold RefBuilder.link_new_point
      simp only [EntryPoints.new_point, hbeT]
    rw [heqS, heqT, ← hlevp]
    exact hSim1
  | some ep =>
    have hbeT : EntryPoints.bestEntry t.entry_points.points = some ep := by
      rw [← hep]
      exact hbe
    have hepid : ep.id ∈ linked := hreg ep (bestEntry_mem hbe)
    have heqS : GraphLinearBuilder.link_new_point s p =
        GraphLinearBuilder.link_level p
          (min (GraphLinearBuilder.get_point_level s p) ep.level)
          { s with entry_points := (s.entry_points.new_point p
            (GraphLinearBuilder.get_point_level s p)).2 }
          (if GraphLinearBuilder.get_point_level s p < ep.level then
            GraphLinearBuilder.search_entry
              { s with entry_points := (s.entry_points.new_point p
                (GraphLinearBuilder.get_point_level s p)).2 }
              p ep.id ep.level (GraphLinearBuilder.get_point_level s p)
          else ⟨ep.id, GraphLinearBuilder.score s p ep.id⟩) := by
      unfold GraphLinearBuilder.link_new_point GraphLinearBuilder.get_link_request
      simp only [EntryPoints.new_point, hbe]
    have heqT : RefBuilder.link_new_point t p =
        RefBuilder.refLinkLoop p (min (t.point_levels.getD p 0) ep.level)
          { t with entry_points := (t.entry_points.new_point p
            (t.point_levels.getD p 0)).2 }
          (if t.point_levels.getD p 0 < ep.level then
            RefBuilder.refSearchEntry
              { t with entry_points := (t.entry_points.new_point p
                (t.point_levels.getD p 0)).2 }
              p ep.id ep.level (t.point_levels.getD p 0)
          else ⟨ep.id, t.score_fn p ep.id⟩) := by
      unfold RefBuilder.link_new_point
      simp only [EntryPoints.new_point, hbeT]
    have hentries : (if GraphLinearBuilder.get_point_level s p < ep.level then
          GraphLinearBuilder.search_entry
            { s with entry_points := (s.entry_points.new_point p
              (GraphLinearBuilder.get_point_level s p)).2 }
            p ep.id ep.level (GraphLinearBuilder.get_point_level s p)
        else ⟨ep.id, GraphLinearBuilder.score s p ep.id⟩) =
        (if GraphLinearBuilder.get_point_level s p < ep.level then
          RefBuilder.refSearchEntry
            { t with entry_points := (t.entry_points.new_point p
              (GraphLinearBuilder.get_point_level s p)).2 }
            p ep.id ep.level (GraphLinearBuilder.get_point_level s p)
        else ⟨ep.id, t.score_fn p ep.id⟩) := by
      by_cases hcond : GraphLinearBuilder.get_point_level s p < ep.level
      · rw [if_pos hcond, if_pos hcond]
        exact sim_search_entry
          { s with entry_points := (s.entry_points.new_point p
            (GraphLinearBuilder.get_point_level s p)).2 }
          { t with entry_points := (t.entry_points.new_point p
            (GraphLinearBuilder.get_point_level s p)).2 }
          hsf hlinks hplv p ep.id ep.level
          (GraphLinearBuilder.get_point_level s p)
      · rw [if_neg hcond, if_neg hcond]
        show (⟨ep.id, GraphLinearBuilder.score s p ep.id⟩ : ScoredPointOffset) =
          ⟨ep.id, t.score_fn p ep.id⟩
        unfold GraphLinearBuilder.score
        rw [hsf]
    have hFresh1 : FreshBelow
        { s with entry_points := (s.entry_points.new_point p
          (GraphLinearBuilder.get_point_level s p)).2 } p
        (min (GraphLinearBuilder.get_point_level s p) ep.level) := by
      intro l _
      refine ⟨hempty p hpl l, ?_⟩
      intro q hq
      exact hpl (hsub q l p hq)
    have hlvl1 : min (GraphLinearBuilder.get_point_level s p) ep.level <
        ({ s with entry_points := (s.entry_points.new_point p
          (GraphLinearBuilder.get_point_level s p)).2 } :
          GraphLinearBuilder).links_layers.length := by
      have h1 : GraphLinearBuilder.get_point_level s p ≤ levels0.foldl Nat.max 0 := by
        unfold GraphLinearBuilder.get_point_level
        rw [hlev]
        exact getD_le_foldl_max levels0 p
      have h2 := Nat.min_le_left (GraphLinearBuilder.get_point_level s p) ep.level
      have h3 := hlaylen
      show min (GraphLinearBuilder.get_point_level s p) ep.level <
        s.links_layers.length
      omega
    have hent1 : (if GraphLinearBuilder.get_point_level s p < ep.level then
          GraphLinearBuilder.search_entry
            { s with entry_points := (s.entry_points.new_point p
              (GraphLinearBuilder.get_point_level s p)).2 }
            p ep.id ep.level (GraphLinearBuilder.get_point_level s p)
        else ⟨ep.id, GraphLinearBuilder.score s p ep.id⟩).idx ∈ linked := by
      by_cases hcond : GraphLinearBuilder.get_point_level s p < ep.level
      · rw [if_pos hcond]
        rcases search_entry_scope
            { s with entry_points := (s.entry_points.new_point p
              (GraphLinearBuilder.get_point_level s p)).2 }
            p ep.id ep.level (GraphLinearBuilder.get_point_level s p) with
          h | ⟨q, l, h⟩
        · rw [h]
          exact hepid
        · exact hsub q l _ h
      · rw [if_neg hcond]
        exact hepid
    rw [heqS, heqT, ← hlevp, ← hentries]
    exact sim_link_level levels0 linked p
      (min (GraphLinearBuilder.get_point_level s p) ep.level)
      { s with entry_points := (s.entry_points.new_point p
        (GraphLinearBuilder.get_point_level s p)).2 }
      { t with entry_points := (t.entry_points.new_point p
        (GraphLinearBuilder.get_point_level s p)).2 }
      (if GraphLinearBuilder.get_point_level s p < ep.level then
        GraphLinearBuilder.search_entry
          { s with entry_points := (s.entry_points.new_point p
            (GraphLinearBuilder.get_point_level s p)).2 }
          p ep.id ep.level (GraphLinearBuilder.get_point_level s p)
      else ⟨ep.id, GraphLinearBuilder.score s p ep.id⟩)
      hRunBase hFresh1 hent1 hp hpl hlvl1 hSim1

/-- A fresh builder is simulated by a fresh reference builder. -/
theorem simR_new (levels : List Nat) (m m0 ef num : Nat) (f : Nat → Nat → Int) :
    SimR (GraphLinearBuilder.new levels m m0 ef num f)
      (RefBuilder.new levels m m0 ef num f) := by
  refine ⟨rfl, rfl, rfl, rfl, rfl, rfl, ?_⟩
  intro q l
  rw [GraphLinearBuilder.get_links_new]
  rfl

/-- Insertion by insertion, the builder and the reference stay related. -/
theorem sim_build (levels0 : List Nat) :
    ∀ (ps linked : List Nat) (s : GraphLinearBuilder) (t : RefBuilder),
      RunInv levels0 linked s →
      (∀ x ∈ ps, x < levels0.length) →
      (linked ++ ps).Nodup →
      SimR s t →
      SimR (ps.foldl GraphLinearBuilder.link_new_point s)
        (ps.foldl RefBuilder.link_new_point t) := by
  intro ps
  induction ps with
  | nil =>
    intro linked s t _ _ _ hSim
    exact hSim
  | cons q rest ih =>
    intro linked s t hRun hN hnd hSim
    rw [List.foldl_cons, List.foldl_cons]
    have hq : q ∉ linked := by
      obtain ⟨-, -, hdisj⟩ := List.nodup_append.mp hnd
      intro hql
      exact hdisj hql (List.mem_cons_self q rest)
    have hstep := link_new_point_inv levels0 linked q s hRun
      (hN q (List.mem_cons_self q rest)) hq
    have hsimstep := sim_link_new_point levels0 linked q s t hRun
      (hN q (List.mem_cons_self q rest)) hq hSim
    have ht := ih (linked ++ [q]) _ _ hstep
      (fun x hx => hN x (List.mem_cons_of_mem q hx))
      (by
        rw [List.append_assoc]
        exact hnd)
      hsimstep
    exact ht

/-- C1 (oracle equivalence): for every input — point count and per-point
level assignment `levels`, parameters `m`, `m0`, `ef_construct`,
`entry_points_num`, and a fixed deterministic scorer — with the points
inserted in order `0..N-1`, the adjacency lists produced by the
single-threaded `GraphLinearBuilder` equal, for every `(point_id, level)`,
those produced by the reference implementation of the same algorithm
(modelled from the spec, §2–§4 and §8, as `RefBuilder`). -/
theorem c1_oracle_equivalence (levels : List Nat) (m m0 ef num : Nat)
    (f : Nat → Nat → Int) :
    ∀ p l, GraphLinearBuilder.get_links
        ((List.range levels.length).foldl GraphLinearBuilder.link_new_point
          (GraphLinearBuilder.new levels m m0 ef num f)) p l =
      ((List.range levels.length).foldl RefBuilder.link_new_point
        (RefBuilder.new levels m m0 ef num f)).links p l := by
  have h := sim_build levels (List.range levels.length) [] _ _
    (runInv_new levels m m0 ef num f)
    (fun x hx => List.mem_range.mp hx)
    (by simpa using List.nodup_range levels.length)
    (simR_new levels m m0 ef num f)
  exact h.2.2.2.2.2.2

/-- C7 (bounded degree): after every completed `link_new_point` — i.e.
for every sequence of distinct in-range insertions from a fresh builder —
every point `q` linked so far has, at every level up to its own,
a stored neighbour list of length at most `M(ℓ)` (`m0` at the base
layer, `m` above). -/
theorem c7_bounded_degree (levels : List Nat) (m m0 ef num : Nat)
    (f : Nat → Nat → Int) (ps : List Nat) (hne : levels ≠ [])
    (hps : ∀ x ∈ ps, x < levels.length) (hnd : ps.Nodup) :
    ∀ q ∈ ps, ∀ l, l ≤ GraphLinearBuilder.get_point_level
        (ps.foldl GraphLinearBuilder.link_new_point
          (GraphLinearBuilder.new levels m m0 ef num f)) q →
      (GraphLinearBuilder.get_links
          (ps.foldl GraphLinearBuilder.link_new_point
            (GraphLinearBuilder.new levels m m0 ef num f)) q l).length ≤
        GraphLinearBuilder.get_m
          (ps.foldl GraphLinearBuilder.link_new_point
            (GraphLinearBuilder.new levels m m0 ef num f)) l := by
  have hInv := build_inv levels ps []
    (GraphLinearBuilder.new levels m m0 ef num f)
    (runInv_new levels m m0 ef num f) hps (by simpa using hnd)
  intro q _ l _
  exact get_links_length_le _ hInv.2.1 q l

theorem c7_bounded_degree_witness :
    (([0, 0] : List Nat) ≠ [] ∧ (∀ x ∈ [0, 1], x < ([0, 0] : List Nat).length) ∧
        ([0, 1] : List Nat).Nodup) ∧
      (∀ q ∈ [0, 1], ∀ l, l ≤ GraphLinearBuilder.get_point_level
          (([0, 1] : List Nat).foldl GraphLinearBuilder.link_new_point
            (GraphLinearBuilder.new [0, 0] 1 2 4 10 (fun _ _ => 7))) q →
        (GraphLinearBuilder.get_links
            (([0, 1] : List Nat).foldl GraphLinearBuilder.link_new_point
              (GraphLinearBuilder.new [0, 0] 1 2 4 10 (fun _ _ => 7))) q l).length ≤
          GraphLinearBuilder.get_m
            (([0, 1] : List Nat).foldl GraphLinearBuilder.link_new_point
              (GraphLinearBuilder.new [0, 0] 1 2 4 10 (fun _ _ => 7))) l) :=
  ⟨⟨by decide, by decide, by decide⟩,
    c7_bounded_degree [0, 0] 1 2 4 10 (fun _ _ => 7) [0, 1]
      (by decide) (by decide) (by decide)⟩

/-- C8 (no self-loops): after every completed `link_new_point`, no point
linked so far occurs in its own stored neighbour list, at any level. -/
theorem c8_no_self_loops (levels : List Nat) (m m0 ef num : Nat)
    (f : Nat → Nat → Int) (ps : List Nat) (hne : levels ≠ [])
    (hps : ∀ x ∈ ps, x < levels.length) (hnd : ps.Nodup) :
    ∀ q ∈ ps, ∀ l, q ∉ GraphLinearBuilder.get_links
        (ps.foldl GraphLinearBuilder.link_new_point
          (GraphLinearBuilder.new levels m m0 ef num f)) q l := by
  have hInv := build_inv levels ps []
    (GraphLinearBuilder.new levels m m0 ef num f)
    (runInv_new levels m m0 ef num f) hps (by simpa using hnd)
  intro q _ l
  exact hInv.2.2.2.2.2.2.2.1 q l

theorem c8_no_self_loops_witness :
    (([0, 0] : List Nat) ≠ [] ∧ (∀ x ∈ [0, 1], x < ([0, 0] : List Nat).length) ∧
        ([0, 1] : List Nat).Nodup) ∧
      (∀ q ∈ [0, 1], ∀ l, q ∉ GraphLinearBuilder.get_links
          (([0, 1] : List Nat).foldl GraphLinearBuilder.link_new_point
            (GraphLinearBuilder.new [0, 0] 1 2 4 10 (fun _ _ => 6))) q l) :=
  ⟨⟨by decide, by decide, by decide⟩,
    c8_no_self_loops [0, 0] 1 2 4 10 (fun _ _ => 6) [0, 1]
      (by decide) (by decide) (by decide)⟩

/-- C9 (no duplicates): after every completed `link_new_point`, every
stored neighbour list of every point linked so far is duplicate-free, at
every level. -/
theorem c9_no_duplicates (levels : List Nat) (m m0 ef num : Nat)
    (f : Nat → Nat → Int) (ps : List Nat) (hne : levels ≠ [])
    (hps : ∀ x ∈ ps, x < levels.length) (hnd : ps.Nodup) :
    ∀ q ∈ ps, ∀ l, (GraphLinearBuilder.get_links
        (ps.foldl GraphLinearBuilder.link_new_point
          (GraphLinearBuilder.new levels m m0 ef num f)) q l).Nodup := by
  have hInv := build_inv levels ps []
    (GraphLinearBuilder.new levels m m0 ef num f)
    (runInv_new levels m m0 ef num f) hps (by simpa using hnd)
  intro q _ l
  exact hInv.2.2.2.2.2.2.1 q l

theorem c9_no_duplicates_witness :
    (([0, 0] : List Nat) ≠ [] ∧ (∀ x ∈ [0, 1], x < ([0, 0] : List Nat).length) ∧
        ([0, 1] : List Nat).Nodup) ∧
      (∀ q ∈ [0, 1], ∀ l, (GraphLinearBuilder.get_links
          (([0, 1] : List Nat).foldl GraphLinearBuilder.link_new_point
            (GraphLinearBuilder.new [0, 0] 1 2 4 10 (fun _ _ => 4))) q l).Nodup) :=
  ⟨⟨by decide, by decide, by decide⟩,
    c9_no_duplicates [0, 0] 1 2 4 10 (fun _ _ => 4) [0, 1]
      (by decide) (by decide) (by decide)⟩

end HnswSpec
